import Mathlib

/-!
# Committee resolutions of the identity contract

A shallow embedding of the committee governance code of the identity contract
(`identity-contract/src/common/Resolution.cpp`, `ResolutionManager.cpp`,
`Committee.cpp` and `methods/committee.cpp`) together with theorems about it.

Conventions of the embedding.

* `std::string` is `String`. A `const char*` ends at the first NUL: `c_str s`
  is the string a C string made from `s` reads as, and a JSON string handed
  out by the value library is read through it.
* `std::vector<std::string>` is `List String`; `push_back` appends at the end.
* A C++ method that mutates its object and returns `bool` becomes a function
  that returns the `Bool` together with the object after the call.
* A persistent `KeyValueStore` is passed explicitly: an operation takes the
  store before the call and returns the store after it.
* Text kept in a store or carried by a message is represented by the JSON value
  it denotes (`JValue`).
-/

namespace ww

/-! ## C strings -/

/-- `std::string::c_str()` read as a string again: the characters before the
first NUL. -/
def c_str (s : String) : String :=
  ⟨s.data.takeWhile (fun c => c != Char.ofNat 0)⟩

/-- The string holds no NUL: it is its own C string. -/
def NulFree (s : String) : Prop := c_str s = s

instance (s : String) : Decidable (NulFree s) :=
  inferInstanceAs (Decidable (c_str s = s))

/-! ## JSON values (`ww::value`) -/

/-- JSON values as handled by `ww::value::Value`. Numbers are the finite
doubles of JSON text, embedded exactly in the rationals. -/
inductive JValue where
  | null : JValue
  | boolean (b : Bool) : JValue
  | number (q : ℚ) : JValue
  | string (s : String) : JValue
  | array (items : List JValue) : JValue
  | object (fields : List (String × JValue)) : JValue

namespace JValue

/-- Modelled from the spec: `Object::get_value` of the JSON value library, which
is not part of the sources: the value of the first field with the given name. -/
def get_value : JValue → String → Option JValue
  | .object fields, key => fields.lookup key
  | _, _ => none

/-- The JSON string that `set_string(key, s.c_str())` and
`append_string(s.c_str())` make of a `std::string`. -/
def c_string (s : String) : JValue := .string (c_str s)

/-- Modelled from the spec: `Object::get_string`, a null pointer (`none`) when
the field is missing or is not a string; otherwise the C string of the field,
read as a string. -/
def get_string (obj : JValue) (key : String) : Option String :=
  match obj.get_value key with
  | some (.string s) => some (c_str s)
  | _ => none

/-- Modelled from the spec: `Object::get_number`, zero when the field is
missing or is not a number. -/
def get_number (obj : JValue) (key : String) : ℚ :=
  match obj.get_value key with
  | some (.number q) => q
  | _ => 0

/-- Modelled from the spec: `Object::get_value(key, array)` into a fresh
`ww::value::Array`, which stays empty when the field is missing or is not an
array. -/
def get_array (obj : JValue) (key : String) : List JValue :=
  match obj.get_value key with
  | some (.array items) => items
  | _ => []

/-- Modelled from the spec: `Array::deserialize`, which succeeds exactly on
text that denotes a JSON array. -/
def deserialize_array : JValue → Option (List JValue)
  | .array items => some items
  | _ => none

/-- The strings of an array whose elements are all strings: `Array::get_string`
at every index, each C string read as a string; `none` if it returns a null
pointer at some index. -/
def stringItems : List JValue → Option (List String)
  | [] => some []
  | .string s :: rest => (stringItems rest).map (fun l => c_str s :: l)
  | _ :: _ => none

mutual
/-- Modelled from the spec: schema validation of the JSON value library
(`validate_schema schema value`). A value matches a schema when it has the
type of the schema (a null schema matches everything), every element of an
array matches the first element of the schema array, and an object has, for
every field of the schema object, a field of that name that matches. -/
def validate_schema : JValue → JValue → Bool
  | .null, _ => true
  | .boolean _, .boolean _ => true
  | .number _, .number _ => true
  | .string _, .string _ => true
  | .array schema_items, .array items => validate_items schema_items items
  | .object schema_fields, .object fields =>
    decide (schema_fields.length ≤ fields.length) && validate_fields schema_fields fields
  | _, _ => false
/-- Array case of `validate_schema`: only the first schema element is used. -/
def validate_items : List JValue → List JValue → Bool
  | [], _ => true
  | schema_item :: _, items => items.all (fun v => validate_schema schema_item v)
/-- Object case of `validate_schema`, one schema field at a time. -/
def validate_fields : List (String × JValue) → List (String × JValue) → Bool
  | [], _ => true
  | (key, schema_value) :: rest, fields =>
    (match fields.lookup key with
     | some v => validate_schema schema_value v
     | none => false) && validate_fields rest fields
end

end JValue

/-! ## Collaborators that are not part of the sources -/

/-- Byte arrays (`ww::types::ByteArray`). -/
abbrev ByteArray := List UInt8

/-- The bytes of a `std::string`. -/
def stringBytes (s : String) : ByteArray := s.toUTF8.data.toList

/-- Modelled from the spec: the crypto primitives, "pure, synchronous and
failure-transparent" functions that the sources only call: hashing, base64
encoding and decoding, and signature verification (payload, key, signature). -/
structure Crypto where
  SHA256Hash : ByteArray → ByteArray
  b64_encode : ByteArray → String
  b64_decode : String → Option ByteArray
  verify_signature : ByteArray → String → ByteArray → Bool

/-- Modelled from the spec: the persistent store, `get(key) -> bytes | miss` and
`set(key, bytes) -> bool`. The class `KeyValueStore` is not part of the
sources. `entries` holds the stored pairs, at most one per key once written
through `set`; `accepts` stands for the collaborator's decision to carry out a
write or to refuse it. -/
structure KeyValueStore where
  entries : List (String × JValue)
  accepts : String → JValue → Bool

namespace KeyValueStore

/-- The value stored under a key, if any. -/
def get (store : KeyValueStore) (key : String) : Option JValue :=
  store.entries.lookup key

/-- Replace the value of the first pair with the given key, or add the pair at
the end when the key is new. -/
def put : List (String × JValue) → String → JValue → List (String × JValue)
  | [], key, v => [(key, v)]
  | (k, x) :: rest, key, v => if k = key then (key, v) :: rest else (k, x) :: put rest key v

/-- Write a value under a key; a refused write leaves the store as it was. -/
def set (store : KeyValueStore) (key : String) (v : JValue) : Bool × KeyValueStore :=
  if store.accepts key v then (true, { store with entries := put store.entries key v })
  else (false, store)

end KeyValueStore

namespace identity

/-! ## Resolution (`identity/common/Resolution.h`, `common/Resolution.cpp`) -/

/-- The enumeration `ww::identity::ResolutionStatus`. -/
inductive ResolutionStatus where
  | PENDING
  | APPROVED
  | REJECTED
  | EXPIRED
  deriving DecidableEq, Repr

/-- Numeric value of a status: `PENDING = 0`, `APPROVED = 1`, `REJECTED = 2`,
`EXPIRED = 3`. -/
def ResolutionStatus.toNat : ResolutionStatus → Nat
  | .PENDING => 0
  | .APPROVED => 1
  | .REJECTED => 2
  | .EXPIRED => 3

/-- The data members of `ww::identity::Resolution`. -/
structure Resolution where
  id_ : String
  serialized_credential_ : String
  status_ : ResolutionStatus
  positive_votes_ : List String
  negative_votes_ : List String
  deriving DecidableEq, Repr

/-- The default constructor `Resolution(void) : status_(PENDING)`. -/
def Resolution.default : Resolution :=
  { id_ := ""
    serialized_credential_ := ""
    status_ := .PENDING
    positive_votes_ := []
    negative_votes_ := [] }

/-- `Resolution::approve`: refuses when the status is not `PENDING`, when the
member already voted positively, or when the member already voted negatively;
otherwise pushes the member onto `positive_votes_`. -/
def Resolution.approve (r : Resolution) (committee_member_id : String) : Bool × Resolution :=
  if r.status_ ≠ .PENDING then (false, r)
  else if committee_member_id ∈ r.positive_votes_ then (false, r)
  else if committee_member_id ∈ r.negative_votes_ then (false, r)
  else (true, { r with positive_votes_ := r.positive_votes_ ++ [committee_member_id] })

/-- `Resolution::disapprove`: the same three refusals as `approve`; otherwise
pushes the member onto `negative_votes_`. -/
def Resolution.disapprove (r : Resolution) (committee_member_id : String) : Bool × Resolution :=
  if r.status_ ≠ .PENDING then (false, r)
  else if committee_member_id ∈ r.positive_votes_ then (false, r)
  else if committee_member_id ∈ r.negative_votes_ then (false, r)
  else (true, { r with negative_votes_ := r.negative_votes_ ++ [committee_member_id] })

/-- The constructor `Resolution(const std::string& serialized_credential)`: the
status is `PENDING`, the credential is kept, and the identifier is the base64
encoding of the SHA256 hash of the bytes of the credential. -/
def Resolution.fromCredential (crypto : Crypto) (serialized_credential : String) : Resolution :=
  { id_ := crypto.b64_encode (crypto.SHA256Hash (stringBytes serialized_credential))
    serialized_credential_ := serialized_credential
    status_ := .PENDING
    positive_votes_ := []
    negative_votes_ := [] }

/-- The schema `RESOLUTION_SCHEMA`. -/
def RESOLUTION_SCHEMA : JValue :=
  .object
    [ ("id", .string ""),
      ("status", .number 0),
      ("positive_votes", .array [.string ""]),
      ("negative_votes", .array [.string ""]),
      ("serialized_credential", .string "") ]

/-- `Resolution::verify_schema`. -/
def Resolution.verify_schema (deserialized_object : JValue) : Bool :=
  JValue.validate_schema RESOLUTION_SCHEMA deserialized_object

/-- `Resolution::serialize`: a structure of the resolution schema with the five
fields set; the id, the credential and every voter are handed over as
`c_str()`. Setting a field of the schema's type does not fail, so the result
is always present. -/
def Resolution.serialize (r : Resolution) : Option JValue :=
  some (.object
    [ ("id", JValue.c_string r.id_),
      ("status", .number (r.status_.toNat : ℚ)),
      ("positive_votes", .array (r.positive_votes_.map JValue.c_string)),
      ("negative_votes", .array (r.negative_votes_.map JValue.c_string)),
      ("serialized_credential", JValue.c_string r.serialized_credential_) ])

/-- The resolution that the serialization of `r` denotes: every string of `r`
cut at its first NUL. -/
def Resolution.c_strings (r : Resolution) : Resolution :=
  { id_ := c_str r.id_
    serialized_credential_ := c_str r.serialized_credential_
    status_ := r.status_
    positive_votes_ := r.positive_votes_.map c_str
    negative_votes_ := r.negative_votes_.map c_str }

/-- No string of the resolution holds a NUL. -/
def Resolution.NulFree (r : Resolution) : Prop :=
  ww.NulFree r.id_ ∧ ww.NulFree r.serialized_credential_ ∧
    (∀ voter ∈ r.positive_votes_, ww.NulFree voter) ∧
    (∀ voter ∈ r.negative_votes_, ww.NulFree voter)

instance (r : Resolution) : Decidable r.NulFree :=
  inferInstanceAs (Decidable (ww.NulFree r.id_ ∧ ww.NulFree r.serialized_credential_ ∧
    (∀ voter ∈ r.positive_votes_, ww.NulFree voter) ∧
    (∀ voter ∈ r.negative_votes_, ww.NulFree voter)))

/-- `SerializeableObject::serialize_string`: the serialized object as text. -/
def Resolution.serialize_string (r : Resolution) : Option JValue :=
  r.serialize

/-- The status with the given numeric value, `static_cast<ResolutionStatus>`.
Only the values 0 to 3 reach it, behind the range check of `deserialize`. -/
def ResolutionStatus.ofInt : Int → ResolutionStatus
  | 0 => .PENDING
  | 1 => .APPROVED
  | 2 => .REJECTED
  | _ => .EXPIRED

/-- One of the two vote loops of `Resolution::deserialize`: every element, a C
string, is pushed onto the votes already held; a null element stops the loop
with failure, the elements before it having been pushed. -/
def Resolution.pushVotes : List String → List JValue → Bool × List String
  | votes, [] => (true, votes)
  | votes, .string voter :: rest => Resolution.pushVotes (votes ++ [c_str voter]) rest
  | votes, _ :: _ => (false, votes)

/-- `Resolution::deserialize`: the fields are assigned in the order of the
source, so a failure part of the way leaves the earlier assignments in place.
The vote sequences are not cleared before the decoded votes are pushed. The
status number lies in 0..3 behind the range check, where the conversion to
`int` is the floor. -/
def Resolution.deserialize (r : Resolution) (serialized_object : JValue) : Bool × Resolution :=
  if ¬ Resolution.verify_schema serialized_object then (false, r)
  else
    match serialized_object.get_string "id" with
    | none => (false, r)
    | some id =>
      let r1 := { r with id_ := id }
      match serialized_object.get_string "serialized_credential" with
      | none => (false, r1)
      | some serialized_credential =>
        let r2 := { r1 with serialized_credential_ := serialized_credential }
        let v := serialized_object.get_number "status"
        if v < 0 ∨ v > 3 then (false, r2)
        else
          let r3 := { r2 with status_ := ResolutionStatus.ofInt (Rat.floor v) }
          match Resolution.pushVotes r3.positive_votes_ (serialized_object.get_array "positive_votes") with
          | (false, votes) => (false, { r3 with positive_votes_ := votes })
          | (true, votes) =>
            let r4 := { r3 with positive_votes_ := votes }
            match Resolution.pushVotes r4.negative_votes_
                (serialized_object.get_array "negative_votes") with
            | (false, votes) => (false, { r4 with negative_votes_ := votes })
            | (true, votes) => (true, { r4 with negative_votes_ := votes })

/-- `SerializeableObject::deserialize_string`: the text must denote a JSON
object, which is then handed to `deserialize`. -/
def Resolution.deserialize_string (r : Resolution) (serialized : JValue) : Bool × Resolution :=
  match serialized with
  | .object fields => r.deserialize (.object fields)
  | _ => (false, r)

/-- One voting call on a resolution object. -/
inductive VoteCall where
  | approve (voter : String)
  | disapprove (voter : String)
  deriving DecidableEq, Repr

/-- The member who makes a voting call. -/
def VoteCall.voter : VoteCall → String
  | .approve v => v
  | .disapprove v => v

/-- One voting call carried out: the returned flag and the resolution after. -/
def Resolution.perform (r : Resolution) : VoteCall → Bool × Resolution
  | .approve v => r.approve v
  | .disapprove v => r.disapprove v

/-- The resolution after one voting call (the returned flag is dropped). -/
def Resolution.call (r : Resolution) (c : VoteCall) : Resolution :=
  (r.perform c).2

/-- The resolution after a sequence of voting calls, first call first. -/
def Resolution.calls (r : Resolution) (cs : List VoteCall) : Resolution :=
  cs.foldl Resolution.call r

/-- The vote-set invariant: no identity repeated in either vote sequence and no
identity in both. -/
def Resolution.votesWellFormed (r : Resolution) : Prop :=
  r.positive_votes_.Nodup ∧ r.negative_votes_.Nodup ∧
    ∀ m, m ∈ r.positive_votes_ → m ∉ r.negative_votes_

/-- The member has a vote recorded in one of the two sequences. -/
def Resolution.hasVoted (r : Resolution) (m : String) : Prop :=
  m ∈ r.positive_votes_ ∨ m ∈ r.negative_votes_

/-! ## ResolutionManager (`common/ResolutionManager.cpp`)

The manager holds a handle on the persistent store; its methods take the store
before the call and return the store after it. -/

/-- The constant `ResolutionManager::resolution_list_key_`. -/
def ResolutionManager.resolution_list_key_ : String := "__RESOLUTION_LIST__"

/-- `ResolutionManager::initialize`: writes an empty array under the list key. -/
def ResolutionManager.initialize (store_ : KeyValueStore) : Bool × KeyValueStore :=
  store_.set ResolutionManager.resolution_list_key_ (.array [])

/-- `ResolutionManager::list_resolutions`: the stored list, element by element.
The source pushes `get_string(i)` without a null check; an element that is not
a string, for which the C++ is undefined, is reported here as no result. -/
def ResolutionManager.list_resolutions (store_ : KeyValueStore) : Option (List String) :=
  match store_.get ResolutionManager.resolution_list_key_ with
  | none => none
  | some serialized_resolution_list =>
    match JValue.deserialize_array serialized_resolution_list with
    | none => none
    | some resolution_array => JValue.stringItems resolution_array

/-- The duplicate scan of `add_resolution`: `true` when the loop runs to its
end, `false` when it leaves early on an element that is not a string or on an
element equal to the identifier. The comparison `resolution.id_ == id` is
between the whole identifier and the C string of the element. -/
def ResolutionManager.scan : List JValue → String → Bool
  | [], _ => true
  | .string id :: rest, resolution_id =>
    if resolution_id = c_str id then false else ResolutionManager.scan rest resolution_id
  | _ :: _, _ => false

/-- `ResolutionManager::add_resolution`: the payload is set under the whole
identifier, and `resolution.id_.c_str()` is appended to the list. -/
def ResolutionManager.add_resolution (store_ : KeyValueStore) (resolution : Resolution) :
    Bool × KeyValueStore :=
  match store_.get ResolutionManager.resolution_list_key_ with
  | none => (false, store_)
  | some serialized_resolution_list =>
    match JValue.deserialize_array serialized_resolution_list with
    | none => (false, store_)
    | some resolution_list =>
      if ¬ ResolutionManager.scan resolution_list resolution.id_ then (false, store_)
      else
        match resolution.serialize_string with
        | none => (false, store_)
        | some serialized_resolution =>
          match store_.set resolution.id_ serialized_resolution with
          | (false, store1) => (false, store1)
          | (true, store1) =>
            store1.set ResolutionManager.resolution_list_key_
              (.array (resolution_list ++ [JValue.c_string resolution.id_]))

/-- `ResolutionManager::update_resolution`. -/
def ResolutionManager.update_resolution (store_ : KeyValueStore) (resolution : Resolution) :
    Bool × KeyValueStore :=
  match resolution.serialize_string with
  | none => (false, store_)
  | some serialized_resolution => store_.set resolution.id_ serialized_resolution

/-- `ResolutionManager::get_resolution`: the stored text is deserialized into
the resolution object handed in by the caller. -/
def ResolutionManager.get_resolution (store_ : KeyValueStore) (resolution_id : String)
    (resolution : Resolution) : Bool × Resolution :=
  match store_.get resolution_id with
  | none => (false, resolution)
  | some serialized_resolution => resolution.deserialize_string serialized_resolution

/-- One call that writes the resolution store. -/
inductive StoreCall where
  | add (resolution : Resolution)
  | update (resolution : Resolution)

/-- The resolution handed to a call. -/
def StoreCall.resolution : StoreCall → Resolution
  | .add r => r
  | .update r => r

/-- One call carried out: the returned flag and the store after the call. -/
def ResolutionManager.perform (store_ : KeyValueStore) : StoreCall → Bool × KeyValueStore
  | .add r => ResolutionManager.add_resolution store_ r
  | .update r => ResolutionManager.update_resolution store_ r

/-- The ids of the `add_resolution` calls that returned true in a sequence of
calls, first call first. -/
def ResolutionManager.added (store_ : KeyValueStore) : List StoreCall → List String
  | [] => []
  | .add r :: rest =>
    if (ResolutionManager.add_resolution store_ r).1 = true then
      r.id_ :: ResolutionManager.added (ResolutionManager.add_resolution store_ r).2 rest
    else ResolutionManager.added (ResolutionManager.add_resolution store_ r).2 rest
  | .update r :: rest =>
    ResolutionManager.added (ResolutionManager.update_resolution store_ r).2 rest

/-- The store after a sequence of calls, first call first. -/
def ResolutionManager.run (store_ : KeyValueStore) (calls : List StoreCall) : KeyValueStore :=
  calls.foldl (fun store call => (ResolutionManager.perform store call).2) store_

/-- Key/id agreement of a resolution store: a resolution read back under a key
has the C string of that key as its id, which is the key when it holds no
NUL. -/
def ResolutionManager.KeyIdAgreement (store_ : KeyValueStore) : Prop :=
  ∀ (key : String) (resolution : Resolution),
    ResolutionManager.get_resolution store_ key Resolution.default = (true, resolution) →
    resolution.id_ = c_str key

/-- The index of a resolution store points at resolutions: for every id that
`list_resolutions` returns, other than the list key itself, `get_resolution`
into a fresh resolution succeeds. -/
def ResolutionManager.Retrievable (store_ : KeyValueStore) : Prop :=
  ∀ ids : List String, ResolutionManager.list_resolutions store_ = some ids →
    ∀ id : String, id ∈ ids → id ≠ ResolutionManager.resolution_list_key_ →
      (ResolutionManager.get_resolution store_ id Resolution.default).1 = true

/-- Every resolution that can be read from the store has the property. -/
def ResolutionManager.StoredAll (P : Resolution → Prop) (store_ : KeyValueStore) : Prop :=
  ∀ (key : String) (resolution : Resolution),
    ResolutionManager.get_resolution store_ key Resolution.default = (true, resolution) →
    P resolution

/-- The votes of the resolution are well formed and every voter is in the
member sequence. -/
def Resolution.votersIn (members : List String) (r : Resolution) : Prop :=
  r.votesWellFormed ∧ ∀ m : String, r.hasVoted m → m ∈ members

/-- The identifier is listed in the index, as `list_resolutions` reads it. -/
def ResolutionManager.Indexed (store_ : KeyValueStore) (resolution_id : String) : Prop :=
  ∃ ids : List String,
    ResolutionManager.list_resolutions store_ = some ids ∧ resolution_id ∈ ids

/-- Every resolution that is read under a key without NUL is listed in the
index. -/
def ResolutionManager.Listed (store_ : KeyValueStore) : Prop :=
  ∀ (key : String) (resolution : Resolution), NulFree key →
    ResolutionManager.get_resolution store_ key Resolution.default = (true, resolution) →
    ResolutionManager.Indexed store_ key

/-- The resolution read under the identifier carries a vote of the member. -/
def ResolutionManager.Voted (store_ : KeyValueStore) (resolution_id member : String) : Prop :=
  ∃ resolution : Resolution,
    ResolutionManager.get_resolution store_ resolution_id Resolution.default =
      (true, resolution) ∧
    resolution.hasVoted member

/-! ## Committee (`identity/common/Committee.h`, `common/Committee.cpp`) -/

/-- The data members of `ww::identity::Committee`; `store_` is the persistent
store as the committee object left it. -/
structure Committee where
  store_ : KeyValueStore
  members_ : List String

/-- The constant `Committee::members_key`. -/
def Committee.members_key : String := "members"

/-- `Committee::save`: writes the full member sequence under the members key,
every member as `m.c_str()`. -/
def Committee.save (c : Committee) : Bool × Committee :=
  match c.store_.set Committee.members_key (.array (c.members_.map JValue.c_string)) with
  | (ok, store1) => (ok, { c with store_ := store1 })

/-- `Committee::load`. The source pushes `get_string(i)` without a null check;
an element that is not a string, for which the C++ is undefined, is reported
here as a failed load with the members cleared. -/
def Committee.load (c : Committee) : Bool × Committee :=
  match c.store_.get Committee.members_key with
  | none => (false, c)
  | some serialized_array =>
    match JValue.deserialize_array serialized_array with
    | none => (false, c)
    | some member_array =>
      match JValue.stringItems member_array with
      | none => (false, { c with members_ := [] })
      | some members => (true, { c with members_ := members })

/-- The constructor `Committee(const KeyValueStore& store)`, which loads and
ignores the result of the load. -/
def Committee.fromStore (store : KeyValueStore) : Committee :=
  (Committee.load { store_ := store, members_ := [] }).2

/-- `Committee::is_member`. -/
def Committee.is_member (c : Committee) (member : String) : Bool :=
  decide (member ∈ c.members_)

/-- `Committee::add_member`: a new member is pushed and the committee saved;
the result is that of the save. -/
def Committee.add_member (c : Committee) (member : String) : Bool × Committee :=
  if member ∉ c.members_ then Committee.save { c with members_ := c.members_ ++ [member] }
  else (false, c)

/-- `Committee::remove_member`: the first occurrence is erased and the
committee saved; the result is that of the save. -/
def Committee.remove_member (c : Committee) (member : String) : Bool × Committee :=
  if member ∈ c.members_ then Committee.save { c with members_ := c.members_.erase member }
  else (false, c)

/-- `Committee::get_members`. -/
def Committee.get_members (c : Committee) : List String := c.members_

/-- One call that changes a committee object. -/
inductive MemberCall where
  | add (member : String)
  | remove (member : String)

/-- One call carried out: the returned flag and the committee after the call. -/
def Committee.perform (c : Committee) : MemberCall → Bool × Committee
  | .add member => c.add_member member
  | .remove member => c.remove_member member

/-- The committee after a sequence of calls, first call first. -/
def Committee.calls (c : Committee) (calls : List MemberCall) : Committee :=
  calls.foldl (fun committee call => (committee.perform call).2) c

/-! ## Contract methods (`identity/committee.h`, `methods/committee.cpp`) -/

/-- Modelled from the spec: the caller context of an invocation, "an
authenticated originator identity, the acting contract's identifier, and the
state-hash of the contract immediately prior to the call". The class
`Environment` is not part of the sources. -/
structure Environment where
  contract_id_ : String
  originator_id_ : String
  state_hash_ : String

/-- Modelled from the spec: the outcome of an invocation, "a discriminated
success/failure outcome with a descriptive message". The class `Response` is
not part of the sources. `status` is the boolean the method returns. -/
structure Response where
  status : Bool
  state_changed : Bool
  message : String
  value : Option JValue

/-- `rsp.error(message)`. -/
def Response.error (message : String) : Response :=
  { status := false, state_changed := false, message := message, value := none }

/-- `rsp.success(state_changed)`. -/
def Response.success (state_changed : Bool) : Response :=
  { status := true, state_changed := state_changed, message := "", value := some (.boolean true) }

/-- `rsp.value(v, state_changed)`. -/
def Response.withValue (v : JValue) (state_changed : Bool) : Response :=
  { status := true, state_changed := state_changed, message := "", value := some v }

/-- Modelled from the spec: the class `Credential`, which is not part of the
sources. A credential is represented by its JSON object; `deserialize` and
`deserialize_string` give the credential or fail, `serialize` and
`serialize_string` give its canonical object and text or fail. -/
structure CredentialCodec where
  CREDENTIAL_SCHEMA : JValue
  deserialize : JValue → Option JValue
  deserialize_string : String → Option JValue
  serialize : JValue → Option JValue
  serialize_string : JValue → Option String

/-- The persistent state of the committee contract. The two stores are the
statics `committee_store` and `resolution_store` of `methods/committee.cpp`.
Modelled from the spec: the base contract bookkeeping (`initialized`, and
`owner`, which is `none` when the owner cannot be retrieved) and the ledger
key of the attestation contract (`none` until it is registered); neither
module is part of the sources. `accepts_owner` and `accepts_ledger_key` stand
for the decision of the two modules to carry out a write or to refuse it. -/
structure ContractState where
  initialized : Bool
  owner : Option String
  ledger_key : Option String
  committee_store : KeyValueStore
  resolution_store : KeyValueStore
  accepts_owner : String → Bool := fun _ => true
  accepts_ledger_key : String → Bool := fun _ => true

/-- Modelled from the spec: the credential issuer of the policy agent,
`policy_agent::issue_credential(resolution id, contract id, credential)`, which
gives the verifiable credential or fails, and the serialization of a
verifiable credential; neither is part of the sources. -/
structure CredentialIssuer where
  issue_credential : String → String → JValue → Option JValue
  serialize : JValue → Option JValue

/-- Modelled from the spec: `ww::contract::base::is_owner`, which is not part of
the sources: the originator is the owner on record. -/
def contract.base.is_owner (env : Environment) (st : ContractState) : Bool :=
  match st.owner with
  | some owner => decide (owner = env.originator_id_)
  | none => false

/-- Modelled from the spec: `ww::contract::base::set_owner`, which is not part
of the sources: the flag and the state after; a refused write leaves the
state as it was. -/
def contract.base.set_owner (owner : String) (st : ContractState) : Bool × ContractState :=
  if st.accepts_owner owner then (true, { st with owner := some owner }) else (false, st)

/-- Modelled from the spec: `ww::contract::attestation::set_ledger_key`, which
is not part of the sources: the flag and the state after; a refused write
leaves the state as it was. -/
def contract.attestation.set_ledger_key (ledger_key : String) (st : ContractState) :
    Bool × ContractState :=
  if st.accepts_ledger_key ledger_key then (true, { st with ledger_key := some ledger_key })
  else (false, st)

/-- Modelled from the spec: `ww::contract::attestation::get_ledger_key`, which
is not part of the sources: the flag and the string handed back; when no key
is registered the string of the caller is left empty. -/
def contract.attestation.get_ledger_key (st : ContractState) : Bool × String :=
  match st.ledger_key with
  | some ledger_key => (true, ledger_key)
  | none => (false, "")

namespace committee

/-- The constant `unassigned_owner`. -/
def unassigned_owner : String := "__UNASSIGNED__"

/-- The type of `committee_vote_function`, which the deploying contract
defines: it may change the resolution handed to it and returns a flag. -/
abbrev VoteFunction := Committee → Resolution → Bool × Resolution

/-- Modelled from the spec: the default `committee_vote_function`, declared in
`identity/committee.h` and defined outside the sources. Simple majority: with
`N` the committee size, more than `N/2` positive votes give `APPROVED`, else
more than `N/2` negative votes give `REJECTED`, otherwise the resolution is
unchanged. "More than `N/2`" is written `N < 2 * count`. -/
def committee_vote_function : VoteFunction := fun committee resolution =>
  let N := committee.get_members.length
  if N < 2 * resolution.positive_votes_.length then
    (true, { resolution with status_ := .APPROVED })
  else if N < 2 * resolution.negative_votes_.length then
    (true, { resolution with status_ := .REJECTED })
  else (true, resolution)

/-- The schema `COMMITTEE_PROPOSE_RESOLUTION_PARAM_SCHEMA`. -/
def COMMITTEE_PROPOSE_RESOLUTION_PARAM_SCHEMA (codec : CredentialCodec) : JValue :=
  .object [("credential", codec.CREDENTIAL_SCHEMA)]

/-- The schema `COMMITTEE_PROPOSE_RESOLUTION_RESULT_SCHEMA`, with the
identifier set as `c_str()`. -/
def proposeResult (resolution_identifier : String) : JValue :=
  .object [("resolution_identifier", JValue.c_string resolution_identifier)]

/-- The schema `COMMITTEE_APPROVE_RESOLUTION_PARAM_SCHEMA`. -/
def COMMITTEE_APPROVE_RESOLUTION_PARAM_SCHEMA : JValue :=
  .object [("resolution_identifier", .string "")]

/-- The schema `COMMITTEE_DISAPPROVE_RESOLUTION_PARAM_SCHEMA`. -/
def COMMITTEE_DISAPPROVE_RESOLUTION_PARAM_SCHEMA : JValue :=
  .object [("resolution_identifier", .string "")]

/-- The checks `ASSERT_INITIALIZED` and `ASSERT_COMMITTEE_IS_INITIALIZED` that
open every method but `initialize_committee`: the error response of the first
check that fails, or `none` when both pass. -/
def assertCommitteeInitialized (st : ContractState) : Option Response :=
  if ¬ st.initialized then some (Response.error "contract has not been initialized")
  else
    match st.owner with
    | none => some (Response.error "unexpected error: failed to retrieve the owner")
    | some owner =>
      if owner ≠ unassigned_owner then some (Response.error "committee has not been initialized")
      else none

/-- The method `propose_resolution`. -/
def propose_resolution (crypto : Crypto) (codec : CredentialCodec) (msg : JValue)
    (_env : Environment) (st : ContractState) : Response × ContractState :=
  match assertCommitteeInitialized st with
  | some rsp => (rsp, st)
  | none =>
    if ¬ JValue.validate_schema (COMMITTEE_PROPOSE_RESOLUTION_PARAM_SCHEMA codec) msg then
      (Response.error "invalid request, missing required parameters", st)
    else
      match msg.get_value "credential" with
      | none => (Response.error "missing required parameter; credential", st)
      | some credential =>
        match codec.deserialize credential with
        | none => (Response.error "invalid credential", st)
        | some resolution_credential =>
          match codec.serialize_string resolution_credential with
          | none => (Response.error "unable to serialize credential for signing", st)
          | some serialized_credential =>
            let resolution := Resolution.fromCredential crypto serialized_credential
            match ResolutionManager.add_resolution st.resolution_store resolution with
            | (false, store1) =>
              (Response.error "unable to add proposed resolution",
                { st with resolution_store := store1 })
            | (true, store1) =>
              (Response.withValue (proposeResult resolution.id_) true,
                { st with resolution_store := store1 })

/-- The method `approve_resolution`, for a contract that defines
`committee_vote_function` as `vote`. -/
def approve_resolution (vote : VoteFunction) (msg : JValue) (env : Environment)
    (st : ContractState) : Response × ContractState :=
  match assertCommitteeInitialized st with
  | some rsp => (rsp, st)
  | none =>
    let committee := Committee.fromStore st.committee_store
    if ¬ committee.is_member env.originator_id_ then
      (Response.error "sender is not a member of the committee", st)
    else if ¬ JValue.validate_schema COMMITTEE_APPROVE_RESOLUTION_PARAM_SCHEMA msg then
      (Response.error "invalid request, missing required parameters", st)
    else
      match msg.get_string "resolution_identifier" with
      | none =>
        (Response.error "invalid request, missing required parameter: resolution_identitifer", st)
      | some resolution_id =>
        match ResolutionManager.get_resolution st.resolution_store resolution_id
            Resolution.default with
        | (false, _) => (Response.error "unable to retrieve the resolution", st)
        | (true, resolution) =>
          match resolution.approve env.originator_id_ with
          | (false, _) => (Response.error "failed to record approval vote", st)
          | (true, resolution1) =>
            match vote committee resolution1 with
            | (false, _) =>
              (Response.error "unexpected error: failed to check the committee vote function", st)
            | (true, resolution2) =>
              match ResolutionManager.update_resolution st.resolution_store resolution2 with
              | (false, store1) =>
                (Response.error "unexpected error: unable to update the resolution status",
                  { st with resolution_store := store1 })
              | (true, store1) =>
                (Response.success true, { st with resolution_store := store1 })

/-- The method `disapprove_resolution`, for a contract that defines
`committee_vote_function` as `vote`. -/
def disapprove_resolution (vote : VoteFunction) (msg : JValue) (env : Environment)
    (st : ContractState) : Response × ContractState :=
  match assertCommitteeInitialized st with
  | some rsp => (rsp, st)
  | none =>
    let committee := Committee.fromStore st.committee_store
    if ¬ committee.is_member env.originator_id_ then
      (Response.error "sender is not a member of the committee", st)
    else if ¬ JValue.validate_schema COMMITTEE_DISAPPROVE_RESOLUTION_PARAM_SCHEMA msg then
      (Response.error "invalid request, missing required parameters", st)
    else
      match msg.get_string "resolution_identifier" with
      | none =>
        (Response.error "invalid request, missing required parameter: resolution_identitifer", st)
      | some resolution_id =>
        match ResolutionManager.get_resolution st.resolution_store resolution_id
            Resolution.default with
        | (false, _) => (Response.error "unable to retrieve the resolution", st)
        | (true, resolution) =>
          match resolution.disapprove env.originator_id_ with
          | (false, _) => (Response.error "failed to record disapproval vote", st)
          | (true, resolution1) =>
            match vote committee resolution1 with
            | (false, _) =>
              (Response.error "unexpected error: failed to check the committee vote function", st)
            | (true, resolution2) =>
              match ResolutionManager.update_resolution st.resolution_store resolution2 with
              | (false, store1) =>
                (Response.error "unexpected error: unable to update the resolution status",
                  { st with resolution_store := store1 })
              | (true, store1) =>
                (Response.success true, { st with resolution_store := store1 })

/-- The schema `COMMITTEE_INITIALIZE_COMMITTEE_PARAM_SCHEMA`. -/
def COMMITTEE_INITIALIZE_COMMITTEE_PARAM_SCHEMA : JValue :=
  .object [("ledger_verifying_key", .string ""), ("initial_members", .array [.string ""])]

/-- The member loop of `initialize_committee`: every element of the array, a C
string, is added in turn; the loop stops with failure at the first
`add_member` that returns false. An element that is not a string, which the schema rules out
and for which the C++ is undefined, stops the loop with failure as well. -/
def addMembers : Committee → List JValue → Bool × Committee
  | committee, [] => (true, committee)
  | committee, .string member :: rest =>
    match committee.add_member (c_str member) with
    | (false, committee1) => (false, committee1)
    | (true, committee1) => addMembers committee1 rest
  | committee, _ :: _ => (false, committee)

/-- The method `initialize_committee`. The string built from
`get_string("ledger_verifying_key")` is present behind the schema check. -/
def initialize_committee (msg : JValue) (env : Environment) (st : ContractState) :
    Response × ContractState :=
  if ¬ contract.base.is_owner env st then
    (Response.error "only the owner may invoke this method", st)
  else if ¬ st.initialized then (Response.error "contract has not been initialized", st)
  else if ¬ JValue.validate_schema COMMITTEE_INITIALIZE_COMMITTEE_PARAM_SCHEMA msg then
    (Response.error "invalid request, missing required parameters", st)
  else
    let ledger_verifying_key := (msg.get_string "ledger_verifying_key").getD ""
    match contract.attestation.set_ledger_key ledger_verifying_key st with
    | (false, st1) => (Response.error "failed to save the ledger verifying key", st1)
    | (true, st1) =>
      let committee := Committee.fromStore st1.committee_store
      match msg.get_value "initial_members" with
      | some (.array member_array) =>
        if ¬ 0 < member_array.length then
          (Response.error "invalid request, committee must have at least one member", st1)
        else
          match addMembers committee member_array with
          | (false, committee1) =>
            (Response.error "unexpected error: failed to add member ",
              { st1 with committee_store := committee1.store_ })
          | (true, committee1) =>
            match contract.base.set_owner unassigned_owner
                { st1 with committee_store := committee1.store_ } with
            | (false, st2) =>
              (Response.error "unexpected error: failed to reassign ownership", st2)
            | (true, st2) => (Response.success true, st2)
      | _ => (Response.error "invalid request, unable to retrieve committee member", st1)

/-- The schema `COMMITTEE_ISSUE_RESOLUTION_CREDENTIAL_PARAM_SCHEMA`. -/
def COMMITTEE_ISSUE_RESOLUTION_CREDENTIAL_PARAM_SCHEMA : JValue :=
  .object [("ledger_signature", .string ""), ("resolution_identifier", .string "")]

/-- The buffer that `issue_resolution_credential` hands to the signature
verification: the characters of the contract identifier followed by the
characters of the state hash. -/
def ledgerPayload (env : Environment) : ByteArray :=
  stringBytes env.contract_id_ ++ stringBytes env.state_hash_

/-- The method `issue_resolution_credential`. The string built from
`get_string("ledger_signature")` is present behind the schema check. -/
def issue_resolution_credential (crypto : Crypto) (codec : CredentialCodec)
    (issuer : CredentialIssuer) (msg : JValue) (env : Environment) (st : ContractState) :
    Response × ContractState :=
  match assertCommitteeInitialized st with
  | some rsp => (rsp, st)
  | none =>
    let committee := Committee.fromStore st.committee_store
    if ¬ committee.is_member env.originator_id_ then
      (Response.error "sender is not a member of the committee", st)
    else if ¬ JValue.validate_schema COMMITTEE_ISSUE_RESOLUTION_CREDENTIAL_PARAM_SCHEMA msg then
      (Response.error "invalid request, missing required parameters", st)
    else
      let ledger_key := contract.attestation.get_ledger_key st
      if ¬ ledger_key.1 ∧ ledger_key.2.length > 0 then
        (Response.error "contract has not been initialized", st)
      else
        let ledger_signature := (msg.get_string "ledger_signature").getD ""
        let buffer := ledgerPayload env
        match crypto.b64_decode ledger_signature with
        | none => (Response.error "failed to decode ledger signature", st)
        | some signature =>
          if ¬ crypto.verify_signature buffer ledger_key.2 signature then
            (Response.error "failed to verify ledger signature", st)
          else
            match msg.get_string "resolution_identifier" with
            | none =>
              (Response.error
                "invalid request, missing required parameter: resolution_identitifer", st)
            | some resolution_id =>
              match ResolutionManager.get_resolution st.resolution_store resolution_id
                  Resolution.default with
              | (false, _) => (Response.error "unable to retrieve the resolution", st)
              | (true, resolution) =>
                if resolution.status_ ≠ .APPROVED then
                  (Response.error
                    "resolution is not in the approved state, cannot issue credential", st)
                else
                  match codec.deserialize_string resolution.serialized_credential_ with
                  | none =>
                    (Response.error
                      "unexpected error: unable to deserialize resolution credential", st)
                  | some credential =>
                    match issuer.issue_credential resolution_id env.contract_id_ credential with
                    | none =>
                      (Response.error "unexpected error: failed to create the new credential",
                        st)
                    | some vc =>
                      match issuer.serialize vc with
                      | none =>
                        (Response.error
                          "unexpected error: failed to serialized the credential", st)
                      | some serialized_vc => (Response.withValue serialized_vc false, st)

/-- The schema `COMMITTEE_ADD_MEMBER_PARAM_SCHEMA`. -/
def COMMITTEE_ADD_MEMBER_PARAM_SCHEMA : JValue :=
  .object [("resolution_identifier", .string "")]

/-- The schema `COMMITTEE_REMOVE_MEMBER_PARAM_SCHEMA`. -/
def COMMITTEE_REMOVE_MEMBER_PARAM_SCHEMA : JValue :=
  .object [("resolution_identifier", .string "")]

/-- The schema `COMMITTEE_LIST_RESOLUTIONS_PARAM_SCHEMA`. -/
def COMMITTEE_LIST_RESOLUTIONS_PARAM_SCHEMA : JValue :=
  .object []

/-- The schema `COMMITTEE_RESOLUTION_STATUS_PARAM_SCHEMA`. -/
def COMMITTEE_RESOLUTION_STATUS_PARAM_SCHEMA : JValue :=
  .object [("resolution_identifier", .string "")]

/-- The method `add_member`: the checks, and nothing else. -/
def add_member (msg : JValue) (env : Environment) (st : ContractState) :
    Response × ContractState :=
  match assertCommitteeInitialized st with
  | some rsp => (rsp, st)
  | none =>
    if ¬ JValue.validate_schema COMMITTEE_ADD_MEMBER_PARAM_SCHEMA msg then
      (Response.error "invalid request, missing required parameters", st)
    else
      let committee := Committee.fromStore st.committee_store
      if ¬ committee.is_member env.originator_id_ then
        (Response.error "sender is not a member of the committee", st)
      else (Response.success true, st)

/-- The method `remove_member`: the checks, and nothing else. -/
def remove_member (msg : JValue) (env : Environment) (st : ContractState) :
    Response × ContractState :=
  match assertCommitteeInitialized st with
  | some rsp => (rsp, st)
  | none =>
    if ¬ JValue.validate_schema COMMITTEE_REMOVE_MEMBER_PARAM_SCHEMA msg then
      (Response.error "invalid request, missing required parameters", st)
    else
      let committee := Committee.fromStore st.committee_store
      if ¬ committee.is_member env.originator_id_ then
        (Response.error "sender is not a member of the committee", st)
      else (Response.success true, st)

/-- The method `list_resolutions`. -/
def list_resolutions (msg : JValue) (_env : Environment) (st : ContractState) :
    Response × ContractState :=
  match assertCommitteeInitialized st with
  | some rsp => (rsp, st)
  | none =>
    if ¬ JValue.validate_schema COMMITTEE_LIST_RESOLUTIONS_PARAM_SCHEMA msg then
      (Response.error "invalid request, missing required parameters", st)
    else
      match ResolutionManager.list_resolutions st.resolution_store with
      | none => (Response.error "unexpected error: unable to retrieve resolutions", st)
      | some resolution_ids =>
        (Response.withValue
          (.object [("resolution_identifiers", .array (resolution_ids.map JValue.c_string))])
          false, st)

/-- The method `resolution_status`. -/
def resolution_status (codec : CredentialCodec) (msg : JValue) (_env : Environment)
    (st : ContractState) : Response × ContractState :=
  match assertCommitteeInitialized st with
  | some rsp => (rsp, st)
  | none =>
    if ¬ JValue.validate_schema COMMITTEE_RESOLUTION_STATUS_PARAM_SCHEMA msg then
      (Response.error "invalid request, missing required parameters", st)
    else
      match msg.get_string "resolution_identifier" with
      | none =>
        (Response.error "invalid request, missing required parameter: resolution_identitifer", st)
      | some resolution_id =>
        match ResolutionManager.get_resolution st.resolution_store resolution_id
            Resolution.default with
        | (false, _) => (Response.error "unable to retrieve the resolution", st)
        | (true, resolution) =>
          match codec.deserialize_string resolution.serialized_credential_ with
          | none =>
            (Response.error "unexpected error: unable to deserialize resolution credential", st)
          | some resolution_credential =>
            match codec.serialize resolution_credential with
            | none =>
              (Response.error "unexpected error: unable to serialize resolution credential", st)
            | some credential_value =>
              (Response.withValue
                (.object
                  [ ("resolution_identifier", JValue.c_string resolution.id_),
                    ("status", .number (resolution.status_.toNat : ℚ)),
                    ("credential", credential_value) ])
                false, st)

/-- The methods of the committee contract. -/
inductive Method where
  | initialize_committee
  | add_member
  | remove_member
  | propose_resolution
  | approve_resolution
  | disapprove_resolution
  | list_resolutions
  | resolution_status
  | issue_resolution_credential
  deriving DecidableEq, Repr

/-- One invocation of the contract: the method, the message and the caller
context. -/
structure Invocation where
  method : Method
  msg : JValue
  env : Environment

/-- What a deployed contract fixes: its vote function and the collaborators
the methods call. -/
structure Deployment where
  vote : VoteFunction
  crypto : Crypto
  codec : CredentialCodec
  issuer : CredentialIssuer

/-- One invocation carried out: the response and the state after it. -/
def invoke (d : Deployment) (call : Invocation) (st : ContractState) :
    Response × ContractState :=
  match call.method with
  | .initialize_committee => initialize_committee call.msg call.env st
  | .add_member => add_member call.msg call.env st
  | .remove_member => remove_member call.msg call.env st
  | .propose_resolution => propose_resolution d.crypto d.codec call.msg call.env st
  | .approve_resolution => approve_resolution d.vote call.msg call.env st
  | .disapprove_resolution => disapprove_resolution d.vote call.msg call.env st
  | .list_resolutions => list_resolutions call.msg call.env st
  | .resolution_status => resolution_status d.codec call.msg call.env st
  | .issue_resolution_credential =>
    issue_resolution_credential d.crypto d.codec d.issuer call.msg call.env st

/-- Modelled from the spec: the commit of an invocation by the host, which is
not part of the sources: "every operation either commits in full or leaves
persisted state unchanged", "no partial mutation is committed when any step
fails". The state a method returns with a success response becomes the
persisted state; after an error response the persisted state is the one before
the invocation. -/
def commit (st : ContractState) (outcome : Response × ContractState) : ContractState :=
  if outcome.1.status then outcome.2 else st

/-- The persisted state after a sequence of invocations, first invocation
first, each committed as the host commits it. -/
def invokeAll (d : Deployment) (calls : List Invocation) (st : ContractState) : ContractState :=
  calls.foldl (fun state call => commit state (invoke d call state)) st

/-- A vote function that decides the status only: it leaves the id, the
credential and both vote sequences of the resolution as they are. -/
def DecidesStatusOnly (vote : VoteFunction) : Prop :=
  ∀ (committee : Committee) (resolution : Resolution),
    (vote committee resolution).2.id_ = resolution.id_ ∧
    (vote committee resolution).2.serialized_credential_ = resolution.serialized_credential_ ∧
    (vote committee resolution).2.positive_votes_ = resolution.positive_votes_ ∧
    (vote committee resolution).2.negative_votes_ = resolution.negative_votes_

/-- A vote function that does not alter the vote sequences. -/
def KeepsVotes (vote : VoteFunction) : Prop :=
  ∀ (committee : Committee) (resolution : Resolution),
    (vote committee resolution).2.positive_votes_ = resolution.positive_votes_ ∧
    (vote committee resolution).2.negative_votes_ = resolution.negative_votes_

/-- The invocation is a vote: `approve_resolution` or `disapprove_resolution`. -/
def Invocation.isVote (call : Invocation) : Prop :=
  call.method = .approve_resolution ∨ call.method = .disapprove_resolution

/-- Both voting methods fail for the member on the resolution identifier,
whatever else the request and the caller context hold, and leave the state as
it is. -/
def VoteRefused (vote : VoteFunction) (st : ContractState) (resolution_id member : String) :
    Prop :=
  ∀ (msg : JValue) (env : Environment),
    msg.get_string "resolution_identifier" = some resolution_id →
    env.originator_id_ = member →
    ((approve_resolution vote msg env st).1.status = false ∧
      (approve_resolution vote msg env st).2 = st) ∧
    ((disapprove_resolution vote msg env st).1.status = false ∧
      (disapprove_resolution vote msg env st).2 = st)

end committee

/-! ## Sample data

The committee {A, B, C} of the scenarios, with a store that carries out every
write. -/

/-- A store without entries that carries out every write. -/
def Sample.emptyStore : KeyValueStore :=
  { entries := [], accepts := fun _ _ => true }

/-- The committee store of the committee {A, B, C}. -/
def Sample.committeeStore : KeyValueStore :=
  { entries := [("members", .array [.string "A", .string "B", .string "C"])]
    accepts := fun _ _ => true }

/-- The resolution "H2" of scenario 2: rejected by the votes of A and B. -/
def Sample.rejected : Resolution :=
  { id_ := "H2"
    serialized_credential_ := "Y"
    status_ := .REJECTED
    positive_votes_ := []
    negative_votes_ := ["A", "B"] }

/-- A resolution store that holds the rejected resolution "H2". -/
def Sample.rejectedStore : KeyValueStore :=
  { entries :=
      [ ("__RESOLUTION_LIST__", .array [.string "H2"]),
        ("H2", .object
          [ ("id", .string "H2"),
            ("status", .number 2),
            ("positive_votes", .array []),
            ("negative_votes", .array [.string "A", .string "B"]),
            ("serialized_credential", .string "Y") ]) ]
    accepts := fun _ _ => true }

/-- The contract after `initialize_committee` for {A, B, C}, holding the
rejected resolution "H2". -/
def Sample.rejectedState : ContractState :=
  { initialized := true
    owner := some "__UNASSIGNED__"
    ledger_key := some "ledger-key"
    committee_store := Sample.committeeStore
    resolution_store := Sample.rejectedStore }

/-- The committee {A, B, C} as a committee object. -/
def Sample.committee : Committee :=
  { store_ := Sample.committeeStore, members_ := ["A", "B", "C"] }

/-- A Pending resolution "H" with the given votes. -/
def Sample.pending (positive_votes negative_votes : List String) : Resolution :=
  { id_ := "H"
    serialized_credential_ := "X"
    status_ := .PENDING
    positive_votes_ := positive_votes
    negative_votes_ := negative_votes }

/-- Stand-ins for the crypto primitives: every hash is encoded as "H". -/
def Sample.crypto : Crypto :=
  { SHA256Hash := fun bytes => bytes
    b64_encode := fun _ => "H"
    b64_decode := fun _ => none
    verify_signature := fun _ _ _ => false }

/-- Stand-ins for the credential class: every object is a credential and its
canonical text is "X". -/
def Sample.codec : CredentialCodec :=
  { CREDENTIAL_SCHEMA := .object []
    deserialize := fun v => some v
    deserialize_string := fun _ => some (.object [])
    serialize := fun v => some v
    serialize_string := fun _ => some "X" }

/-- The contract after `initialize_committee` for {A, B, C}, with an empty
resolution index. -/
def Sample.freshState : ContractState :=
  { initialized := true
    owner := some "__UNASSIGNED__"
    ledger_key := some "ledger-key"
    committee_store := Sample.committeeStore
    resolution_store :=
      { entries := [("__RESOLUTION_LIST__", .array [])], accepts := fun _ _ => true } }

/-- The request `{"credential": {}}`. -/
def Sample.proposal : JValue :=
  .object [("credential", .object [])]

/-- The resolution store right after `ResolutionManager::initialize` on an empty
store. -/
def Sample.initializedStore : KeyValueStore :=
  ( ResolutionManager.initialize Sample.emptyStore).2

/-- A resolution whose id is the reserved key of the index. -/
def Sample.indexKeyResolution : Resolution :=
  { id_ := "__RESOLUTION_LIST__"
    serialized_credential_ := "X"
    status_ := .PENDING
    positive_votes_ := []
    negative_votes_ := [] }

/-- The string made of "A", a NUL and "B"; as a C string it reads "A". -/
def Sample.nulString : String := String.mk ['A', Char.ofNat 0, 'B']

/-- A Pending resolution whose id holds a NUL. -/
def Sample.nulResolution : Resolution :=
  { id_ := Sample.nulString
    serialized_credential_ := "X"
    status_ := .PENDING
    positive_votes_ := []
    negative_votes_ := [] }

/-- An initialized contract owned by "owner" on which `initialize_committee`
has not run: no ledger key, no committee, an empty resolution index. -/
def Sample.ownerState : ContractState :=
  { initialized := true
    owner := some "owner"
    ledger_key := none
    committee_store := Sample.emptyStore
    resolution_store := Sample.initializedStore }

/-- The request of `initialize_committee` with the given key and members. -/
def Sample.initRequest (ledger_verifying_key : String) (initial_members : List String) : JValue :=
  .object
    [ ("ledger_verifying_key", .string ledger_verifying_key),
      ("initial_members", .array (initial_members.map JValue.string)) ]

/-- Stand-ins for the crypto primitives: a signature decodes exactly when it is
not empty, and verifies exactly under the key "ledger-key". -/
def Sample.ledgerCrypto : Crypto :=
  { SHA256Hash := fun bytes => bytes
    b64_encode := fun _ => "H"
    b64_decode := fun text => if text = "" then none else some []
    verify_signature := fun _ key _ => decide (key = "ledger-key") }

/-- Stand-ins for the credential issuer: the verifiable credential binds the
resolution id, the contract id and the credential. -/
def Sample.issuer : CredentialIssuer :=
  { issue_credential := fun resolution_id contract_id credential =>
      some (.object
        [ ("resolution", .string resolution_id),
          ("issuer", .string contract_id),
          ("credential", credential) ])
    serialize := fun vc => some vc }

/-- The resolution "H" of scenario 1: approved by the votes of A and B. -/
def Sample.approved : Resolution :=
  { id_ := "H"
    serialized_credential_ := "X"
    status_ := .APPROVED
    positive_votes_ := ["A", "B"]
    negative_votes_ := [] }

/-- The contract after `initialize_committee` for {A, B, C}, holding the
approved resolution "H" and the rejected resolution "H2". -/
def Sample.decidedState : ContractState :=
  { initialized := true
    owner := some "__UNASSIGNED__"
    ledger_key := some "ledger-key"
    committee_store := Sample.committeeStore
    resolution_store :=
      { entries :=
          [ ("__RESOLUTION_LIST__", .array [.string "H", .string "H2"]),
            ("H", .object
              [ ("id", .string "H"),
                ("status", .number 1),
                ("positive_votes", .array [.string "A", .string "B"]),
                ("negative_votes", .array []),
                ("serialized_credential", .string "X") ]),
            ("H2", .object
              [ ("id", .string "H2"),
                ("status", .number 2),
                ("positive_votes", .array []),
                ("negative_votes", .array [.string "A", .string "B"]),
                ("serialized_credential", .string "Y") ]) ]
        accepts := fun _ _ => true } }

/-- The request of `issue_resolution_credential`. -/
def Sample.issueRequest (ledger_signature resolution_identifier : String) : JValue :=
  .object
    [ ("ledger_signature", .string ledger_signature),
      ("resolution_identifier", .string resolution_identifier) ]

/-- A resolution store that holds the resolution "H" and has no room for a
longer index: it refuses every array of more than one element. -/
def Sample.fullStore : KeyValueStore :=
  { entries :=
      [ ("__RESOLUTION_LIST__", .array [.string "H"]),
        ("H", .object
          [ ("id", .string "H"),
            ("status", .number 0),
            ("positive_votes", .array []),
            ("negative_votes", .array []),
            ("serialized_credential", .string "X") ]) ]
    accepts := fun _ v =>
      match v with
      | .array items => decide (items.length ≤ 1)
      | _ => true }

/-- A deployment with the default vote function and the stand-in
collaborators. -/
def Sample.deployment : committee.Deployment :=
  { vote := committee.committee_vote_function
    crypto := Sample.ledgerCrypto
    codec := Sample.codec
    issuer := Sample.issuer }

/-- The contract of the committee {A, B, C} after the proposal of the Pending
resolution "H": the payload is stored and the index lists "H". -/
def Sample.pendingState : ContractState :=
  { initialized := true
    owner := some "__UNASSIGNED__"
    ledger_key := some "ledger-key"
    committee_store := Sample.committeeStore
    resolution_store :=
      (ResolutionManager.add_resolution Sample.initializedStore (Sample.pending [] [])).2 }

/-- The request `{"resolution_identifier": id}`. -/
def Sample.request (resolution_identifier : String) : JValue :=
  .object [("resolution_identifier", .string resolution_identifier)]

/-- The caller context of an invocation by the given originator. -/
def Sample.env (originator : String) : Environment :=
  { contract_id_ := "contract", originator_id_ := originator, state_hash_ := "state" }

end identity
end ww

/-! # Theorems -/

namespace ww

/-! ## C strings -/

theorem c_str_idem (s : String) : c_str (c_str s) = c_str s := by
  unfold c_str
  simp only [List.takeWhile_idem]

theorem NulFree.c_str (s : String) : NulFree (c_str s) :=
  c_str_idem s

theorem c_str_of_nulFree (s : String) (h : NulFree s) : c_str s = s :=
  h

theorem map_c_str_of_nulFree (l : List String) (h : ∀ s ∈ l, NulFree s) : l.map c_str = l := by
  induction l with
  | nil => rfl
  | cons a l ih =>
    rw [List.map_cons, h a (List.mem_cons_self _ _),
      ih (fun s hs => h s (List.mem_cons_of_mem _ hs))]

theorem map_c_str_idem (l : List String) : (l.map c_str).map c_str = l.map c_str :=
  map_c_str_of_nulFree _ (fun s hs => by
    obtain ⟨a, -, rfl⟩ := List.mem_map.mp hs
    exact NulFree.c_str a)

theorem map_c_str_eq_self (l : List String) (h : l.map c_str = l) : ∀ s ∈ l, NulFree s := by
  induction l with
  | nil => exact fun s hs => absurd hs (List.not_mem_nil _)
  | cons a l ih =>
    rw [List.map_cons] at h
    injection h with h1 h2
    intro s hs
    rcases List.mem_cons.mp hs with hs | hs
    · rw [hs]
      exact h1
    · exact ih h2 s hs

theorem JValue.get_string_nulFree (obj : JValue) (key s : String)
    (h : obj.get_string key = some s) : NulFree s := by
  unfold JValue.get_string at h
  split at h
  · rw [← Option.some.inj h]
    exact NulFree.c_str _
  · exact Option.noConfusion h

theorem JValue.stringItems_nulFree (items : List JValue) :
    ∀ ids : List String, JValue.stringItems items = some ids → ∀ s ∈ ids, NulFree s := by
  induction items with
  | nil =>
    intro ids h s hs
    simp only [JValue.stringItems, Option.some.injEq] at h
    rw [← h] at hs
    exact absurd hs (List.not_mem_nil _)
  | cons x items ih =>
    intro ids h s hs
    cases x with
    | string a =>
      simp only [JValue.stringItems, Option.map_eq_some'] at h
      obtain ⟨l, hl, rfl⟩ := h
      rcases List.mem_cons.mp hs with hs | hs
      · rw [hs]
        exact NulFree.c_str a
      · exact ih l hl s hs
    | null => simp [JValue.stringItems] at h
    | boolean b => simp [JValue.stringItems] at h
    | number q => simp [JValue.stringItems] at h
    | array l => simp [JValue.stringItems] at h
    | object l => simp [JValue.stringItems] at h

theorem JValue.stringItems_c_strings (l : List String) :
    JValue.stringItems (l.map JValue.c_string) = some (l.map c_str) := by
  induction l with
  | nil => rfl
  | cons a l ih =>
    simp only [List.map_cons, JValue.c_string, JValue.stringItems] at ih ⊢
    rw [ih]
    simp [c_str_idem]

theorem JValue.stringItems_append (items : List JValue) (ids : List String) (s : String)
    (h : JValue.stringItems items = some ids) :
    JValue.stringItems (items ++ [JValue.c_string s]) = some (ids ++ [c_str s]) := by
  induction items generalizing ids with
  | nil =>
    simp only [JValue.stringItems, Option.some.injEq] at h
    rw [← h]
    simp [JValue.stringItems, JValue.c_string, c_str_idem]
  | cons x items ih =>
    cases x with
    | string a =>
      simp only [JValue.stringItems, Option.map_eq_some'] at h
      obtain ⟨l, hl, rfl⟩ := h
      have h2 := ih l hl
      show Option.map (fun l => c_str a :: l)
        (JValue.stringItems (items ++ [JValue.c_string s])) = _
      rw [h2]
      rfl
    | null => simp [JValue.stringItems] at h
    | boolean b => simp [JValue.stringItems] at h
    | number q => simp [JValue.stringItems] at h
    | array l => simp [JValue.stringItems] at h
    | object l => simp [JValue.stringItems] at h

theorem JValue.stringItems_mem (items : List JValue) :
    ∀ ids : List String, JValue.stringItems items = some ids →
      ∀ id : String, id ∈ ids ↔ ∃ s : String, JValue.string s ∈ items ∧ c_str s = id := by
  induction items with
  | nil =>
    intro ids h id
    simp only [JValue.stringItems, Option.some.injEq] at h
    rw [← h]
    simp
  | cons x items ih =>
    intro ids h id
    cases x with
    | string a =>
      simp only [JValue.stringItems, Option.map_eq_some'] at h
      obtain ⟨l, hl, rfl⟩ := h
      rw [List.mem_cons, ih l hl id]
      constructor
      · rintro (h1 | ⟨s, hs, hc⟩)
        · exact ⟨a, List.mem_cons_self _ _, h1.symm⟩
        · exact ⟨s, List.mem_cons_of_mem _ hs, hc⟩
      · rintro ⟨s, hs, hc⟩
        rcases List.mem_cons.mp hs with hs | hs
        · left
          rw [← hc, JValue.string.inj hs]
        · exact Or.inr ⟨s, hs, hc⟩
    | null => simp [JValue.stringItems] at h
    | boolean b => simp [JValue.stringItems] at h
    | number q => simp [JValue.stringItems] at h
    | array l => simp [JValue.stringItems] at h
    | object l => simp [JValue.stringItems] at h

namespace identity

/-! ## Voting on a resolution object -/

theorem Resolution.approve_true_iff (r : Resolution) (m : String) :
    (r.approve m).1 = true ↔
      (r.status_ = .PENDING ∧ m ∉ r.positive_votes_ ∧ m ∉ r.negative_votes_) := by
  unfold Resolution.approve
  split_ifs <;> simp_all

theorem Resolution.disapprove_true_iff (r : Resolution) (m : String) :
    (r.disapprove m).1 = true ↔
      (r.status_ = .PENDING ∧ m ∉ r.positive_votes_ ∧ m ∉ r.negative_votes_) := by
  unfold Resolution.disapprove
  split_ifs <;> simp_all

theorem Resolution.approve_snd (r : Resolution) (m : String) :
    (r.approve m).2 =
      if (r.approve m).1 = true then { r with positive_votes_ := r.positive_votes_ ++ [m] }
      else r := by
  unfold Resolution.approve
  split_ifs <;> simp_all

theorem Resolution.disapprove_snd (r : Resolution) (m : String) :
    (r.disapprove m).2 =
      if (r.disapprove m).1 = true then { r with negative_votes_ := r.negative_votes_ ++ [m] }
      else r := by
  unfold Resolution.disapprove
  split_ifs <;> simp_all

/-- C1. `Resolution::approve(voter)` returns true exactly when the status is
Pending and the voter is in neither vote sequence; on true the positive votes
are the previous ones with the voter appended at the end and the negative
votes are unchanged; on false the resolution is unchanged in every field. -/
theorem approve_contract (r : Resolution) (voter : String) :
    ((r.approve voter).1 = true ↔
      (r.status_ = .PENDING ∧ voter ∉ r.positive_votes_ ∧ voter ∉ r.negative_votes_)) ∧
    ((r.approve voter).1 = true →
      (r.approve voter).2.positive_votes_ = r.positive_votes_ ++ [voter] ∧
      (r.approve voter).2.negative_votes_ = r.negative_votes_) ∧
    ((r.approve voter).1 = false → (r.approve voter).2 = r) := by
  refine ⟨Resolution.approve_true_iff r voter, ?_, ?_⟩
  · intro h
    rw [Resolution.approve_snd, if_pos h]
    exact ⟨rfl, rfl⟩
  · intro h
    rw [Resolution.approve_snd, if_neg (by simp [h])]

/-- C2. `Resolution::disapprove(voter)` returns true exactly when the status is
Pending and the voter is in neither vote sequence; on true the negative votes
are the previous ones with the voter appended at the end and the positive
votes are unchanged; on false the resolution is unchanged in every field. -/
theorem disapprove_contract (r : Resolution) (voter : String) :
    ((r.disapprove voter).1 = true ↔
      (r.status_ = .PENDING ∧ voter ∉ r.positive_votes_ ∧ voter ∉ r.negative_votes_)) ∧
    ((r.disapprove voter).1 = true →
      (r.disapprove voter).2.negative_votes_ = r.negative_votes_ ++ [voter] ∧
      (r.disapprove voter).2.positive_votes_ = r.positive_votes_) ∧
    ((r.disapprove voter).1 = false → (r.disapprove voter).2 = r) := by
  refine ⟨Resolution.disapprove_true_iff r voter, ?_, ?_⟩
  · intro h
    rw [Resolution.disapprove_snd, if_pos h]
    exact ⟨rfl, rfl⟩
  · intro h
    rw [Resolution.disapprove_snd, if_neg (by simp [h])]

theorem Resolution.call_fields (r : Resolution) (c : VoteCall) :
    (r.call c).status_ = r.status_ ∧ (r.call c).id_ = r.id_ ∧
      (r.call c).serialized_credential_ = r.serialized_credential_ := by
  cases c with
  | approve v =>
    simp only [Resolution.call, Resolution.perform, Resolution.approve_snd]
    split_ifs <;> simp
  | disapprove v =>
    simp only [Resolution.call, Resolution.perform, Resolution.disapprove_snd]
    split_ifs <;> simp

theorem Resolution.calls_fields (r : Resolution) (cs : List VoteCall) :
    (r.calls cs).status_ = r.status_ ∧ (r.calls cs).id_ = r.id_ ∧
      (r.calls cs).serialized_credential_ = r.serialized_credential_ := by
  induction cs generalizing r with
  | nil => exact ⟨rfl, rfl, rfl⟩
  | cons c cs ih =>
    have h1 := Resolution.call_fields r c
    have h2 := ih (r.call c)
    simp only [Resolution.calls, List.foldl_cons] at h2 ⊢
    exact ⟨h2.1.trans h1.1, h2.2.1.trans h1.2.1, h2.2.2.trans h1.2.2⟩

theorem Resolution.hasVoted_call (r : Resolution) (c : VoteCall) (m : String)
    (h : r.hasVoted m) : (r.call c).hasVoted m := by
  unfold Resolution.hasVoted at h ⊢
  cases c with
  | approve v =>
    simp only [Resolution.call, Resolution.perform, Resolution.approve_snd]
    split_ifs
    · rcases h with h | h
      · exact Or.inl (List.mem_append_left _ h)
      · exact Or.inr h
    · exact h
  | disapprove v =>
    simp only [Resolution.call, Resolution.perform, Resolution.disapprove_snd]
    split_ifs
    · rcases h with h | h
      · exact Or.inl h
      · exact Or.inr (List.mem_append_left _ h)
    · exact h

theorem Resolution.hasVoted_calls (r : Resolution) (cs : List VoteCall) (m : String)
    (h : r.hasVoted m) : (r.calls cs).hasVoted m := by
  induction cs generalizing r with
  | nil => exact h
  | cons c cs ih =>
    simp only [Resolution.calls, List.foldl_cons]
    exact ih (r.call c) (Resolution.hasVoted_call r c m h)

theorem Resolution.hasVoted_of_perform (r : Resolution) (c : VoteCall)
    (h : (r.perform c).1 = true) : (r.perform c).2.hasVoted c.voter := by
  unfold Resolution.hasVoted
  cases c with
  | approve v =>
    simp only [Resolution.perform] at h
    simp only [Resolution.perform, VoteCall.voter, Resolution.approve_snd, if_pos h]
    exact Or.inl (List.mem_append_right _ (List.mem_singleton.mpr rfl))
  | disapprove v =>
    simp only [Resolution.perform] at h
    simp only [Resolution.perform, VoteCall.voter, Resolution.disapprove_snd, if_pos h]
    exact Or.inr (List.mem_append_right _ (List.mem_singleton.mpr rfl))

theorem Resolution.refused_of_hasVoted (r : Resolution) (m : String) (h : r.hasVoted m) :
    (r.approve m).1 = false ∧ (r.disapprove m).1 = false := by
  have ha := Resolution.approve_true_iff r m
  have hd := Resolution.disapprove_true_iff r m
  unfold Resolution.hasVoted at h
  constructor
  · cases hb : (r.approve m).1
    · rfl
    · have := ha.mp hb
      tauto
  · cases hb : (r.disapprove m).1
    · rfl
    · have := hd.mp hb
      tauto

theorem Resolution.votesWellFormed_call (r : Resolution) (c : VoteCall)
    (h : r.votesWellFormed) : (r.call c).votesWellFormed := by
  obtain ⟨hp, hn, hd⟩ := h
  cases c with
  | approve v =>
    simp only [Resolution.call, Resolution.perform, Resolution.approve_snd]
    split_ifs with hb
    · obtain ⟨-, h1, h2⟩ := (Resolution.approve_true_iff r v).mp hb
      refine ⟨?_, hn, ?_⟩
      · exact List.Nodup.append hp (List.nodup_singleton v) (by
          intro a ha hv
          rw [List.mem_singleton] at hv
          exact h1 (hv ▸ ha))
      · intro a ha
        rcases List.mem_append.mp ha with ha | ha
        · exact hd a ha
        · rw [List.mem_singleton] at ha
          exact ha ▸ h2
    · exact ⟨hp, hn, hd⟩
  | disapprove v =>
    simp only [Resolution.call, Resolution.perform, Resolution.disapprove_snd]
    split_ifs with hb
    · obtain ⟨-, h1, h2⟩ := (Resolution.disapprove_true_iff r v).mp hb
      refine ⟨hp, ?_, ?_⟩
      · exact List.Nodup.append hn (List.nodup_singleton v) (by
          intro a ha hv
          rw [List.mem_singleton] at hv
          exact h2 (hv ▸ ha))
      · intro a ha hmem
        rcases List.mem_append.mp hmem with hmem | hmem
        · exact hd a ha hmem
        · rw [List.mem_singleton] at hmem
          exact h1 (hmem ▸ ha)
    · exact ⟨hp, hn, hd⟩

theorem Resolution.votesWellFormed_calls (r : Resolution) (cs : List VoteCall)
    (h : r.votesWellFormed) : (r.calls cs).votesWellFormed := by
  induction cs generalizing r with
  | nil => exact h
  | cons c cs ih =>
    simp only [Resolution.calls, List.foldl_cons]
    exact ih (r.call c) (Resolution.votesWellFormed_call r c h)

theorem Resolution.votesWellFormed_of_nil (r : Resolution) (hp : r.positive_votes_ = [])
    (hn : r.negative_votes_ = []) : r.votesWellFormed := by
  unfold Resolution.votesWellFormed
  rw [hp, hn]
  exact ⟨List.nodup_nil, List.nodup_nil, fun _ h => absurd h (List.not_mem_nil _)⟩

/-- C3. One-vote rule: once a voting call by a member (approve or disapprove)
has returned true on a resolution, then after any further sequence of approve
and disapprove calls by any voters, both approve and disapprove by that member
return false. -/
theorem one_vote_rule (r : Resolution) (first : VoteCall)
    (h : (r.perform first).1 = true) (later : List VoteCall) :
    ((((r.perform first).2).calls later).approve first.voter).1 = false ∧
    ((((r.perform first).2).calls later).disapprove first.voter).1 = false :=
  Resolution.refused_of_hasVoted _ _
    (Resolution.hasVoted_calls _ later _ (Resolution.hasVoted_of_perform r first h))

/-- Witness of C3: a Pending resolution without votes, on which "A" approves,
then "B" approves and "A" tries to disapprove. -/
theorem one_vote_rule_witness :
    (Resolution.default.perform (.approve "A")).1 = true ∧
    (((Resolution.default.perform (.approve "A")).2.calls
        [.approve "B", .disapprove "A"]).approve "A").1 = false ∧
    (((Resolution.default.perform (.approve "A")).2.calls
        [.approve "B", .disapprove "A"]).disapprove "A").1 = false :=
  ⟨by decide, one_vote_rule Resolution.default (.approve "A") (by decide)
    [.approve "B", .disapprove "A"]⟩

/-- C4. Neither approve nor disapprove changes the status, the id or the
serialized credential of a resolution, whether the call returns true or
false; the same holds for every sequence of such calls, so the status cannot
leave Pending through them. -/
theorem votes_leave_status_alone (r : Resolution) (voter : String) (cs : List VoteCall) :
    ((r.approve voter).2.status_ = r.status_ ∧ (r.approve voter).2.id_ = r.id_ ∧
      (r.approve voter).2.serialized_credential_ = r.serialized_credential_) ∧
    ((r.disapprove voter).2.status_ = r.status_ ∧ (r.disapprove voter).2.id_ = r.id_ ∧
      (r.disapprove voter).2.serialized_credential_ = r.serialized_credential_) ∧
    ((r.calls cs).status_ = r.status_ ∧ (r.calls cs).id_ = r.id_ ∧
      (r.calls cs).serialized_credential_ = r.serialized_credential_) :=
  ⟨Resolution.call_fields r (.approve voter), Resolution.call_fields r (.disapprove voter),
    Resolution.calls_fields r cs⟩

/-- C5. Vote-set invariant: if neither vote sequence of a resolution repeats an
identity and the two share none, the same holds after any approve or
disapprove call; a newly constructed resolution has empty vote sequences, so
every resolution reached from construction by approve and disapprove calls
satisfies the invariant. -/
theorem votes_invariant (r : Resolution) (h : r.votesWellFormed) (voter : String) :
    (r.approve voter).2.votesWellFormed ∧ (r.disapprove voter).2.votesWellFormed ∧
    (∀ (crypto : Crypto) (serialized_credential : String) (cs : List VoteCall),
      (Resolution.fromCredential crypto serialized_credential).positive_votes_ = [] ∧
      (Resolution.fromCredential crypto serialized_credential).negative_votes_ = [] ∧
      ((Resolution.fromCredential crypto serialized_credential).calls cs).votesWellFormed) ∧
    (∀ cs : List VoteCall, (Resolution.default.calls cs).votesWellFormed) :=
  ⟨Resolution.votesWellFormed_call r (.approve voter) h,
    Resolution.votesWellFormed_call r (.disapprove voter) h,
    fun _ _ cs => ⟨rfl, rfl,
      Resolution.votesWellFormed_calls _ cs (Resolution.votesWellFormed_of_nil _ rfl rfl)⟩,
    fun cs => Resolution.votesWellFormed_calls _ cs (Resolution.votesWellFormed_of_nil _ rfl rfl)⟩

/-- Witness of C5: a Pending resolution with "A" in favour and "B" against,
on which "C" votes. -/
theorem votes_invariant_witness :
    Resolution.votesWellFormed ⟨"H", "c", .PENDING, ["A"], ["B"]⟩ ∧
    (Resolution.approve ⟨"H", "c", .PENDING, ["A"], ["B"]⟩ "C").2.votesWellFormed ∧
    (Resolution.disapprove ⟨"H", "c", .PENDING, ["A"], ["B"]⟩ "C").2.votesWellFormed :=
  have h : Resolution.votesWellFormed ⟨"H", "c", .PENDING, ["A"], ["B"]⟩ := by
    unfold Resolution.votesWellFormed
    decide
  ⟨h, (votes_invariant _ h "C").1, (votes_invariant _ h "C").2.1⟩

/-! ## The Pending gate of the voting methods -/

theorem Resolution.approve_of_not_pending (r : Resolution) (m : String)
    (h : r.status_ ≠ .PENDING) : r.approve m = (false, r) := by
  unfold Resolution.approve
  rw [if_pos h]

theorem Resolution.disapprove_of_not_pending (r : Resolution) (m : String)
    (h : r.status_ ≠ .PENDING) : r.disapprove m = (false, r) := by
  unfold Resolution.disapprove
  rw [if_pos h]

theorem committee.assertCommitteeInitialized_status (st : ContractState) (rsp : Response)
    (h : committee.assertCommitteeInitialized st = some rsp) : rsp.status = false := by
  unfold committee.assertCommitteeInitialized at h
  split_ifs at h with h1
  · cases hown : st.owner with
    | none =>
      rw [hown] at h
      rw [← Option.some.inj h]
      rfl
    | some owner =>
      rw [hown] at h
      dsimp only at h
      split_ifs at h
      rw [← Option.some.inj h]
      rfl
  · rw [← Option.some.inj h]
    rfl

theorem committee.approve_resolution_of_not_pending (vote : committee.VoteFunction)
    (msg : JValue) (env : Environment) (st : ContractState) (resolution_id : String)
    (r : Resolution)
    (hid : msg.get_string "resolution_identifier" = some resolution_id)
    (hget : ResolutionManager.get_resolution st.resolution_store resolution_id
      Resolution.default = (true, r))
    (hstatus : r.status_ ≠ .PENDING) :
    (committee.approve_resolution vote msg env st).1.status = false ∧
    (committee.approve_resolution vote msg env st).2 = st := by
  unfold committee.approve_resolution
  cases hgate : committee.assertCommitteeInitialized st with
  | some rsp =>
    exact ⟨committee.assertCommitteeInitialized_status st rsp hgate, rfl⟩
  | none =>
    simp only [hid, hget, Resolution.approve_of_not_pending r _ hstatus]
    split_ifs <;> simp [Response.error]

theorem committee.disapprove_resolution_of_not_pending (vote : committee.VoteFunction)
    (msg : JValue) (env : Environment) (st : ContractState) (resolution_id : String)
    (r : Resolution)
    (hid : msg.get_string "resolution_identifier" = some resolution_id)
    (hget : ResolutionManager.get_resolution st.resolution_store resolution_id
      Resolution.default = (true, r))
    (hstatus : r.status_ ≠ .PENDING) :
    (committee.disapprove_resolution vote msg env st).1.status = false ∧
    (committee.disapprove_resolution vote msg env st).2 = st := by
  unfold committee.disapprove_resolution
  cases hgate : committee.assertCommitteeInitialized st with
  | some rsp =>
    exact ⟨committee.assertCommitteeInitialized_status st rsp hgate, rfl⟩
  | none =>
    simp only [hid, hget, Resolution.disapprove_of_not_pending r _ hstatus]
    split_ifs <;> simp [Response.error]

/-- C6. Pending gate of the methods: for a stored resolution whose status is
Approved, Rejected or Expired, `approve_resolution` and `disapprove_resolution`
fail for every caller (committee members included) and every vote function,
and leave the whole contract state, hence the stored resolution with its
status and both vote sequences, as it was; when the checks before the vote
pass, the failure reported is the refused vote. -/
theorem pending_gate (vote : committee.VoteFunction) (msg : JValue) (env : Environment)
    (st : ContractState) (resolution_id : String) (r : Resolution)
    (hid : msg.get_string "resolution_identifier" = some resolution_id)
    (hget : ResolutionManager.get_resolution st.resolution_store resolution_id
      Resolution.default = (true, r))
    (hstatus : r.status_ = .APPROVED ∨ r.status_ = .REJECTED ∨ r.status_ = .EXPIRED) :
    ((committee.approve_resolution vote msg env st).1.status = false ∧
      (committee.approve_resolution vote msg env st).2 = st ∧
      ResolutionManager.get_resolution
        (committee.approve_resolution vote msg env st).2.resolution_store resolution_id
        Resolution.default = (true, r)) ∧
    ((committee.disapprove_resolution vote msg env st).1.status = false ∧
      (committee.disapprove_resolution vote msg env st).2 = st ∧
      ResolutionManager.get_resolution
        (committee.disapprove_resolution vote msg env st).2.resolution_store resolution_id
        Resolution.default = (true, r)) ∧
    (committee.assertCommitteeInitialized st = none →
      (Committee.fromStore st.committee_store).is_member env.originator_id_ = true →
      JValue.validate_schema committee.COMMITTEE_APPROVE_RESOLUTION_PARAM_SCHEMA msg = true →
      (committee.approve_resolution vote msg env st).1 =
          Response.error "failed to record approval vote" ∧
        (committee.disapprove_resolution vote msg env st).1 =
          Response.error "failed to record disapproval vote") := by
  have hne : r.status_ ≠ .PENDING := by
    rcases hstatus with h | h | h <;> rw [h] <;> decide
  have ha := committee.approve_resolution_of_not_pending vote msg env st resolution_id r
    hid hget hne
  have hd := committee.disapprove_resolution_of_not_pending vote msg env st resolution_id r
    hid hget hne
  refine ⟨⟨ha.1, ha.2, ?_⟩, ⟨hd.1, hd.2, ?_⟩, ?_⟩
  · rw [ha.2]
    exact hget
  · rw [hd.2]
    exact hget
  · intro hgate hmem hschema
    have hschema2 : JValue.validate_schema
        committee.COMMITTEE_DISAPPROVE_RESOLUTION_PARAM_SCHEMA msg = true := hschema
    constructor
    · unfold committee.approve_resolution
      simp [hgate, hmem, hschema, hid, hget, Resolution.approve_of_not_pending r _ hne]
    · unfold committee.disapprove_resolution
      simp [hgate, hmem, hschema2, hid, hget, Resolution.disapprove_of_not_pending r _ hne]

/-- Witness of C6: scenario 2, committee {A, B, C}; "H2" was rejected by A and
B, and C then tries to approve and to disapprove it. -/
theorem pending_gate_witness :
    (Sample.request "H2").get_string "resolution_identifier" = some "H2" ∧
    ResolutionManager.get_resolution Sample.rejectedState.resolution_store "H2"
      Resolution.default = (true, Sample.rejected) ∧
    (committee.approve_resolution committee.committee_vote_function (Sample.request "H2")
      (Sample.env "C") Sample.rejectedState).1 =
        Response.error "failed to record approval vote" ∧
    (committee.disapprove_resolution committee.committee_vote_function (Sample.request "H2")
      (Sample.env "C") Sample.rejectedState).2 = Sample.rejectedState :=
  have h := pending_gate committee.committee_vote_function (Sample.request "H2")
    (Sample.env "C") Sample.rejectedState "H2" Sample.rejected (by decide) (by decide)
    (Or.inr (Or.inl rfl))
  ⟨by decide, by decide, (h.2.2 rfl (by decide) (by decide)).1, h.2.1.2.1⟩

/-! ## The default vote function -/

theorem Resolution.votersIn_count (members : List String) (r : Resolution)
    (h : r.votersIn members) :
    r.positive_votes_.length + r.negative_votes_.length ≤ members.length := by
  obtain ⟨⟨hp, hn, hdis⟩, hmem⟩ := h
  have hnodup : (r.positive_votes_ ++ r.negative_votes_).Nodup :=
    List.Nodup.append hp hn (fun m h1 h2 => hdis m h1 h2)
  have hsub : r.positive_votes_ ++ r.negative_votes_ ⊆ members := by
    intro m hm
    rcases List.mem_append.mp hm with hm | hm
    · exact hmem m (Or.inl hm)
    · exact hmem m (Or.inr hm)
  have := (List.subperm_of_subset hnodup hsub).length_le
  simpa using this

/-- C8. The resolution constructed from a serialized credential `s` has status
Pending, no positive and no negative votes, `s` as its serialized credential,
and as id the base64 encoding of the SHA256 hash of the bytes of `s`; two
resolutions constructed from equal payloads have equal ids. -/
theorem fromCredential_contract (crypto : Crypto) (s : String) :
    (Resolution.fromCredential crypto s).status_ = .PENDING ∧
    (Resolution.fromCredential crypto s).positive_votes_ = [] ∧
    (Resolution.fromCredential crypto s).negative_votes_ = [] ∧
    (Resolution.fromCredential crypto s).serialized_credential_ = s ∧
    (Resolution.fromCredential crypto s).id_ =
      crypto.b64_encode (crypto.SHA256Hash (stringBytes s)) ∧
    (∀ s2 : String, s = s2 →
      (Resolution.fromCredential crypto s).id_ = (Resolution.fromCredential crypto s2).id_) :=
  ⟨rfl, rfl, rfl, rfl, rfl, fun _ h => h ▸ rfl⟩

/-! ## The resolution store -/

theorem KeyValueStore.lookup_put_same (es : List (String × JValue)) (k : String) (v : JValue) :
    (KeyValueStore.put es k v).lookup k = some v := by
  induction es with
  | nil => simp [KeyValueStore.put, List.lookup]
  | cons e es ih =>
    obtain ⟨k1, x⟩ := e
    unfold KeyValueStore.put
    split_ifs with h
    · simp [List.lookup]
    · have hne : (k == k1) = false := by
        rw [beq_eq_false_iff_ne]
        exact fun h2 => h h2.symm
      simp only [List.lookup, hne]
      exact ih

theorem KeyValueStore.lookup_put_other (es : List (String × JValue)) (k k2 : String)
    (v : JValue) (h : k2 ≠ k) :
    (KeyValueStore.put es k v).lookup k2 = es.lookup k2 := by
  induction es with
  | nil =>
    have hne : (k2 == k) = false := by
      rw [beq_eq_false_iff_ne]
      exact h
    simp [KeyValueStore.put, List.lookup, hne]
  | cons e es ih =>
    obtain ⟨k1, x⟩ := e
    unfold KeyValueStore.put
    split_ifs with h1
    · have hne : (k2 == k) = false := by
        rw [beq_eq_false_iff_ne]
        exact h
      have hne1 : (k2 == k1) = false := by
        rw [h1]
        exact hne
      simp only [List.lookup, hne, hne1]
    · cases hk : (k2 == k1) with
      | true => simp only [List.lookup, hk]
      | false =>
        simp only [List.lookup, hk]
        exact ih

theorem KeyValueStore.set_false (store : KeyValueStore) (k : String) (v : JValue)
    (h : (store.set k v).1 = false) : (store.set k v).2 = store := by
  unfold KeyValueStore.set at h ⊢
  by_cases h1 : store.accepts k v = true
  · rw [if_pos h1] at h
    simp at h
  · rw [if_neg h1]

theorem KeyValueStore.set_true_iff (store : KeyValueStore) (k : String) (v : JValue) :
    (store.set k v).1 = true ↔ store.accepts k v = true := by
  unfold KeyValueStore.set
  split_ifs with h1 <;> simp [h1]

theorem KeyValueStore.get_set_same (store : KeyValueStore) (k : String) (v : JValue)
    (h : (store.set k v).1 = true) : (store.set k v).2.get k = some v := by
  unfold KeyValueStore.set at h ⊢
  by_cases h1 : store.accepts k v = true
  · rw [if_pos h1]
    exact KeyValueStore.lookup_put_same store.entries k v
  · rw [if_neg h1] at h
    simp at h

theorem KeyValueStore.get_set_other (store : KeyValueStore) (k k2 : String) (v : JValue)
    (h : k2 ≠ k) : (store.set k v).2.get k2 = store.get k2 := by
  unfold KeyValueStore.set
  split_ifs with h1
  · exact KeyValueStore.lookup_put_other store.entries k k2 v h
  · rfl

theorem KeyValueStore.accepts_set (store : KeyValueStore) (k : String) (v : JValue) :
    (store.set k v).2.accepts = store.accepts := by
  unfold KeyValueStore.set
  split_ifs <;> rfl

theorem ResolutionManager.scan_of_mem (items : List JValue) (s : String)
    (h : JValue.string s ∈ items) : ResolutionManager.scan items (c_str s) = false := by
  induction items with
  | nil => exact absurd h (List.not_mem_nil _)
  | cons x items ih =>
    cases x with
    | string t =>
      unfold ResolutionManager.scan
      split_ifs with h1
      · rfl
      · rcases List.mem_cons.mp h with h2 | h2
        · exact absurd (by rw [JValue.string.inj h2]) h1
        · exact ih h2
    | null => rfl
    | boolean b => rfl
    | number q => rfl
    | array l => rfl
    | object l => rfl

theorem ResolutionManager.scan_eq_true_iff (items : List JValue) (id : String) :
    ∀ ids : List String, JValue.stringItems items = some ids →
      (ResolutionManager.scan items id = true ↔ id ∉ ids) := by
  induction items with
  | nil =>
    intro ids h
    simp only [JValue.stringItems, Option.some.injEq] at h
    subst h
    simp [ResolutionManager.scan]
  | cons x items ih =>
    intro ids h
    cases x with
    | string s =>
      simp only [JValue.stringItems, Option.map_eq_some'] at h
      obtain ⟨l, hl, hidx⟩ := h
      subst hidx
      unfold ResolutionManager.scan
      by_cases h1 : id = c_str s
      · simp [h1]
      · rw [if_neg h1, ih l hl]
        simp [h1]
    | null => simp [JValue.stringItems] at h
    | boolean b => simp [JValue.stringItems] at h
    | number q => simp [JValue.stringItems] at h
    | array l => simp [JValue.stringItems] at h
    | object l => simp [JValue.stringItems] at h

theorem ResolutionManager.scan_true_stringItems (items : List JValue) (id : String)
    (h : ResolutionManager.scan items id = true) :
    ∃ ids : List String, JValue.stringItems items = some ids := by
  induction items with
  | nil => exact ⟨[], rfl⟩
  | cons x items ih =>
    cases x with
    | string s =>
      unfold ResolutionManager.scan at h
      by_cases h1 : id = c_str s
      · rw [if_pos h1] at h
        exact absurd h (by decide)
      · rw [if_neg h1] at h
        obtain ⟨ids, hids⟩ := ih h
        exact ⟨c_str s :: ids, by simp [JValue.stringItems, hids]⟩
    | null => simp [ResolutionManager.scan] at h
    | boolean b => simp [ResolutionManager.scan] at h
    | number q => simp [ResolutionManager.scan] at h
    | array l => simp [ResolutionManager.scan] at h
    | object l => simp [ResolutionManager.scan] at h

theorem ResolutionManager.list_resolutions_some (store : KeyValueStore) (idx : List String)
    (h : ResolutionManager.list_resolutions store = some idx) :
    ∃ items : List JValue,
      store.get ResolutionManager.resolution_list_key_ = some (.array items) ∧
      JValue.stringItems items = some idx := by
  unfold ResolutionManager.list_resolutions at h
  cases hget : store.get ResolutionManager.resolution_list_key_ with
  | none => simp [hget] at h
  | some v =>
    cases v with
    | array items =>
      simp only [hget, JValue.deserialize_array] at h
      exact ⟨items, rfl, h⟩
    | null => simp [hget, JValue.deserialize_array] at h
    | boolean b => simp [hget, JValue.deserialize_array] at h
    | number q => simp [hget, JValue.deserialize_array] at h
    | string s => simp [hget, JValue.deserialize_array] at h
    | object l => simp [hget, JValue.deserialize_array] at h

theorem ResolutionManager.list_resolutions_of_get (store : KeyValueStore) (items : List JValue)
    (hget : store.get ResolutionManager.resolution_list_key_ = some (.array items)) :
    ResolutionManager.list_resolutions store = JValue.stringItems items := by
  unfold ResolutionManager.list_resolutions
  simp only [hget, JValue.deserialize_array]

theorem ResolutionManager.add_resolution_of_scan (store : KeyValueStore) (r : Resolution)
    (items : List JValue)
    (hget : store.get ResolutionManager.resolution_list_key_ = some (.array items))
    (hscan : ResolutionManager.scan items r.id_ = false) :
    ResolutionManager.add_resolution store r = (false, store) := by
  unfold ResolutionManager.add_resolution
  simp [hget, JValue.deserialize_array, hscan]

theorem ResolutionManager.add_resolution_of_mem (store : KeyValueStore) (r : Resolution)
    (idx : List String) (hidx : ResolutionManager.list_resolutions store = some idx)
    (hmem : r.id_ ∈ idx) :
    ResolutionManager.add_resolution store r = (false, store) := by
  obtain ⟨items, hget, hitems⟩ := ResolutionManager.list_resolutions_some store idx hidx
  apply ResolutionManager.add_resolution_of_scan store r items hget
  cases hscan : ResolutionManager.scan items r.id_ with
  | false => rfl
  | true => exact absurd hmem ((ResolutionManager.scan_eq_true_iff items r.id_ idx hitems).mp hscan)

theorem ResolutionManager.add_resolution_true (store : KeyValueStore) (r : Resolution)
    (h : (ResolutionManager.add_resolution store r).1 = true) :
    ∃ items : List JValue,
      store.get ResolutionManager.resolution_list_key_ = some (.array items) ∧
      ResolutionManager.scan items r.id_ = true ∧
      (ResolutionManager.add_resolution store r).2.get ResolutionManager.resolution_list_key_ =
        some (.array (items ++ [JValue.c_string r.id_])) := by
  unfold ResolutionManager.add_resolution at h ⊢
  cases hget : store.get ResolutionManager.resolution_list_key_ with
  | none => simp [hget] at h
  | some v =>
    cases v with
    | array items =>
      simp only [hget, JValue.deserialize_array] at h ⊢
      by_cases hscan : ResolutionManager.scan items r.id_ = true
      · simp only [hscan, not_true_eq_false, if_false, Resolution.serialize_string,
          Resolution.serialize] at h ⊢
        refine ⟨items, rfl, hscan, ?_⟩
        cases hset : store.set r.id_ (.object
            [ ("id", JValue.c_string r.id_),
              ("status", .number (r.status_.toNat : ℚ)),
              ("positive_votes", .array (r.positive_votes_.map JValue.c_string)),
              ("negative_votes", .array (r.negative_votes_.map JValue.c_string)),
              ("serialized_credential", JValue.c_string r.serialized_credential_) ]) with
        | mk ok store1 =>
          rw [hset] at h
          cases ok with
          | false => simp at h
          | true =>
            simp only at h ⊢
            exact KeyValueStore.get_set_same store1 _ _ h
      · simp [hscan] at h
    | null => simp [hget, JValue.deserialize_array] at h
    | boolean b => simp [hget, JValue.deserialize_array] at h
    | number q => simp [hget, JValue.deserialize_array] at h
    | string s => simp [hget, JValue.deserialize_array] at h
    | object l => simp [hget, JValue.deserialize_array] at h

theorem ResolutionManager.add_resolution_twice (store : KeyValueStore) (r1 r2 : Resolution)
    (hid : r2.id_ = c_str r1.id_) (h : (ResolutionManager.add_resolution store r1).1 = true) :
    ResolutionManager.add_resolution (ResolutionManager.add_resolution store r1).2 r2 =
      (false, (ResolutionManager.add_resolution store r1).2) := by
  obtain ⟨items, -, -, hget⟩ := ResolutionManager.add_resolution_true store r1 h
  apply ResolutionManager.add_resolution_of_scan _ r2 _ hget
  rw [hid, ← c_str_idem r1.id_]
  exact ResolutionManager.scan_of_mem _ (c_str r1.id_)
    (List.mem_append_right _ (List.mem_singleton.mpr rfl))

theorem committee.propose_resolution_twice (crypto : Crypto) (codec : CredentialCodec)
    (msg : JValue) (env1 env2 : Environment) (st : ContractState)
    (hb64 : ∀ bytes : ByteArray, NulFree (crypto.b64_encode bytes))
    (h : (committee.propose_resolution crypto codec msg env1 st).1.status = true) :
    (committee.propose_resolution crypto codec msg env2
      (committee.propose_resolution crypto codec msg env1 st).2).1 =
        Response.error "unable to add proposed resolution" ∧
    (committee.propose_resolution crypto codec msg env2
      (committee.propose_resolution crypto codec msg env1 st).2).2 =
        (committee.propose_resolution crypto codec msg env1 st).2 := by
  unfold committee.propose_resolution at h
  cases hgate : committee.assertCommitteeInitialized st with
  | some rsp =>
    rw [hgate] at h
    rw [committee.assertCommitteeInitialized_status st rsp hgate] at h
    exact absurd h (by decide)
  | none =>
    by_cases hschema :
        JValue.validate_schema (committee.COMMITTEE_PROPOSE_RESOLUTION_PARAM_SCHEMA codec) msg = true
    · cases hcred : msg.get_value "credential" with
      | none => simp [hgate, hschema, hcred, Response.error] at h
      | some credential =>
        cases hdes : codec.deserialize credential with
        | none => simp [hgate, hschema, hcred, hdes, Response.error] at h
        | some resolution_credential =>
          cases hser : codec.serialize_string resolution_credential with
          | none => simp [hgate, hschema, hcred, hdes, hser, Response.error] at h
          | some serialized_credential =>
            cases hadd : ResolutionManager.add_resolution st.resolution_store
                (Resolution.fromCredential crypto serialized_credential) with
            | mk ok store1 =>
              cases ok with
              | false => simp [hgate, hschema, hcred, hdes, hser, hadd, Response.error] at h
              | true =>
                have htwice := ResolutionManager.add_resolution_twice st.resolution_store
                  (Resolution.fromCredential crypto serialized_credential)
                  (Resolution.fromCredential crypto serialized_credential)
                  (hb64 _).symm (by rw [hadd])
                rw [hadd] at htwice
                have hfirst : committee.propose_resolution crypto codec msg env1 st =
                    (Response.withValue (committee.proposeResult
                      (Resolution.fromCredential crypto serialized_credential).id_) true,
                      { st with resolution_store := store1 }) := by
                  unfold committee.propose_resolution
                  simp [hgate, hschema, hcred, hdes, hser, hadd]
                have hgate2 : committee.assertCommitteeInitialized
                    { st with resolution_store := store1 } = none := hgate
                rw [hfirst]
                unfold committee.propose_resolution
                simp [hgate2, hschema, hcred, hdes, hser, htwice]
    · simp [hgate, hschema, Response.error] at h

/-- C9. Duplicate proposals are rejected without effect: for a resolution whose
id occurs in the index, as `list_resolutions` reads it, `add_resolution`
returns false and the store is unchanged, so the index and the payload stored
under that id read as before. After a successful add, the index holds the id as
a C string, and an add of a resolution with that id is refused. Proposing the
same credential a second time fails and leaves the contract state as the first
proposal left it; the id of a proposal is base64 text, which holds no NUL. -/
theorem duplicate_rejected (store : KeyValueStore) (r : Resolution) (idx : List String)
    (hidx : ResolutionManager.list_resolutions store = some idx)
    (hmem : r.id_ ∈ idx) :
    (ResolutionManager.add_resolution store r).1 = false ∧
    (ResolutionManager.add_resolution store r).2 = store ∧
    ResolutionManager.list_resolutions (ResolutionManager.add_resolution store r).2 =
      ResolutionManager.list_resolutions store ∧
    (∀ target : Resolution,
      ResolutionManager.get_resolution (ResolutionManager.add_resolution store r).2 r.id_ target =
        ResolutionManager.get_resolution store r.id_ target) ∧
    (∀ (store0 : KeyValueStore) (r1 r2 : Resolution), r2.id_ = c_str r1.id_ →
      (ResolutionManager.add_resolution store0 r1).1 = true →
      ResolutionManager.add_resolution (ResolutionManager.add_resolution store0 r1).2 r2 =
        (false, (ResolutionManager.add_resolution store0 r1).2)) ∧
    (∀ (crypto : Crypto) (codec : CredentialCodec) (msg : JValue) (env1 env2 : Environment)
      (st : ContractState),
      (∀ bytes : ByteArray, NulFree (crypto.b64_encode bytes)) →
      (committee.propose_resolution crypto codec msg env1 st).1.status = true →
      (committee.propose_resolution crypto codec msg env2
        (committee.propose_resolution crypto codec msg env1 st).2).1 =
          Response.error "unable to add proposed resolution" ∧
      (committee.propose_resolution crypto codec msg env2
        (committee.propose_resolution crypto codec msg env1 st).2).2 =
          (committee.propose_resolution crypto codec msg env1 st).2) := by
  have h := ResolutionManager.add_resolution_of_mem store r idx hidx hmem
  refine ⟨by rw [h], by rw [h], by rw [h], fun _ => by rw [h], ?_, ?_⟩
  · intro store0 r1 r2 hid hok
    exact ResolutionManager.add_resolution_twice store0 r1 r2 hid hok
  · intro crypto codec msg env1 env2 st hb64 hok
    exact committee.propose_resolution_twice crypto codec msg env1 env2 st hb64 hok

/-- Witness of C9: scenario 3. The store already holds "H2", so adding a
resolution with that id fails; and on a fresh contract the first proposal of
a credential succeeds and the second one fails. -/
theorem duplicate_rejected_witness :
    ResolutionManager.list_resolutions Sample.rejectedStore = some ["H2"] ∧
    Sample.rejected.id_ ∈ ["H2"] ∧
    ResolutionManager.add_resolution Sample.rejectedStore Sample.rejected =
      (false, Sample.rejectedStore) ∧
    (committee.propose_resolution Sample.crypto Sample.codec Sample.proposal (Sample.env "A")
      Sample.freshState).1.status = true ∧
    (committee.propose_resolution Sample.crypto Sample.codec Sample.proposal (Sample.env "B")
      (committee.propose_resolution Sample.crypto Sample.codec Sample.proposal (Sample.env "A")
        Sample.freshState).2).1 = Response.error "unable to add proposed resolution" :=
  have h := duplicate_rejected Sample.rejectedStore Sample.rejected ["H2"] (by decide)
    (List.mem_singleton.mpr rfl)
  ⟨by decide, List.mem_singleton.mpr rfl, Prod.ext h.1 h.2.1, by decide,
    (h.2.2.2.2.2 Sample.crypto Sample.codec Sample.proposal (Sample.env "A") (Sample.env "B")
      Sample.freshState (fun _ => (by decide : NulFree "H")) (by decide)).1⟩

theorem ResolutionManager.add_resolution_eq (store : KeyValueStore) (r : Resolution)
    (items : List JValue) (idx : List String) (v : JValue)
    (hget : store.get ResolutionManager.resolution_list_key_ = some (.array items))
    (hidx : JValue.stringItems items = some idx) (hnew : r.id_ ∉ idx)
    (hser : r.serialize_string = some v)
    (hw1 : store.accepts r.id_ v = true)
    (hw2 : store.accepts ResolutionManager.resolution_list_key_
      (.array (items ++ [JValue.c_string r.id_])) = true) :
    ResolutionManager.add_resolution store r =
      (true, ((store.set r.id_ v).2.set ResolutionManager.resolution_list_key_
        (.array (items ++ [JValue.c_string r.id_]))).2) := by
  have hset1 : store.set r.id_ v = (true, (store.set r.id_ v).2) :=
    Prod.ext ((KeyValueStore.set_true_iff store r.id_ v).mpr hw1) rfl
  have hacc : (store.set r.id_ v).2.accepts ResolutionManager.resolution_list_key_
      (.array (items ++ [JValue.c_string r.id_])) = true := by
    rw [KeyValueStore.accepts_set]
    exact hw2
  have hset2 := (KeyValueStore.set_true_iff (store.set r.id_ v).2
    ResolutionManager.resolution_list_key_
    (.array (items ++ [JValue.c_string r.id_]))).mpr hacc
  unfold ResolutionManager.add_resolution
  simp only [hget, JValue.deserialize_array,
    (ResolutionManager.scan_eq_true_iff items r.id_ idx hidx).mpr hnew, hser]
  rw [hset1]
  exact Prod.ext hset2 rfl

/-- Counterexample to C10 as stated, in two parts. On a freshly initialized
store, whose index is empty, a resolution whose id is the reserved key
"__RESOLUTION_LIST__" is added with success, but the index is then written
under that same key: the value stored under the id is the index, not the
serialized resolution. And a resolution whose id is "A", a NUL, "B" is added
with success, but the index lists the C string of the id, "A", which is not
the id. -/
theorem add_resolution_counterexample :
    ResolutionManager.list_resolutions Sample.initializedStore = some [] ∧
    (ResolutionManager.add_resolution Sample.initializedStore Sample.indexKeyResolution).1 =
      true ∧
    (ResolutionManager.add_resolution Sample.initializedStore Sample.indexKeyResolution).2.get
      Sample.indexKeyResolution.id_ = some (.array [.string "__RESOLUTION_LIST__"]) ∧
    (ResolutionManager.add_resolution Sample.initializedStore Sample.indexKeyResolution).2.get
      Sample.indexKeyResolution.id_ ≠ Sample.indexKeyResolution.serialize_string ∧
    (ResolutionManager.add_resolution Sample.initializedStore Sample.nulResolution).1 = true ∧
    ResolutionManager.list_resolutions
      (ResolutionManager.add_resolution Sample.initializedStore Sample.nulResolution).2 =
        some ["A"] ∧
    Sample.nulResolution.id_ ≠ "A" := by
  refine ⟨by decide, by decide, rfl, ?_, by decide, by decide, by decide⟩
  intro h
  have h2 : some (JValue.array [.string "__RESOLUTION_LIST__"]) =
      Sample.indexKeyResolution.serialize_string := h
  simp [Resolution.serialize_string, Resolution.serialize] at h2

/-- C10, amended. For a store whose index, the array `items`, reads as `idx`
and a resolution whose id is not in `idx`, is not the reserved key
"__RESOLUTION_LIST__" and holds no NUL, if the two writes are carried out then
`add_resolution` returns true, the serialized resolution is stored under the
id, the index afterwards is `idx` with the id appended at the end, and every
other key reads as before. -/
theorem add_resolution_contract (store : KeyValueStore) (r : Resolution) (items : List JValue)
    (idx : List String) (v : JValue)
    (hget : store.get ResolutionManager.resolution_list_key_ = some (.array items))
    (hidx : ResolutionManager.list_resolutions store = some idx) (hnew : r.id_ ∉ idx)
    (hkey : r.id_ ≠ ResolutionManager.resolution_list_key_)
    (hnul : NulFree r.id_)
    (hser : r.serialize_string = some v)
    (hw1 : store.accepts r.id_ v = true)
    (hw2 : store.accepts ResolutionManager.resolution_list_key_
      (.array (items ++ [JValue.c_string r.id_])) = true) :
    (ResolutionManager.add_resolution store r).1 = true ∧
    (ResolutionManager.add_resolution store r).2.get r.id_ = some v ∧
    ResolutionManager.list_resolutions (ResolutionManager.add_resolution store r).2 =
      some (idx ++ [r.id_]) ∧
    (∀ k : String, k ≠ r.id_ → k ≠ ResolutionManager.resolution_list_key_ →
      (ResolutionManager.add_resolution store r).2.get k = store.get k) := by
  have hitems : JValue.stringItems items = some idx := by
    rw [← ResolutionManager.list_resolutions_of_get store items hget]
    exact hidx
  have heq := ResolutionManager.add_resolution_eq store r items idx v hget hitems hnew hser hw1 hw2
  have hset1 := (KeyValueStore.set_true_iff store r.id_ v).mpr hw1
  have hacc : (store.set r.id_ v).2.accepts ResolutionManager.resolution_list_key_
      (.array (items ++ [JValue.c_string r.id_])) = true := by
    rw [KeyValueStore.accepts_set]
    exact hw2
  have hset2 := (KeyValueStore.set_true_iff (store.set r.id_ v).2
    ResolutionManager.resolution_list_key_
    (.array (items ++ [JValue.c_string r.id_]))).mpr hacc
  rw [heq]
  refine ⟨rfl, ?_, ?_, ?_⟩
  · show (((store.set r.id_ v).2.set ResolutionManager.resolution_list_key_ _).2).get r.id_ = _
    rw [KeyValueStore.get_set_other _ _ _ _ hkey]
    exact KeyValueStore.get_set_same store r.id_ v hset1
  · rw [ResolutionManager.list_resolutions_of_get _ (items ++ [JValue.c_string r.id_])
      (KeyValueStore.get_set_same _ _ _ hset2),
      JValue.stringItems_append items idx r.id_ hitems, c_str_of_nulFree r.id_ hnul]
  · intro k hk1 hk2
    show (((store.set r.id_ v).2.set ResolutionManager.resolution_list_key_ _).2).get k = _
    rw [KeyValueStore.get_set_other _ _ _ _ hk2, KeyValueStore.get_set_other _ _ _ _ hk1]

/-- Witness of C10: scenario 1, the resolution "H" is added to a freshly
initialized store. -/
theorem add_resolution_contract_witness :
    ResolutionManager.list_resolutions Sample.initializedStore = some [] ∧
    (ResolutionManager.add_resolution Sample.initializedStore (Sample.pending [] [])).1 = true ∧
    (ResolutionManager.add_resolution Sample.initializedStore (Sample.pending [] [])).2.get "H" =
      (Sample.pending [] []).serialize_string ∧
    ResolutionManager.list_resolutions
      (ResolutionManager.add_resolution Sample.initializedStore (Sample.pending [] [])).2 =
        some ["H"] :=
  have h := add_resolution_contract Sample.initializedStore (Sample.pending [] []) [] []
    (.object
      [ ("id", .string "H"),
        ("status", .number 0),
        ("positive_votes", .array []),
        ("negative_votes", .array []),
        ("serialized_credential", .string "X") ])
    rfl (by decide) (by decide) (by decide) (by decide) rfl rfl rfl
  ⟨by decide, h.1, h.2.1, h.2.2.1⟩

/-! ## The index of the resolution store -/

theorem Resolution.serialize_string_isSome (r : Resolution) :
    ∃ v : JValue, r.serialize_string = some v :=
  ⟨_, rfl⟩

theorem ResolutionManager.list_resolutions_congr (store1 store2 : KeyValueStore)
    (h : store1.get ResolutionManager.resolution_list_key_ =
      store2.get ResolutionManager.resolution_list_key_) :
    ResolutionManager.list_resolutions store1 = ResolutionManager.list_resolutions store2 := by
  unfold ResolutionManager.list_resolutions
  rw [h]

theorem ResolutionManager.update_resolution_get_other (store : KeyValueStore) (r : Resolution)
    (k : String) (hk : k ≠ r.id_) :
    (ResolutionManager.update_resolution store r).2.get k = store.get k := by
  unfold ResolutionManager.update_resolution
  obtain ⟨v, hv⟩ := Resolution.serialize_string_isSome r
  simp only [hv]
  exact KeyValueStore.get_set_other store r.id_ k v hk

theorem ResolutionManager.add_resolution_cases (store : KeyValueStore) (r : Resolution) :
    ResolutionManager.add_resolution store r = (false, store) ∨
    ∃ (v : JValue) (items : List JValue),
      r.serialize_string = some v ∧
      store.get ResolutionManager.resolution_list_key_ = some (.array items) ∧
      ResolutionManager.scan items r.id_ = true ∧
      (store.set r.id_ v).1 = true ∧
      ResolutionManager.add_resolution store r =
        (store.set r.id_ v).2.set ResolutionManager.resolution_list_key_
          (.array (items ++ [JValue.c_string r.id_])) := by
  obtain ⟨v, hv⟩ := Resolution.serialize_string_isSome r
  unfold ResolutionManager.add_resolution
  cases hget : store.get ResolutionManager.resolution_list_key_ with
  | none => exact Or.inl rfl
  | some list =>
    cases list with
    | array items =>
      simp only [JValue.deserialize_array, hv]
      by_cases hscan : ResolutionManager.scan items r.id_ = true
      · simp only [hscan, not_true_eq_false, if_false]
        cases hset : store.set r.id_ v with
        | mk ok store1 =>
          cases ok with
          | false =>
            left
            have := KeyValueStore.set_false store r.id_ v (by rw [hset])
            rw [hset] at this
            simp only at this ⊢
            rw [this]
          | true =>
            right
            exact ⟨v, items, rfl, rfl, hscan, by rw [hset], by rw [hset]⟩
      · left
        simp only [hscan, Bool.false_eq_true, not_false_eq_true, if_true]
    | null => exact Or.inl rfl
    | boolean b => exact Or.inl rfl
    | number q => exact Or.inl rfl
    | string t => exact Or.inl rfl
    | object l => exact Or.inl rfl

theorem ResolutionManager.add_resolution_get_other (store : KeyValueStore) (r : Resolution)
    (k : String) (hk1 : k ≠ r.id_) (hk2 : k ≠ ResolutionManager.resolution_list_key_) :
    (ResolutionManager.add_resolution store r).2.get k = store.get k := by
  rcases ResolutionManager.add_resolution_cases store r with h | ⟨v, items, -, -, -, -, h⟩
  · rw [h]
  · rw [h, KeyValueStore.get_set_other _ _ _ _ hk2, KeyValueStore.get_set_other _ _ _ _ hk1]

theorem ResolutionManager.add_resolution_get_list_of_false (store : KeyValueStore)
    (r : Resolution) (hkey : r.id_ ≠ ResolutionManager.resolution_list_key_)
    (hfalse : (ResolutionManager.add_resolution store r).1 = false) :
    (ResolutionManager.add_resolution store r).2.get ResolutionManager.resolution_list_key_ =
      store.get ResolutionManager.resolution_list_key_ := by
  rcases ResolutionManager.add_resolution_cases store r with h | ⟨v, items, -, -, -, -, h⟩
  · rw [h]
  · rw [h] at hfalse ⊢
    rw [KeyValueStore.set_false _ _ _ hfalse]
    exact KeyValueStore.get_set_other _ _ _ _ (Ne.symm hkey)

theorem ResolutionManager.add_resolution_get_payload (store : KeyValueStore) (r : Resolution)
    (hkey : r.id_ ≠ ResolutionManager.resolution_list_key_)
    (htrue : (ResolutionManager.add_resolution store r).1 = true) :
    (ResolutionManager.add_resolution store r).2.get r.id_ = r.serialize_string := by
  rcases ResolutionManager.add_resolution_cases store r with h | ⟨v, items, hv, -, -, hset, h⟩
  · rw [h] at htrue
    simp at htrue
  · rw [h, hv, KeyValueStore.get_set_other _ _ _ _ hkey]
    exact KeyValueStore.get_set_same store r.id_ v hset

theorem ResolutionManager.list_resolutions_add_true (store : KeyValueStore) (r : Resolution)
    (idx : List String) (hidx : ResolutionManager.list_resolutions store = some idx)
    (htrue : (ResolutionManager.add_resolution store r).1 = true) :
    r.id_ ∉ idx ∧
    ResolutionManager.list_resolutions (ResolutionManager.add_resolution store r).2 =
      some (idx ++ [c_str r.id_]) := by
  obtain ⟨items, hget, hscan, hafter⟩ := ResolutionManager.add_resolution_true store r htrue
  have hitems : JValue.stringItems items = some idx := by
    rw [← ResolutionManager.list_resolutions_of_get store items hget]
    exact hidx
  refine ⟨(ResolutionManager.scan_eq_true_iff items r.id_ idx hitems).mp hscan, ?_⟩
  rw [ResolutionManager.list_resolutions_of_get _ _ hafter]
  exact JValue.stringItems_append items idx r.id_ hitems

theorem ResolutionManager.list_resolutions_run (calls : List StoreCall) :
    ∀ (store : KeyValueStore) (idx : List String),
      ResolutionManager.list_resolutions store = some idx → idx.Nodup →
      (∀ c ∈ calls, c.resolution.id_ ≠ ResolutionManager.resolution_list_key_ ∧
        NulFree c.resolution.id_) →
      ResolutionManager.list_resolutions (ResolutionManager.run store calls) =
          some (idx ++ ResolutionManager.added store calls) ∧
        (idx ++ ResolutionManager.added store calls).Nodup := by
  induction calls with
  | nil =>
    intro store idx hidx hnodup _
    simp only [ResolutionManager.run, List.foldl_nil, ResolutionManager.added, List.append_nil]
    exact ⟨hidx, hnodup⟩
  | cons c calls ih =>
    intro store idx hidx hnodup hkeys
    have hrest : ∀ c2 ∈ calls,
        c2.resolution.id_ ≠ ResolutionManager.resolution_list_key_ ∧
          NulFree c2.resolution.id_ :=
      fun c2 hc2 => hkeys c2 (List.mem_cons_of_mem _ hc2)
    obtain ⟨hc, hnul⟩ := hkeys c (List.mem_cons_self _ _)
    cases c with
    | add r =>
      simp only [StoreCall.resolution] at hc hnul
      simp only [ResolutionManager.run, List.foldl_cons, ResolutionManager.perform,
        ResolutionManager.added]
      by_cases htrue : (ResolutionManager.add_resolution store r).1 = true
      · obtain ⟨hnew, hlist⟩ :=
          ResolutionManager.list_resolutions_add_true store r idx hidx htrue
        rw [c_str_of_nulFree r.id_ hnul] at hlist
        have hnodup2 : (idx ++ [r.id_]).Nodup :=
          List.Nodup.append hnodup (List.nodup_singleton _) (by
            intro a ha hb
            rw [List.mem_singleton] at hb
            exact hnew (hb ▸ ha))
        have := ih _ (idx ++ [r.id_]) hlist hnodup2 hrest
        rw [if_pos htrue]
        simpa [ResolutionManager.run] using this
      · have hfalse : (ResolutionManager.add_resolution store r).1 = false := by
          simpa using htrue
        have hlist : ResolutionManager.list_resolutions
            (ResolutionManager.add_resolution store r).2 = some idx := by
          rw [ResolutionManager.list_resolutions_congr _ store
            (ResolutionManager.add_resolution_get_list_of_false store r hc hfalse)]
          exact hidx
        have := ih _ idx hlist hnodup hrest
        rw [if_neg htrue]
        simpa [ResolutionManager.run] using this
    | update r =>
      simp only [StoreCall.resolution] at hc
      simp only [ResolutionManager.run, List.foldl_cons, ResolutionManager.perform,
        ResolutionManager.added]
      have hlist : ResolutionManager.list_resolutions
          (ResolutionManager.update_resolution store r).2 = some idx := by
        rw [ResolutionManager.list_resolutions_congr _ store
          (ResolutionManager.update_resolution_get_other store r _ (Ne.symm hc))]
        exact hidx
      have := ih _ idx hlist hnodup hrest
      simpa [ResolutionManager.run] using this

theorem ResolutionManager.list_resolutions_initialize (store : KeyValueStore)
    (h : ( ResolutionManager.initialize store).1 = true) :
    ResolutionManager.list_resolutions ( ResolutionManager.initialize store).2 = some [] := by
  exact ResolutionManager.list_resolutions_of_get _ [] (KeyValueStore.get_set_same store _ _ h)

/-- Counterexample to C11 as stated, in two parts. On a freshly initialized
store the resolution "H" is added with success, then `update_resolution` is
called with a resolution whose id is the reserved key "__RESOLUTION_LIST__":
the payload replaces the index, and `list_resolutions` no longer succeeds
although the add of "H" returned true. And a resolution whose id is "A", a
NUL, "B" is added twice with success both times, since the index lists the C
string "A" and the scan compares it with the whole id: the index then reads
"A", "A", which repeats an id and holds no id of a call. -/
theorem index_complete_counterexample :
    ( ResolutionManager.initialize Sample.emptyStore).1 = true ∧
    ResolutionManager.added ( ResolutionManager.initialize Sample.emptyStore).2
      [.add (Sample.pending [] []), .update Sample.indexKeyResolution] = ["H"] ∧
    ResolutionManager.list_resolutions
      (ResolutionManager.run ( ResolutionManager.initialize Sample.emptyStore).2
        [.add (Sample.pending [] []), .update Sample.indexKeyResolution]) = none ∧
    ResolutionManager.added ( ResolutionManager.initialize Sample.emptyStore).2
      [.add Sample.nulResolution, .add Sample.nulResolution] =
        [Sample.nulString, Sample.nulString] ∧
    ResolutionManager.list_resolutions
      (ResolutionManager.run ( ResolutionManager.initialize Sample.emptyStore).2
        [.add Sample.nulResolution, .add Sample.nulResolution]) = some ["A", "A"] ∧
    Sample.nulString ≠ "A" := by
  decide

/-- C11, amended. Index completeness: starting from a store on which
`ResolutionManager::initialize` has succeeded, after every sequence of
`add_resolution` and `update_resolution` calls with resolutions whose id is not
the reserved key "__RESOLUTION_LIST__" and holds no NUL, `list_resolutions`
succeeds and returns exactly the ids of the `add_resolution` calls that
returned true, in the order of the calls and each exactly once. -/
theorem index_complete (store : KeyValueStore) (calls : List StoreCall)
    (hinit : ( ResolutionManager.initialize store).1 = true)
    (hkeys : ∀ c ∈ calls, c.resolution.id_ ≠ ResolutionManager.resolution_list_key_ ∧
      NulFree c.resolution.id_) :
    ResolutionManager.list_resolutions
        (ResolutionManager.run ( ResolutionManager.initialize store).2 calls) =
      some (ResolutionManager.added ( ResolutionManager.initialize store).2 calls) ∧
    (ResolutionManager.added ( ResolutionManager.initialize store).2 calls).Nodup := by
  have h := ResolutionManager.list_resolutions_run calls _ []
    (ResolutionManager.list_resolutions_initialize store hinit) List.nodup_nil hkeys
  simpa using h

/-- Witness of C11: "H" is added, added again (refused), updated with its two
votes, and "H2" is added; the index is then "H", "H2". -/
theorem index_complete_witness :
    ( ResolutionManager.initialize Sample.emptyStore).1 = true ∧
    ResolutionManager.list_resolutions
        (ResolutionManager.run ( ResolutionManager.initialize Sample.emptyStore).2
          [.add (Sample.pending [] []), .add (Sample.pending ["A"] []),
            .update Sample.approved, .add Sample.rejected]) = some ["H", "H2"] :=
  ⟨by decide,
    (index_complete Sample.emptyStore
      [.add (Sample.pending [] []), .add (Sample.pending ["A"] []),
        .update Sample.approved, .add Sample.rejected] (by decide) (by decide)).1.trans
      (by decide)⟩

/-- Counterexample to C12 as stated. On a freshly initialized store, whose index
is empty, `update_resolution` with a resolution whose id is the reserved key
"__RESOLUTION_LIST__" returns true and replaces the index by the payload:
`list_resolutions` succeeds before the call and fails after it. -/
theorem update_resolution_counterexample :
    ResolutionManager.list_resolutions Sample.initializedStore = some [] ∧
    (ResolutionManager.update_resolution Sample.initializedStore
      Sample.indexKeyResolution).1 = true ∧
    ResolutionManager.list_resolutions
      (ResolutionManager.update_resolution Sample.initializedStore
        Sample.indexKeyResolution).2 = none := by
  decide

/-- C12, amended. For every resolution whose id is not the reserved key
"__RESOLUTION_LIST__", `update_resolution` changes at most the value stored
under the id of the resolution and does not touch the index:
`list_resolutions` returns the same before and after the call. The call
returns true exactly when the store carries out the write, and then the
serialized resolution is stored under the id; when the write is refused the
store is unchanged. -/
theorem update_resolution_frame (store : KeyValueStore) (r : Resolution) (v : JValue)
    (hkey : r.id_ ≠ ResolutionManager.resolution_list_key_)
    (hser : r.serialize_string = some v) :
    ResolutionManager.list_resolutions (ResolutionManager.update_resolution store r).2 =
      ResolutionManager.list_resolutions store ∧
    (∀ k : String, k ≠ r.id_ →
      (ResolutionManager.update_resolution store r).2.get k = store.get k) ∧
    ((ResolutionManager.update_resolution store r).1 = true ↔ store.accepts r.id_ v = true) ∧
    ((ResolutionManager.update_resolution store r).1 = true →
      (ResolutionManager.update_resolution store r).2.get r.id_ = some v) ∧
    ((ResolutionManager.update_resolution store r).1 = false →
      (ResolutionManager.update_resolution store r).2 = store) := by
  have heq : ResolutionManager.update_resolution store r = store.set r.id_ v := by
    unfold ResolutionManager.update_resolution
    rw [hser]
  refine ⟨?_, ?_, ?_, ?_, ?_⟩
  · exact ResolutionManager.list_resolutions_congr _ _
      (ResolutionManager.update_resolution_get_other store r _ (Ne.symm hkey))
  · exact fun k hk => ResolutionManager.update_resolution_get_other store r k hk
  · rw [heq]
    exact KeyValueStore.set_true_iff store r.id_ v
  · rw [heq]
    exact KeyValueStore.get_set_same store r.id_ v
  · rw [heq]
    exact KeyValueStore.set_false store r.id_ v

/-- Witness of C12: the stored resolution "H2" is overwritten; the index still
reads "H2". -/
theorem update_resolution_frame_witness :
    Sample.rejected.id_ ≠ ResolutionManager.resolution_list_key_ ∧
    ResolutionManager.list_resolutions
      (ResolutionManager.update_resolution Sample.rejectedStore Sample.rejected).2 =
        some ["H2"] :=
  ⟨by decide,
    (update_resolution_frame Sample.rejectedStore Sample.rejected _ (by decide) rfl).1.trans
      (by decide)⟩

/-! ## Reading a resolution back -/

/-- C13. `get_resolution(id)` returns false whenever no value is stored under
the id and whenever the stored value does not parse as an object or does not
match the resolution schema; the resolution handed in is then as it was. The
method reads the store and returns no store: it cannot change it. -/
theorem get_resolution_not_found (store : KeyValueStore) (resolution_id : String)
    (target : Resolution)
    (h : store.get resolution_id = none ∨
      ∃ v : JValue, store.get resolution_id = some v ∧
        ((∀ fields, v ≠ .object fields) ∨ Resolution.verify_schema v = false)) :
    ResolutionManager.get_resolution store resolution_id target = (false, target) := by
  unfold ResolutionManager.get_resolution
  rcases h with h | ⟨v, hv, h⟩
  · rw [h]
  · rw [hv]
    cases v with
    | object fields =>
      rcases h with h | h
      · exact absurd rfl (h fields)
      · simp only [Resolution.deserialize_string, Resolution.deserialize, h]
        rfl
    | null => rfl
    | boolean b => rfl
    | number q => rfl
    | string t => rfl
    | array l => rfl

/-- Witness of C13: nothing is stored under "H3", and the value stored under
the index key is an array, not a resolution. -/
theorem get_resolution_not_found_witness :
    Sample.rejectedStore.get "H3" = none ∧
    ResolutionManager.get_resolution Sample.rejectedStore "H3" Resolution.default =
      (false, Resolution.default) ∧
    ResolutionManager.get_resolution Sample.rejectedStore "__RESOLUTION_LIST__"
      Resolution.default = (false, Resolution.default) :=
  ⟨rfl, get_resolution_not_found Sample.rejectedStore "H3" Resolution.default (Or.inl rfl),
    get_resolution_not_found Sample.rejectedStore "__RESOLUTION_LIST__" Resolution.default
      (Or.inr ⟨.array [.string "H2"], rfl, Or.inl (fun _ h => by cases h)⟩)⟩

theorem Resolution.pushVotes_map (votes l : List String) :
    Resolution.pushVotes votes (l.map JValue.c_string) = (true, votes ++ l.map c_str) := by
  induction l generalizing votes with
  | nil => simp [Resolution.pushVotes]
  | cons a l ih =>
    simp only [List.map_cons, Resolution.pushVotes, JValue.c_string, c_str_idem]
    rw [ih]
    simp

theorem JValue.all_strings (l : List String) :
    (l.map JValue.c_string).all (fun v => JValue.validate_schema (.string "") v) = true := by
  rw [List.all_eq_true]
  intro v hv
  obtain ⟨a, -, rfl⟩ := List.mem_map.mp hv
  rfl

theorem Resolution.verify_schema_serialize (r : Resolution) (v : JValue)
    (hv : r.serialize_string = some v) : Resolution.verify_schema v = true := by
  simp only [Resolution.serialize_string, Resolution.serialize, Option.some.injEq] at hv
  rw [← hv]
  show (decide (5 ≤ 5) && (true && (true &&
    (((r.positive_votes_.map JValue.c_string).all
        (fun v => JValue.validate_schema (.string "") v)) &&
      (((r.negative_votes_.map JValue.c_string).all
        (fun v => JValue.validate_schema (.string "") v)) && (true && true)))))) = true
  rw [JValue.all_strings, JValue.all_strings]
  rfl

theorem ResolutionStatus.ofInt_toNat (st : ResolutionStatus) :
    ResolutionStatus.ofInt (Rat.floor ((st.toNat : ℕ) : ℚ)) = st := by
  cases st <;> decide

theorem ResolutionStatus.toNat_range (st : ResolutionStatus) :
    ¬ (((st.toNat : ℕ) : ℚ) < 0 ∨ ((st.toNat : ℕ) : ℚ) > 3) := by
  cases st <;> decide

theorem Resolution.c_strings_of_nulFree (r : Resolution) (h : r.NulFree) : r.c_strings = r := by
  obtain ⟨h1, h2, h3, h4⟩ := h
  cases r with
  | mk id credential status positive negative =>
    simp only [Resolution.c_strings, Resolution.mk.injEq, true_and]
    exact ⟨h1, h2, map_c_str_of_nulFree positive h3, map_c_str_of_nulFree negative h4⟩

theorem Resolution.c_strings_nulFree (r : Resolution) : r.c_strings.NulFree := by
  refine ⟨c_str_idem _, c_str_idem _, ?_, ?_⟩
  · intro voter hvoter
    obtain ⟨a, -, rfl⟩ := List.mem_map.mp hvoter
    exact c_str_idem a
  · intro voter hvoter
    obtain ⟨a, -, rfl⟩ := List.mem_map.mp hvoter
    exact c_str_idem a

theorem Resolution.deserialize_serialize_into (r target : Resolution) (v : JValue)
    (hv : r.serialize_string = some v) :
    target.deserialize_string v =
      (true, { r.c_strings with
        positive_votes_ := target.positive_votes_ ++ r.positive_votes_.map c_str
        negative_votes_ := target.negative_votes_ ++ r.negative_votes_.map c_str }) := by
  have hschema := Resolution.verify_schema_serialize r v hv
  simp only [Resolution.serialize_string, Resolution.serialize, Option.some.injEq] at hv
  subst hv
  have hid : (JValue.object
      [ ("id", JValue.c_string r.id_),
        ("status", .number (r.status_.toNat : ℚ)),
        ("positive_votes", .array (r.positive_votes_.map JValue.c_string)),
        ("negative_votes", .array (r.negative_votes_.map JValue.c_string)),
        ("serialized_credential", JValue.c_string r.serialized_credential_) ]).get_string "id" =
      some (c_str (c_str r.id_)) := rfl
  have hcred : (JValue.object
      [ ("id", JValue.c_string r.id_),
        ("status", .number (r.status_.toNat : ℚ)),
        ("positive_votes", .array (r.positive_votes_.map JValue.c_string)),
        ("negative_votes", .array (r.negative_votes_.map JValue.c_string)),
        ("serialized_credential", JValue.c_string r.serialized_credential_) ]).get_string
        "serialized_credential" = some (c_str (c_str r.serialized_credential_)) := rfl
  have hnum : (JValue.object
      [ ("id", JValue.c_string r.id_),
        ("status", .number (r.status_.toNat : ℚ)),
        ("positive_votes", .array (r.positive_votes_.map JValue.c_string)),
        ("negative_votes", .array (r.negative_votes_.map JValue.c_string)),
        ("serialized_credential", JValue.c_string r.serialized_credential_) ]).get_number
        "status" = (r.status_.toNat : ℚ) := rfl
  have hpos : (JValue.object
      [ ("id", JValue.c_string r.id_),
        ("status", .number (r.status_.toNat : ℚ)),
        ("positive_votes", .array (r.positive_votes_.map JValue.c_string)),
        ("negative_votes", .array (r.negative_votes_.map JValue.c_string)),
        ("serialized_credential", JValue.c_string r.serialized_credential_) ]).get_array
        "positive_votes" = r.positive_votes_.map JValue.c_string := rfl
  have hneg : (JValue.object
      [ ("id", JValue.c_string r.id_),
        ("status", .number (r.status_.toNat : ℚ)),
        ("positive_votes", .array (r.positive_votes_.map JValue.c_string)),
        ("negative_votes", .array (r.negative_votes_.map JValue.c_string)),
        ("serialized_credential", JValue.c_string r.serialized_credential_) ]).get_array
        "negative_votes" = r.negative_votes_.map JValue.c_string := rfl
  unfold Resolution.deserialize_string Resolution.deserialize
  simp only [hschema, hid, hcred, hnum, hpos, hneg, not_true_eq_false, if_false,
    if_neg (ResolutionStatus.toNat_range r.status_), Resolution.pushVotes_map,
    ResolutionStatus.ofInt_toNat, c_str_idem, Resolution.c_strings]

theorem Resolution.deserialize_serialize (r target : Resolution) (v : JValue)
    (hv : r.serialize_string = some v) (hp : target.positive_votes_ = [])
    (hn : target.negative_votes_ = []) : target.deserialize_string v = (true, r.c_strings) := by
  rw [Resolution.deserialize_serialize_into r target v hv, hp, hn]
  rfl

theorem ResolutionManager.get_resolution_after_update (store : KeyValueStore)
    (r target : Resolution) (hp : target.positive_votes_ = [])
    (hn : target.negative_votes_ = [])
    (h : (ResolutionManager.update_resolution store r).1 = true) :
    ResolutionManager.get_resolution (ResolutionManager.update_resolution store r).2 r.id_
      target = (true, r.c_strings) := by
  obtain ⟨v, hv⟩ := Resolution.serialize_string_isSome r
  have hget : (ResolutionManager.update_resolution store r).2.get r.id_ = some v := by
    unfold ResolutionManager.update_resolution at h ⊢
    rw [hv] at h ⊢
    exact KeyValueStore.get_set_same store r.id_ v h
  unfold ResolutionManager.get_resolution
  rw [hget]
  exact Resolution.deserialize_serialize r target v hv hp hn

theorem ResolutionManager.get_resolution_after_add (store : KeyValueStore)
    (r target : Resolution) (hp : target.positive_votes_ = [])
    (hn : target.negative_votes_ = [])
    (h : (ResolutionManager.add_resolution store r).1 = true)
    (hkey : r.id_ ≠ ResolutionManager.resolution_list_key_) :
    ResolutionManager.get_resolution (ResolutionManager.add_resolution store r).2 r.id_
      target = (true, r.c_strings) := by
  obtain ⟨v, hv⟩ := Resolution.serialize_string_isSome r
  have hget := ResolutionManager.add_resolution_get_payload store r hkey h
  unfold ResolutionManager.get_resolution
  rw [hget, hv]
  exact Resolution.deserialize_serialize r target v hv hp hn

/-- Counterexample to C14 as stated, in two parts. On a freshly initialized
store `add_resolution` returns true for a resolution whose id is the reserved
key "__RESOLUTION_LIST__", but `get_resolution` of that id into a fresh
resolution fails: the value under the key is the index. And
`update_resolution` returns true for a resolution whose id is "A", a NUL, "B",
and `get_resolution` of that id succeeds, but the resolution it yields has the
id "A": the payload holds the id as a C string. -/
theorem store_round_trip_counterexample :
    (ResolutionManager.add_resolution Sample.initializedStore Sample.indexKeyResolution).1 =
      true ∧
    (ResolutionManager.get_resolution
      (ResolutionManager.add_resolution Sample.initializedStore Sample.indexKeyResolution).2
      Sample.indexKeyResolution.id_ Resolution.default).1 = false ∧
    (ResolutionManager.update_resolution Sample.initializedStore Sample.nulResolution).1 =
      true ∧
    ResolutionManager.get_resolution
      (ResolutionManager.update_resolution Sample.initializedStore Sample.nulResolution).2
      Sample.nulResolution.id_ Resolution.default =
        (true, { Sample.nulResolution with id_ := "A" }) ∧
    Sample.nulResolution.id_ ≠ "A" := by
  decide

/-- C14, amended. Store round trip: for every resolution `r` none of whose
strings (id, credential, voters) holds a NUL, after `update_resolution(r)`
returns true, and after `add_resolution(r)` returns true for an id other than
the reserved key "__RESOLUTION_LIST__", `get_resolution` of the id of `r` into
a resolution without votes, such as a freshly constructed one, succeeds and
yields a resolution equal to `r` in every field, the votes in the same
order. -/
theorem store_round_trip (store : KeyValueStore) (r target : Resolution)
    (hnul : r.NulFree)
    (hp : target.positive_votes_ = []) (hn : target.negative_votes_ = []) :
    ((ResolutionManager.update_resolution store r).1 = true →
      ResolutionManager.get_resolution (ResolutionManager.update_resolution store r).2 r.id_
        target = (true, r)) ∧
    ((ResolutionManager.add_resolution store r).1 = true →
      r.id_ ≠ ResolutionManager.resolution_list_key_ →
      ResolutionManager.get_resolution (ResolutionManager.add_resolution store r).2 r.id_
        target = (true, r)) := by
  constructor
  · intro h
    rw [ResolutionManager.get_resolution_after_update store r target hp hn h,
      Resolution.c_strings_of_nulFree r hnul]
  · intro h hkey
    rw [ResolutionManager.get_resolution_after_add store r target hp hn h hkey,
      Resolution.c_strings_of_nulFree r hnul]

/-- Witness of C14: the approved resolution "H" is added to a freshly
initialized store, and the rejected resolution "H2" is written by an update;
each is read back as it was. -/
theorem store_round_trip_witness :
    (ResolutionManager.add_resolution Sample.initializedStore Sample.approved).1 = true ∧
    ResolutionManager.get_resolution
      (ResolutionManager.add_resolution Sample.initializedStore Sample.approved).2 "H"
      Resolution.default = (true, Sample.approved) ∧
    (ResolutionManager.update_resolution Sample.initializedStore Sample.rejected).1 = true ∧
    ResolutionManager.get_resolution
      (ResolutionManager.update_resolution Sample.initializedStore Sample.rejected).2 "H2"
      Resolution.default = (true, Sample.rejected) :=
  ⟨by decide,
    (store_round_trip Sample.initializedStore Sample.approved Resolution.default
      (by decide) rfl rfl).2 (by decide) (by decide),
    by decide,
    (store_round_trip Sample.initializedStore Sample.rejected Resolution.default
      (by decide) rfl rfl).1 (by decide)⟩

/-! ## Issuing the credential of a resolution -/

theorem committee.issue_success (crypto : Crypto) (codec : CredentialCodec)
    (issuer : CredentialIssuer) (msg : JValue) (env : Environment) (st : ContractState)
    (h : (committee.issue_resolution_credential crypto codec issuer msg env st).1.status = true) :
    ∃ (signature : ByteArray) (resolution_id : String) (resolution : Resolution),
      crypto.b64_decode ((msg.get_string "ledger_signature").getD "") = some signature ∧
      crypto.verify_signature (committee.ledgerPayload env)
        (contract.attestation.get_ledger_key st).2 signature = true ∧
      msg.get_string "resolution_identifier" = some resolution_id ∧
      ResolutionManager.get_resolution st.resolution_store resolution_id Resolution.default =
        (true, resolution) ∧
      resolution.status_ = .APPROVED := by
  unfold committee.issue_resolution_credential at h
  cases hgate : committee.assertCommitteeInitialized st with
  | some rsp =>
    rw [hgate] at h
    rw [committee.assertCommitteeInitialized_status st rsp hgate] at h
    exact absurd h (by decide)
  | none =>
    simp only [hgate] at h
    by_cases h1 : (Committee.fromStore st.committee_store).is_member env.originator_id_ = true
    swap
    · simp [h1, Response.error] at h
    by_cases h2 : JValue.validate_schema
        committee.COMMITTEE_ISSUE_RESOLUTION_CREDENTIAL_PARAM_SCHEMA msg = true
    swap
    · simp [h1, h2, Response.error] at h
    by_cases h3 : ¬ (contract.attestation.get_ledger_key st).1 = true ∧
        (contract.attestation.get_ledger_key st).2.length > 0
    · simp [h1, h2, h3, Response.error] at h
    simp only [h1, h2, h3, not_true_eq_false, if_false] at h
    cases hdec : crypto.b64_decode ((msg.get_string "ledger_signature").getD "") with
    | none => simp [hdec, Response.error] at h
    | some signature =>
      simp only [hdec] at h
      by_cases h4 : crypto.verify_signature (committee.ledgerPayload env)
          (contract.attestation.get_ledger_key st).2 signature = true
      swap
      · simp [h4, Response.error] at h
      simp only [h4, not_true_eq_false, if_false] at h
      cases hid : msg.get_string "resolution_identifier" with
      | none => simp [hid, Response.error] at h
      | some resolution_id =>
        simp only [hid] at h
        cases hget : ResolutionManager.get_resolution st.resolution_store resolution_id
            Resolution.default with
        | mk ok resolution =>
          cases ok with
          | false => simp [hget, Response.error] at h
          | true =>
            simp only [hget] at h
            by_cases h5 : resolution.status_ = .APPROVED
            · exact ⟨signature, resolution_id, resolution, rfl, h4, rfl, hget, h5⟩
            · simp [h5, Response.error] at h


/-- C15. Issuance requires both proofs: `issue_resolution_credential` fails
whenever the stored resolution is not Approved, whatever the signature; it
fails whenever the ledger signature does not decode to a signature that
verifies over the payload with the ledger key the method reads, whatever the
status; and when it succeeds the signature verifies and the stored resolution
is Approved. The key the method reads is the registered ledger key. -/
theorem issuance_requires_both (crypto : Crypto) (codec : CredentialCodec)
    (issuer : CredentialIssuer) (msg : JValue) (env : Environment) (st : ContractState) :
    (∀ (resolution_id : String) (resolution : Resolution),
      msg.get_string "resolution_identifier" = some resolution_id →
      ResolutionManager.get_resolution st.resolution_store resolution_id Resolution.default =
        (true, resolution) →
      resolution.status_ ≠ .APPROVED →
      (committee.issue_resolution_credential crypto codec issuer msg env st).1.status = false) ∧
    ((∀ signature : ByteArray,
        crypto.b64_decode ((msg.get_string "ledger_signature").getD "") = some signature →
        crypto.verify_signature (committee.ledgerPayload env)
          (contract.attestation.get_ledger_key st).2 signature = false) →
      (committee.issue_resolution_credential crypto codec issuer msg env st).1.status = false) ∧
    ((committee.issue_resolution_credential crypto codec issuer msg env st).1.status = true →
      ∃ (signature : ByteArray) (resolution_id : String) (resolution : Resolution),
        crypto.b64_decode ((msg.get_string "ledger_signature").getD "") = some signature ∧
        crypto.verify_signature (committee.ledgerPayload env)
          (contract.attestation.get_ledger_key st).2 signature = true ∧
        msg.get_string "resolution_identifier" = some resolution_id ∧
        ResolutionManager.get_resolution st.resolution_store resolution_id
          Resolution.default = (true, resolution) ∧
        resolution.status_ = .APPROVED) ∧
    (∀ ledger_key : String, st.ledger_key = some ledger_key →
      (contract.attestation.get_ledger_key st).2 = ledger_key) := by
  refine ⟨?_, ?_, committee.issue_success crypto codec issuer msg env st, ?_⟩
  · intro resolution_id resolution hid hget hstatus
    cases hs : (committee.issue_resolution_credential crypto codec issuer msg env st).1.status
    · rfl
    · obtain ⟨_, id2, r2, -, -, hid2, hget2, happroved⟩ :=
        committee.issue_success crypto codec issuer msg env st hs
      rw [hid] at hid2
      cases hid2
      rw [hget] at hget2
      cases hget2
      exact absurd happroved hstatus
  · intro hnot
    cases hs : (committee.issue_resolution_credential crypto codec issuer msg env st).1.status
    · rfl
    · obtain ⟨signature, _, _, hdec, hver, -, -, -⟩ :=
        committee.issue_success crypto codec issuer msg env st hs
      rw [hnot signature hdec] at hver
      exact absurd hver (by decide)
  · intro ledger_key hkey
    unfold contract.attestation.get_ledger_key
    rw [hkey]

/-- Witness of C15: committee {A, B, C}, "H" Approved and "H2" Rejected. With a
signature that verifies, A obtains the credential of "H" and is refused the
credential of "H2" (scenario 5); with a signature that does not decode A is
refused the credential of "H". -/
theorem issuance_requires_both_witness :
    (committee.issue_resolution_credential Sample.ledgerCrypto Sample.codec Sample.issuer
      (Sample.issueRequest "sig" "H") (Sample.env "A") Sample.decidedState).1.status = true ∧
    (committee.issue_resolution_credential Sample.ledgerCrypto Sample.codec Sample.issuer
      (Sample.issueRequest "sig" "H2") (Sample.env "A") Sample.decidedState).1.status = false ∧
    (committee.issue_resolution_credential Sample.ledgerCrypto Sample.codec Sample.issuer
      (Sample.issueRequest "" "H") (Sample.env "A") Sample.decidedState).1.status = false :=
  ⟨by decide,
    (issuance_requires_both Sample.ledgerCrypto Sample.codec Sample.issuer
      (Sample.issueRequest "sig" "H2") (Sample.env "A") Sample.decidedState).1
      "H2" Sample.rejected (by decide) (by decide) (by decide),
    (issuance_requires_both Sample.ledgerCrypto Sample.codec Sample.issuer
      (Sample.issueRequest "" "H") (Sample.env "A") Sample.decidedState).2.1
      (fun signature h =>
        Option.noConfusion (show (none : Option ByteArray) = some signature from h))⟩

theorem committee.issue_verify_fails (crypto : Crypto) (codec : CredentialCodec)
    (issuer : CredentialIssuer) (msg : JValue) (env : Environment) (st : ContractState)
    (ledger_key : String) (signature : ByteArray)
    (hgate : committee.assertCommitteeInitialized st = none)
    (hmember : (Committee.fromStore st.committee_store).is_member env.originator_id_ = true)
    (hschema : JValue.validate_schema
      committee.COMMITTEE_ISSUE_RESOLUTION_CREDENTIAL_PARAM_SCHEMA msg = true)
    (hkey : st.ledger_key = some ledger_key)
    (hdec : crypto.b64_decode ((msg.get_string "ledger_signature").getD "") = some signature)
    (hver : crypto.verify_signature (committee.ledgerPayload env) ledger_key signature = false) :
    committee.issue_resolution_credential crypto codec issuer msg env st =
      (Response.error "failed to verify ledger signature", st) := by
  unfold committee.issue_resolution_credential
  simp [hgate, hmember, hschema, contract.attestation.get_ledger_key, hkey, hdec, hver]

/-- C17. The payload whose signature `issue_resolution_credential` verifies is
the bytes of the contract identifier followed by the bytes of the state hash
and nothing else, so its length is the sum of the two lengths. The method
verifies the decoded ledger signature over this payload with the ledger key
it reads: when it succeeds that verification has answered true; past the
opening checks, the member check and the schema check, with a key registered
and a signature that decodes, a verification that answers false over this
payload ends the method with "failed to verify ledger signature"; and the
verification is consulted at this payload only: two verification functions
that agree on it give the same outcome. -/
theorem ledger_payload_contract (crypto : Crypto) (codec : CredentialCodec)
    (issuer : CredentialIssuer) (msg : JValue) (env : Environment) (st : ContractState) :
    committee.ledgerPayload env = stringBytes env.contract_id_ ++ stringBytes env.state_hash_ ∧
    (committee.ledgerPayload env).length =
      (stringBytes env.contract_id_).length + (stringBytes env.state_hash_).length ∧
    ((committee.issue_resolution_credential crypto codec issuer msg env st).1.status = true →
      ∃ signature : ByteArray,
        crypto.b64_decode ((msg.get_string "ledger_signature").getD "") = some signature ∧
        crypto.verify_signature
          (stringBytes env.contract_id_ ++ stringBytes env.state_hash_)
          (contract.attestation.get_ledger_key st).2 signature = true) ∧
    (∀ (ledger_key : String) (signature : ByteArray),
      committee.assertCommitteeInitialized st = none →
      (Committee.fromStore st.committee_store).is_member env.originator_id_ = true →
      JValue.validate_schema
        committee.COMMITTEE_ISSUE_RESOLUTION_CREDENTIAL_PARAM_SCHEMA msg = true →
      st.ledger_key = some ledger_key →
      crypto.b64_decode ((msg.get_string "ledger_signature").getD "") = some signature →
      crypto.verify_signature
        (stringBytes env.contract_id_ ++ stringBytes env.state_hash_)
        ledger_key signature = false →
      committee.issue_resolution_credential crypto codec issuer msg env st =
        (Response.error "failed to verify ledger signature", st)) ∧
    (∀ crypto2 : Crypto,
      crypto.b64_decode = crypto2.b64_decode →
      (∀ (key : String) (signature : ByteArray),
        crypto.verify_signature
            (stringBytes env.contract_id_ ++ stringBytes env.state_hash_) key signature =
          crypto2.verify_signature
            (stringBytes env.contract_id_ ++ stringBytes env.state_hash_) key signature) →
      committee.issue_resolution_credential crypto codec issuer msg env st =
        committee.issue_resolution_credential crypto2 codec issuer msg env st) := by
  refine ⟨rfl, List.length_append _ _, ?_, ?_, ?_⟩
  · intro hok
    obtain ⟨signature, _, _, hdec, hver, -, -, -⟩ :=
      committee.issue_success crypto codec issuer msg env st hok
    exact ⟨signature, hdec, hver⟩
  · intro ledger_key signature hgate hmember hschema hkey hdec hver
    exact committee.issue_verify_fails crypto codec issuer msg env st ledger_key signature
      hgate hmember hschema hkey hdec hver
  · intro crypto2 hdec hver
    unfold committee.issue_resolution_credential
    simp only [committee.ledgerPayload, hdec, hver]

/-- Witness of C17: on the contract that holds the approved "H", member A
obtains the credential with a signature that verifies under the registered key
"ledger-key"; on the same contract with the key "other" registered, under
which no signature verifies, the method ends with "failed to verify ledger
signature". -/
theorem ledger_payload_contract_witness :
    (∃ signature : ByteArray,
      Sample.ledgerCrypto.b64_decode
        (((Sample.issueRequest "sig" "H").get_string "ledger_signature").getD "") =
          some signature ∧
      Sample.ledgerCrypto.verify_signature
        (stringBytes (Sample.env "A").contract_id_ ++ stringBytes (Sample.env "A").state_hash_)
        (contract.attestation.get_ledger_key Sample.decidedState).2 signature = true) ∧
    committee.issue_resolution_credential Sample.ledgerCrypto Sample.codec Sample.issuer
      (Sample.issueRequest "sig" "H") (Sample.env "A")
      { Sample.decidedState with ledger_key := some "other" } =
        (Response.error "failed to verify ledger signature",
          { Sample.decidedState with ledger_key := some "other" }) :=
  ⟨(ledger_payload_contract Sample.ledgerCrypto Sample.codec Sample.issuer
      (Sample.issueRequest "sig" "H") (Sample.env "A") Sample.decidedState).2.2.1 (by decide),
    (ledger_payload_contract Sample.ledgerCrypto Sample.codec Sample.issuer
      (Sample.issueRequest "sig" "H") (Sample.env "A")
      { Sample.decidedState with ledger_key := some "other" }).2.2.2.1 "other" []
      rfl (by decide) (by decide) rfl (by decide) (by decide)⟩

/-! ## Initializing the committee -/

theorem Committee.fromStore_store (store : KeyValueStore) :
    (Committee.fromStore store).store_ = store := by
  unfold Committee.fromStore Committee.load
  repeat' split
  all_goals rfl

theorem Committee.fromStore_members (store : KeyValueStore) (items : List JValue)
    (members : List String)
    (h : store.get Committee.members_key = some (.array items))
    (hitems : JValue.stringItems items = some members) :
    (Committee.fromStore store).members_ = members := by
  unfold Committee.fromStore Committee.load
  simp only [h, JValue.deserialize_array, hitems]

theorem Committee.fromStore_members_none (store : KeyValueStore)
    (h : store.get Committee.members_key = none) :
    (Committee.fromStore store).members_ = [] := by
  unfold Committee.fromStore Committee.load
  simp only [h]

theorem Committee.fromStore_nulFree (store : KeyValueStore) :
    ∀ m ∈ (Committee.fromStore store).members_, NulFree m := by
  unfold Committee.fromStore Committee.load
  cases hget : store.get Committee.members_key with
  | none => exact fun m hm => absurd hm (List.not_mem_nil m)
  | some v =>
    cases hv : JValue.deserialize_array v with
    | none =>
      simp only [hv]
      exact fun m hm => absurd hm (List.not_mem_nil m)
    | some items =>
      cases hitems : JValue.stringItems items with
      | none =>
        simp only [hv, hitems]
        exact fun m hm => absurd hm (List.not_mem_nil m)
      | some members =>
        simp only [hv, hitems]
        exact JValue.stringItems_nulFree items members hitems

theorem Committee.add_member_new (c : Committee) (member : String)
    (hnew : member ∉ c.members_)
    (hw : ∀ v, c.store_.accepts Committee.members_key v = true) :
    c.add_member member =
      (true,
        { store_ := (c.store_.set Committee.members_key
            (.array ((c.members_ ++ [member]).map JValue.c_string))).2
          members_ := c.members_ ++ [member] }) := by
  unfold Committee.add_member Committee.save
  rw [if_pos hnew]
  have h1 := (KeyValueStore.set_true_iff c.store_ Committee.members_key
    (.array ((c.members_ ++ [member]).map JValue.c_string))).mpr (hw _)
  cases hset : c.store_.set Committee.members_key
      (.array ((c.members_ ++ [member]).map JValue.c_string)) with
  | mk ok store1 =>
    rw [hset] at h1
    simp only at h1
    subst h1
    rfl

theorem Committee.add_member_old (c : Committee) (member : String)
    (hold : member ∈ c.members_) : c.add_member member = (false, c) := by
  unfold Committee.add_member
  rw [if_neg (not_not.mpr hold)]

theorem Committee.add_member_true (c : Committee) (member : String)
    (h : (c.add_member member).1 = true) :
    member ∉ c.members_ ∧ (c.add_member member).2.members_ = c.members_ ++ [member] := by
  unfold Committee.add_member Committee.save at h ⊢
  by_cases hnew : member ∉ c.members_
  · rw [if_pos hnew]
    exact ⟨hnew, rfl⟩
  · rw [if_neg hnew] at h
    simp at h

theorem committee.addMembers_false (items : List JValue) :
    ∀ (l : List String) (c : Committee), JValue.stringItems items = some l →
      ¬ (l.Nodup ∧ ∀ m ∈ l, m ∉ c.members_) →
      (committee.addMembers c items).1 = false := by
  induction items with
  | nil =>
    intro l c hl h
    simp only [JValue.stringItems, Option.some.injEq] at hl
    subst hl
    exact absurd ⟨List.nodup_nil, fun _ hm => absurd hm (List.not_mem_nil _)⟩ h
  | cons x items ih =>
    intro l c hl h
    cases x with
    | string s =>
      simp only [JValue.stringItems, Option.map_eq_some'] at hl
      obtain ⟨l1, hl1, hl⟩ := hl
      subst hl
      simp only [committee.addMembers]
      cases hadd : c.add_member (c_str s) with
      | mk ok c1 =>
        cases ok with
        | false => rfl
        | true =>
          simp only
          obtain ⟨hnew, hmem⟩ := Committee.add_member_true c (c_str s) (by rw [hadd])
          rw [hadd] at hmem
          simp only at hmem
          apply ih l1 c1 hl1
          intro ⟨hnodup, hdisj⟩
          apply h
          refine ⟨List.nodup_cons.mpr ⟨?_, hnodup⟩, ?_⟩
          · intro ha
            exact hdisj (c_str s) ha
              (by rw [hmem]; exact List.mem_append_right _ (List.mem_singleton.mpr rfl))
          · intro m hm
            rcases List.mem_cons.mp hm with h1 | h1
            · rw [h1]
              exact hnew
            · intro hc
              exact hdisj m h1 (by rw [hmem]; exact List.mem_append_left _ hc)
    | null => simp [JValue.stringItems] at hl
    | boolean b => simp [JValue.stringItems] at hl
    | number q => simp [JValue.stringItems] at hl
    | array a => simp [JValue.stringItems] at hl
    | object o => simp [JValue.stringItems] at hl

theorem committee.addMembers_true (items : List JValue) :
    ∀ (l : List String) (c : Committee), JValue.stringItems items = some l →
      (∀ v, c.store_.accepts Committee.members_key v = true) →
      l.Nodup → (∀ m ∈ l, m ∉ c.members_) →
      (committee.addMembers c items).1 = true ∧
      (committee.addMembers c items).2.members_ = c.members_ ++ l ∧
      (l ≠ [] →
        (committee.addMembers c items).2.store_.get Committee.members_key =
          some (.array ((c.members_ ++ l).map JValue.c_string))) := by
  induction items with
  | nil =>
    intro l c hl _ _ _
    simp only [JValue.stringItems, Option.some.injEq] at hl
    subst hl
    exact ⟨rfl, (List.append_nil _).symm, fun h => absurd rfl h⟩
  | cons x items ih =>
    intro l c hl hw hnodup hdisj
    cases x with
    | string s =>
      simp only [JValue.stringItems, Option.map_eq_some'] at hl
      obtain ⟨l1, hl1, hl⟩ := hl
      subst hl
      have hnew : c_str s ∉ c.members_ := hdisj (c_str s) (List.mem_cons_self _ _)
      obtain ⟨ha, hl⟩ := List.nodup_cons.mp hnodup
      have hadd := Committee.add_member_new c (c_str s) hnew hw
      cases hc1 : c.add_member (c_str s) with
      | mk ok c1 =>
        rw [hc1] at hadd
        have hok : ok = true := congrArg Prod.fst hadd
        have hmem : c1.members_ = c.members_ ++ [c_str s] :=
          congrArg (fun p => p.2.members_) hadd
        have hstore : c1.store_ = (c.store_.set Committee.members_key
            (.array ((c.members_ ++ [c_str s]).map JValue.c_string))).2 :=
          congrArg (fun p => p.2.store_) hadd
        subst hok
        simp only [committee.addMembers, hc1]
        have hw1 : ∀ v, c1.store_.accepts Committee.members_key v = true := by
          intro v
          rw [hstore, KeyValueStore.accepts_set]
          exact hw v
        have hdisj1 : ∀ m ∈ l1, m ∉ c1.members_ := by
          intro m hm hc
          rw [hmem] at hc
          rcases List.mem_append.mp hc with h1 | h1
          · exact hdisj m (List.mem_cons_of_mem _ hm) h1
          · rw [List.mem_singleton] at h1
            exact ha (h1 ▸ hm)
        obtain ⟨h1, h2, h3⟩ := ih l1 c1 hl1 hw1 hl hdisj1
        refine ⟨h1, ?_, ?_⟩
        · rw [h2, hmem]
          simp
        · intro _
          by_cases hnil : l1 = []
          · subst hnil
            have hitems : items = [] := by
              cases items with
              | nil => rfl
              | cons y ys =>
                cases y <;> simp [JValue.stringItems] at hl1
            subst hitems
            simp only [committee.addMembers]
            rw [hstore]
            exact KeyValueStore.get_set_same c.store_ _ _
              ((KeyValueStore.set_true_iff _ _ _).mpr (hw _))
          · rw [h3 hnil, hmem]
            simp
    | null => simp [JValue.stringItems] at hl
    | boolean b => simp [JValue.stringItems] at hl
    | number q => simp [JValue.stringItems] at hl
    | array a => simp [JValue.stringItems] at hl
    | object o => simp [JValue.stringItems] at hl

theorem committee.initialize_committee_not_owner (msg : JValue) (env : Environment)
    (st : ContractState) (h : st.owner ≠ some env.originator_id_) :
    committee.initialize_committee msg env st =
      (Response.error "only the owner may invoke this method", st) := by
  have hown : contract.base.is_owner env st = false := by
    unfold contract.base.is_owner
    cases ho : st.owner with
    | none => rfl
    | some owner =>
      simp only [decide_eq_false_iff_not]
      intro heq
      exact h (by rw [ho, heq])
  unfold committee.initialize_committee
  simp [hown]

theorem contract.base.is_owner_of_owner (env : Environment) (st : ContractState)
    (h : st.owner = some env.originator_id_) : contract.base.is_owner env st = true := by
  unfold contract.base.is_owner
  rw [h]
  simp

theorem contract.base.owner_of_is_owner (env : Environment) (st : ContractState)
    (h : contract.base.is_owner env st = true) : st.owner = some env.originator_id_ := by
  unfold contract.base.is_owner at h
  cases ho : st.owner with
  | none => simp [ho] at h
  | some owner =>
    simp only [ho, decide_eq_true_eq] at h
    rw [h]

theorem committee.initialize_committee_success (msg : JValue) (env : Environment)
    (st : ContractState)
    (h : (committee.initialize_committee msg env st).1.status = true) :
    ∃ (items : List JValue) (committee1 : Committee),
      contract.base.is_owner env st = true ∧
      st.initialized = true ∧
      JValue.validate_schema committee.COMMITTEE_INITIALIZE_COMMITTEE_PARAM_SCHEMA msg = true ∧
      st.accepts_ledger_key ((msg.get_string "ledger_verifying_key").getD "") = true ∧
      st.accepts_owner committee.unassigned_owner = true ∧
      msg.get_value "initial_members" = some (.array items) ∧
      0 < items.length ∧
      committee.addMembers (Committee.fromStore st.committee_store) items = (true, committee1) ∧
      committee.initialize_committee msg env st =
        (Response.success true,
          { st with
            owner := some committee.unassigned_owner
            ledger_key := some ((msg.get_string "ledger_verifying_key").getD "")
            committee_store := committee1.store_ }) := by
  by_cases h1 : contract.base.is_owner env st = true
  swap
  · simp [committee.initialize_committee, h1, Response.error] at h
  by_cases h2 : st.initialized = true
  swap
  · simp [committee.initialize_committee, h1, h2, Response.error] at h
  by_cases h3 : JValue.validate_schema
      committee.COMMITTEE_INITIALIZE_COMMITTEE_PARAM_SCHEMA msg = true
  swap
  · simp [committee.initialize_committee, h1, h2, h3, Response.error] at h
  by_cases hk : st.accepts_ledger_key ((msg.get_string "ledger_verifying_key").getD "") = true
  swap
  · simp [committee.initialize_committee, h1, h2, h3, contract.attestation.set_ledger_key, hk,
      Response.error] at h
  cases hv : msg.get_value "initial_members" with
  | none =>
    simp [committee.initialize_committee, h1, h2, h3, contract.attestation.set_ledger_key, hk,
      hv, Response.error] at h
  | some v =>
    cases v with
    | array items =>
      by_cases h4 : 0 < items.length
      · cases hadd : committee.addMembers (Committee.fromStore st.committee_store) items with
        | mk ok committee1 =>
          cases ok with
          | false =>
            simp [committee.initialize_committee, h1, h2, h3,
              contract.attestation.set_ledger_key, hk, hv, h4, hadd, Response.error] at h
          | true =>
            by_cases ho : st.accepts_owner committee.unassigned_owner = true
            · refine ⟨items, committee1, h1, h2, h3, hk, ho, rfl, h4, hadd, ?_⟩
              unfold committee.initialize_committee
              simp only [h1, h2, h3, hv, h4, not_true_eq_false, if_false, if_true,
                contract.base.set_owner, contract.attestation.set_ledger_key, hk, hadd, ho]
            · simp [committee.initialize_committee, h1, h2, h3,
                contract.attestation.set_ledger_key, hk, hv, h4, hadd, contract.base.set_owner,
                ho, Response.error] at h
      · simp [committee.initialize_committee, h1, h2, h3, contract.attestation.set_ledger_key,
          hk, hv, h4, Response.error] at h
    | null =>
      simp [committee.initialize_committee, h1, h2, h3, contract.attestation.set_ledger_key, hk,
        hv, Response.error] at h
    | boolean b =>
      simp [committee.initialize_committee, h1, h2, h3, contract.attestation.set_ledger_key, hk,
        hv, Response.error] at h
    | number q =>
      simp [committee.initialize_committee, h1, h2, h3, contract.attestation.set_ledger_key, hk,
        hv, Response.error] at h
    | string t =>
      simp [committee.initialize_committee, h1, h2, h3, contract.attestation.set_ledger_key, hk,
        hv, Response.error] at h
    | object l =>
      simp [committee.initialize_committee, h1, h2, h3, contract.attestation.set_ledger_key, hk,
        hv, Response.error] at h

theorem committee.initialize_committee_later (st : ContractState) (msg : JValue)
    (env : Environment) (hown : st.owner = some committee.unassigned_owner)
    (hne : env.originator_id_ ≠ committee.unassigned_owner) :
    committee.initialize_committee msg env st =
      (Response.error "only the owner may invoke this method", st) :=
  committee.initialize_committee_not_owner msg env st (by
    rw [hown]
    intro h
    exact hne (Option.some.inj h).symm)

/-- C18, the code at the failing input. The owner "owner" initializes the
committee {A, B, C} with the ledger key "K"; the owner on record is then the
marker "__UNASSIGNED__". A later `initialize_committee` by an originator whose
identity is that marker passes the owner check and succeeds: the ledger key
becomes "K2" and "D" joins the committee. A later call by any other
originator, such as the former owner, fails and changes nothing. -/
theorem initialize_once :
    (committee.initialize_committee (Sample.initRequest "K" ["A", "B", "C"])
      (Sample.env "owner") Sample.ownerState).1.status = true ∧
    (committee.initialize_committee (Sample.initRequest "K" ["A", "B", "C"])
      (Sample.env "owner") Sample.ownerState).2.owner = some "__UNASSIGNED__" ∧
    (committee.initialize_committee (Sample.initRequest "K2" ["D"])
      (Sample.env "__UNASSIGNED__")
      (committee.initialize_committee (Sample.initRequest "K" ["A", "B", "C"])
        (Sample.env "owner") Sample.ownerState).2).1.status = true ∧
    (committee.initialize_committee (Sample.initRequest "K2" ["D"])
      (Sample.env "__UNASSIGNED__")
      (committee.initialize_committee (Sample.initRequest "K" ["A", "B", "C"])
        (Sample.env "owner") Sample.ownerState).2).2.ledger_key = some "K2" ∧
    (Committee.fromStore
      (committee.initialize_committee (Sample.initRequest "K2" ["D"])
        (Sample.env "__UNASSIGNED__")
        (committee.initialize_committee (Sample.initRequest "K" ["A", "B", "C"])
          (Sample.env "owner") Sample.ownerState).2).2.committee_store).members_ =
      ["A", "B", "C", "D"] ∧
    (committee.initialize_committee (Sample.initRequest "K2" ["D"]) (Sample.env "owner")
      (committee.initialize_committee (Sample.initRequest "K" ["A", "B", "C"])
        (Sample.env "owner") Sample.ownerState).2).1.status = false := by
  decide

/-- C19. `initialize_committee` called by an originator who is not the owner on
record fails, and the contract state is unchanged: the ledger key, the
committee member sequence and the owner are as before. -/
theorem non_owner_refused (msg : JValue) (env : Environment) (st : ContractState)
    (h : st.owner ≠ some env.originator_id_) :
    (committee.initialize_committee msg env st).1.status = false ∧
    (committee.initialize_committee msg env st).2 = st ∧
    (committee.initialize_committee msg env st).2.ledger_key = st.ledger_key ∧
    (Committee.fromStore (committee.initialize_committee msg env st).2.committee_store).members_ =
      (Committee.fromStore st.committee_store).members_ ∧
    (committee.initialize_committee msg env st).2.owner = st.owner := by
  rw [committee.initialize_committee_not_owner msg env st h]
  exact ⟨rfl, rfl, rfl, rfl, rfl⟩

/-- Witness of C19: "A" is not the owner of the contract owned by "owner". -/
theorem non_owner_refused_witness :
    Sample.ownerState.owner ≠ some (Sample.env "A").originator_id_ ∧
    (committee.initialize_committee (Sample.initRequest "K" ["A", "B", "C"]) (Sample.env "A")
      Sample.ownerState).1.status = false ∧
    (committee.initialize_committee (Sample.initRequest "K" ["A", "B", "C"]) (Sample.env "A")
      Sample.ownerState).2 = Sample.ownerState :=
  have h := non_owner_refused (Sample.initRequest "K" ["A", "B", "C"]) (Sample.env "A")
    Sample.ownerState (by decide)
  ⟨by decide, h.1, h.2.1⟩

theorem committee.initialize_committee_iff (msg : JValue) (env : Environment)
    (st : ContractState) (ledger_verifying_key : String) (items : List JValue)
    (initial_members : List String)
    (howner : st.owner = some env.originator_id_)
    (hinit : st.initialized = true)
    (hschema : JValue.validate_schema
      committee.COMMITTEE_INITIALIZE_COMMITTEE_PARAM_SCHEMA msg = true)
    (hkey : msg.get_string "ledger_verifying_key" = some ledger_verifying_key)
    (hmembers : msg.get_value "initial_members" = some (.array items))
    (hitems : JValue.stringItems items = some initial_members)
    (hempty : (Committee.fromStore st.committee_store).members_ = [])
    (hwrites : ∀ v, st.committee_store.accepts Committee.members_key v = true)
    (hwkey : st.accepts_ledger_key ledger_verifying_key = true)
    (hwowner : st.accepts_owner committee.unassigned_owner = true) :
    ((committee.initialize_committee msg env st).1.status = true ↔
      (initial_members ≠ [] ∧ initial_members.Nodup)) ∧
    ((committee.initialize_committee msg env st).1.status = true →
      (Committee.fromStore
        (committee.initialize_committee msg env st).2.committee_store).members_ =
          initial_members ∧
      (committee.initialize_committee msg env st).2.ledger_key = some ledger_verifying_key ∧
      (committee.initialize_committee msg env st).2.owner =
        some committee.unassigned_owner) := by
  have hw0 : ∀ v, (Committee.fromStore st.committee_store).store_.accepts
      Committee.members_key v = true := by
    intro v
    rw [Committee.fromStore_store]
    exact hwrites v
  have hdisj : ∀ m ∈ initial_members, m ∉ (Committee.fromStore st.committee_store).members_ := by
    intro m _
    rw [hempty]
    exact List.not_mem_nil m
  have hnul : ∀ m ∈ initial_members, NulFree m :=
    JValue.stringItems_nulFree items initial_members hitems
  have hsucc : (committee.initialize_committee msg env st).1.status = true →
      initial_members ≠ [] ∧ initial_members.Nodup ∧
      (Committee.fromStore
        (committee.initialize_committee msg env st).2.committee_store).members_ =
          initial_members ∧
      (committee.initialize_committee msg env st).2.ledger_key = some ledger_verifying_key ∧
      (committee.initialize_committee msg env st).2.owner =
        some committee.unassigned_owner := by
    intro hok
    obtain ⟨items2, committee1, -, -, -, -, -, hv, hlen, hadd, heq⟩ :=
      committee.initialize_committee_success msg env st hok
    rw [hmembers] at hv
    have hitems2 : items2 = items := by
      injection hv with h1
      injection h1 with h2
      exact h2.symm
    subst hitems2
    have hne : initial_members ≠ [] := by
      intro h
      subst h
      cases items2 with
      | nil => exact absurd hlen (by decide)
      | cons y ys => cases y <;> simp [JValue.stringItems] at hitems
    have hnodup : initial_members.Nodup := by
      by_contra hcon
      have := committee.addMembers_false items2 initial_members
        (Committee.fromStore st.committee_store) hitems (fun h => hcon h.1)
      rw [hadd] at this
      simp at this
    obtain ⟨-, -, hget⟩ := committee.addMembers_true items2 initial_members
      (Committee.fromStore st.committee_store) hitems hw0 hnodup hdisj
    rw [hadd, hempty] at hget
    rw [heq, hkey]
    refine ⟨hne, hnodup, ?_, rfl, rfl⟩
    apply Committee.fromStore_members _ _ _ (hget hne)
    rw [List.nil_append, JValue.stringItems_c_strings, map_c_str_of_nulFree _ hnul]
  refine ⟨⟨fun hok => ⟨(hsucc hok).1, (hsucc hok).2.1⟩, ?_⟩, fun hok => (hsucc hok).2.2⟩
  rintro ⟨hne, hnodup⟩
  obtain ⟨hadd, -, -⟩ := committee.addMembers_true items initial_members
    (Committee.fromStore st.committee_store) hitems hw0 hnodup hdisj
  have hlen : 0 < items.length := by
    cases items with
    | nil =>
      simp only [JValue.stringItems, Option.some.injEq] at hitems
      exact absurd hitems.symm hne
    | cons y ys => simp
  cases hc : committee.addMembers (Committee.fromStore st.committee_store) items with
  | mk ok committee1 =>
    rw [hc] at hadd
    simp only at hadd
    subst hadd
    unfold committee.initialize_committee
    simp only [contract.base.is_owner_of_owner env st howner, hinit, hschema, hmembers, hlen,
      not_true_eq_false, if_false, if_true, contract.attestation.set_ledger_key,
      contract.base.set_owner, hkey, Option.getD_some, hwkey, hwowner, hc]
    rfl

/-! ## The committee object -/

theorem Committee.save_eq (c : Committee) :
    c.save = ((c.store_.set Committee.members_key (.array (c.members_.map JValue.c_string))).1,
      { c with store_ := (c.store_.set Committee.members_key
          (.array (c.members_.map JValue.c_string))).2 }) := by
  unfold Committee.save
  rfl

theorem Committee.save_members (c : Committee) : c.save.2.members_ = c.members_ := by
  rw [Committee.save_eq]

theorem Committee.save_true (c : Committee) (h : c.save.1 = true) :
    c.save.2.store_.get Committee.members_key =
      some (.array (c.members_.map JValue.c_string)) := by
  rw [Committee.save_eq] at h ⊢
  exact KeyValueStore.get_set_same c.store_ _ _ h

theorem Committee.save_false (c : Committee) (h : c.save.1 = false) :
    c.save.2.store_ = c.store_ := by
  rw [Committee.save_eq] at h ⊢
  exact KeyValueStore.set_false c.store_ _ _ h

theorem Committee.save_true_iff (c : Committee) :
    c.save.1 = true ↔
      c.store_.accepts Committee.members_key
        (.array (c.members_.map JValue.c_string)) = true := by
  rw [Committee.save_eq]
  exact KeyValueStore.set_true_iff c.store_ _ _

theorem Committee.add_member_absent (c : Committee) (member : String)
    (h : member ∉ c.members_) :
    c.add_member member = Committee.save { c with members_ := c.members_ ++ [member] } := by
  unfold Committee.add_member
  rw [if_pos h]

theorem Committee.remove_member_present (c : Committee) (member : String)
    (h : member ∈ c.members_) :
    c.remove_member member = Committee.save { c with members_ := c.members_.erase member } := by
  unfold Committee.remove_member
  rw [if_pos h]

theorem Committee.remove_member_absent (c : Committee) (member : String)
    (h : member ∉ c.members_) : c.remove_member member = (false, c) := by
  unfold Committee.remove_member
  rw [if_neg h]

theorem Committee.perform_members_nodup (c : Committee) (call : MemberCall)
    (h : c.members_.Nodup) : (c.perform call).2.members_.Nodup := by
  cases call with
  | add member =>
    simp only [Committee.perform]
    by_cases hm : member ∈ c.members_
    · rw [Committee.add_member_old c member hm]
      exact h
    · rw [Committee.add_member_absent c member hm, Committee.save_members]
      exact List.Nodup.append h (List.nodup_singleton _) (by
        intro a ha hb
        rw [List.mem_singleton] at hb
        exact hm (hb ▸ ha))
  | remove member =>
    simp only [Committee.perform]
    by_cases hm : member ∈ c.members_
    · rw [Committee.remove_member_present c member hm, Committee.save_members]
      exact List.Nodup.erase _ h
    · rw [Committee.remove_member_absent c member hm]
      exact h

theorem Committee.calls_members_nodup (calls : List MemberCall) :
    ∀ c : Committee, c.members_.Nodup → (c.calls calls).members_.Nodup := by
  induction calls with
  | nil => exact fun c h => h
  | cons call calls ih =>
    intro c h
    simp only [Committee.calls, List.foldl_cons]
    exact ih _ (Committee.perform_members_nodup c call h)

theorem Committee.member_strings_of_nulFree (l : List String) (h : ∀ m ∈ l, NulFree m) :
    l.map JValue.c_string = l.map JValue.string := by
  induction l with
  | nil => rfl
  | cons a l ih =>
    simp only [List.map_cons, JValue.c_string]
    rw [c_str_of_nulFree a (h a (List.mem_cons_self _ _))]
    exact congrArg _ (ih (fun m hm => h m (List.mem_cons_of_mem _ hm)))

theorem Committee.save_round_trip (c : Committee) (h : c.save.1 = true) :
    (Committee.fromStore c.save.2.store_).members_ = c.members_.map c_str :=
  Committee.fromStore_members _ _ _ (Committee.save_true c h)
    (JValue.stringItems_c_strings c.members_)

theorem Committee.perform_round_trip (c : Committee) (call : MemberCall)
    (h : (c.perform call).1 = true) :
    (Committee.fromStore (c.perform call).2.store_).members_ =
      (c.perform call).2.members_.map c_str := by
  cases call with
  | add member =>
    simp only [Committee.perform] at h ⊢
    by_cases hm : member ∈ c.members_
    · rw [Committee.add_member_old c member hm] at h
      simp at h
    · rw [Committee.add_member_absent c member hm] at h ⊢
      rw [Committee.save_members]
      exact Committee.save_round_trip _ h
  | remove member =>
    simp only [Committee.perform] at h ⊢
    by_cases hm : member ∈ c.members_
    · rw [Committee.remove_member_present c member hm] at h ⊢
      rw [Committee.save_members]
      exact Committee.save_round_trip _ h
    · rw [Committee.remove_member_absent c member hm] at h
      simp at h

/-- Counterexample to C22 as stated. The identity made of "A", a NUL and "B"
is added to the committee {A, B, C} with success: the member sequence of the
object is then A, B, C and that identity, but the sequence written to the
store is A, B, C, A, since `save` hands every member over as a C string. -/
theorem add_member_counterexample :
    (Sample.committee.add_member Sample.nulString).1 = true ∧
    (Sample.committee.add_member Sample.nulString).2.members_ =
      ["A", "B", "C", Sample.nulString] ∧
    (Sample.committee.add_member Sample.nulString).2.store_.get Committee.members_key =
      some (.array [.string "A", .string "B", .string "C", .string "A"]) ∧
    Sample.nulString ≠ "A" :=
  ⟨by decide, by decide, rfl, by decide⟩

/-- C22, amended. `Committee::add_member(id)`: if the id is already in the
member sequence the call returns false and the committee object, its store
included, is unchanged; otherwise the member sequence becomes the previous one
with the id appended at the end, the call returns true exactly when the store
carries out the write of that sequence with every member as a C string, and
then this is what the store holds, `is_member(id)` is true and `is_member` of
every other identity is as before; when the write is refused the store is
unchanged. When no member and not the id holds a NUL, what is written is that
full sequence. -/
theorem add_member_contract (c : Committee) (id : String) :
    (id ∈ c.members_ → c.add_member id = (false, c)) ∧
    (id ∉ c.members_ →
      (c.add_member id).2.members_ = c.members_ ++ [id] ∧
      ((c.add_member id).1 = true ↔
        c.store_.accepts Committee.members_key
          (.array ((c.members_ ++ [id]).map JValue.c_string)) = true) ∧
      ((c.add_member id).1 = true →
        (c.add_member id).2.store_.get Committee.members_key =
            some (.array ((c.members_ ++ [id]).map JValue.c_string)) ∧
          (c.add_member id).2.is_member id = true ∧
          ∀ other : String, other ≠ id →
            (c.add_member id).2.is_member other = c.is_member other) ∧
      ((c.add_member id).1 = false → (c.add_member id).2.store_ = c.store_)) ∧
    ((∀ m ∈ c.members_ ++ [id], NulFree m) →
      (c.members_ ++ [id]).map JValue.c_string = (c.members_ ++ [id]).map JValue.string) := by
  refine ⟨Committee.add_member_old c id, ?_, Committee.member_strings_of_nulFree _⟩
  intro hnew
  rw [Committee.add_member_absent c id hnew]
  refine ⟨Committee.save_members _, Committee.save_true_iff _, ?_, Committee.save_false _⟩
  intro hok
  refine ⟨Committee.save_true _ hok, ?_, ?_⟩
  · unfold Committee.is_member
    rw [Committee.save_members]
    simp
  · intro other hne
    unfold Committee.is_member
    rw [Committee.save_members]
    simp [hne]

/-- Witness of C22: "D" joins the committee {A, B, C}, and "A" is refused. -/
theorem add_member_contract_witness :
    Sample.committee.add_member "A" = (false, Sample.committee) ∧
    (Sample.committee.add_member "D").1 = true ∧
    (Sample.committee.add_member "D").2.members_ = ["A", "B", "C", "D"] ∧
    (Sample.committee.add_member "D").2.is_member "D" = true :=
  have h := (add_member_contract Sample.committee "D").2.1 (by decide)
  have hok : (Sample.committee.add_member "D").1 = true := h.2.1.mpr rfl
  ⟨(add_member_contract Sample.committee "A").1 (by decide), hok, h.1, (h.2.2.1 hok).2.1⟩

/-- Counterexample to C23 as stated. From the committee A, B, C and the
identity made of "A", a NUL and "B", the member "B" is removed with success:
the member sequence of the object is then A, C and that identity, but the
sequence written to the store is A, C, A. -/
theorem remove_member_counterexample :
    ((Sample.committee.add_member Sample.nulString).2.remove_member "B").1 = true ∧
    ((Sample.committee.add_member Sample.nulString).2.remove_member "B").2.members_ =
      ["A", "C", Sample.nulString] ∧
    ((Sample.committee.add_member Sample.nulString).2.remove_member "B").2.store_.get
      Committee.members_key = some (.array [.string "A", .string "C", .string "A"]) ∧
    Sample.nulString ≠ "A" :=
  ⟨by decide, by decide, rfl, by decide⟩

/-- C23, amended. `Committee::remove_member(id)`: if the id is not in the
member sequence the call returns false and nothing changes; otherwise the
first occurrence of the id is removed and the other members keep their order,
the call returns true exactly when the store carries out the write of the new
sequence with every member as a C string, and then this is what the store
holds; for a committee without repeated identity `is_member(id)` is false
afterwards and `is_member` of every other identity is as before. When no
remaining member holds a NUL, what is written is the full new sequence. -/
theorem remove_member_contract (c : Committee) (id : String) :
    (id ∉ c.members_ → c.remove_member id = (false, c)) ∧
    (id ∈ c.members_ →
      (∃ before after : List String,
        id ∉ before ∧ c.members_ = before ++ id :: after ∧
        (c.remove_member id).2.members_ = before ++ after) ∧
      ((c.remove_member id).1 = true ↔
        c.store_.accepts Committee.members_key
          (.array ((c.remove_member id).2.members_.map JValue.c_string)) = true) ∧
      ((c.remove_member id).1 = true →
        (c.remove_member id).2.store_.get Committee.members_key =
          some (.array ((c.remove_member id).2.members_.map JValue.c_string))) ∧
      ((c.remove_member id).1 = false → (c.remove_member id).2.store_ = c.store_) ∧
      (c.members_.Nodup → (c.remove_member id).2.is_member id = false) ∧
      (∀ other : String, other ≠ id →
        (c.remove_member id).2.is_member other = c.is_member other)) ∧
    ((∀ m ∈ (c.remove_member id).2.members_, NulFree m) →
      (c.remove_member id).2.members_.map JValue.c_string =
        (c.remove_member id).2.members_.map JValue.string) := by
  refine ⟨Committee.remove_member_absent c id, ?_, Committee.member_strings_of_nulFree _⟩
  intro hold
  rw [Committee.remove_member_present c id hold]
  simp only [Committee.save_members]
  refine ⟨?_, Committee.save_true_iff _, Committee.save_true _, Committee.save_false _, ?_, ?_⟩
  · obtain ⟨before, after, h1, h2, h3⟩ := List.exists_erase_eq hold
    exact ⟨before, after, h1, h2, h3⟩
  · intro hnodup
    unfold Committee.is_member
    rw [Committee.save_members]
    simpa using List.Nodup.not_mem_erase hnodup
  · intro other hne
    unfold Committee.is_member
    rw [Committee.save_members]
    simp [List.mem_erase_of_ne hne]

/-- Witness of C23: "B" leaves the committee {A, B, C}, and "D" is not there
to be removed. -/
theorem remove_member_contract_witness :
    Sample.committee.remove_member "D" = (false, Sample.committee) ∧
    (Sample.committee.remove_member "B").1 = true ∧
    (Sample.committee.remove_member "B").2.members_ = ["A", "C"] ∧
    (Sample.committee.remove_member "B").2.is_member "B" = false :=
  have h := (remove_member_contract Sample.committee "B").2.1 (by decide)
  ⟨(remove_member_contract Sample.committee "D").1 (by decide), h.2.1.mpr rfl, by decide,
    h.2.2.2.2.1 (by decide)⟩

/-- C24. Committee uniqueness invariant: a member sequence without repeated
identity has none after any `add_member` or `remove_member` call, hence after
any sequence of such calls; a committee constructed over a store that holds no
member sequence starts without members, so every committee built from it by
`add_member` and `remove_member` calls is a sequence of unique identities. -/
theorem members_unique (c : Committee) (h : c.members_.Nodup) (id : String) :
    (c.add_member id).2.members_.Nodup ∧
    (c.remove_member id).2.members_.Nodup ∧
    (∀ calls : List MemberCall, (c.calls calls).members_.Nodup) ∧
    (∀ (store : KeyValueStore) (calls : List MemberCall),
      store.get Committee.members_key = none →
      (Committee.fromStore store).members_ = [] ∧
      ((Committee.fromStore store).calls calls).members_.Nodup) :=
  ⟨Committee.perform_members_nodup c (.add id) h,
    Committee.perform_members_nodup c (.remove id) h,
    fun calls => Committee.calls_members_nodup calls c h,
    fun store calls hnone =>
      ⟨Committee.fromStore_members_none store hnone,
        Committee.calls_members_nodup calls _ (by
          rw [Committee.fromStore_members_none store hnone]
          exact List.nodup_nil)⟩⟩

/-- Witness of C24: the committee {A, B, C}, to which "A" is added again, "D"
is added and from which "B" is removed. -/
theorem members_unique_witness :
    Sample.committee.members_.Nodup ∧
    (Sample.committee.calls [.add "A", .add "D", .remove "B"]).members_ = ["A", "C", "D"] ∧
    (Sample.committee.calls [.add "A", .add "D", .remove "B"]).members_.Nodup :=
  ⟨by decide, by decide, (members_unique Sample.committee (by decide) "A").2.2.1 _⟩

/-- Counterexample to C25 as stated. The identity made of "A", a NUL and "B"
is added to the committee {A, B, C} with success; the committee newly
constructed over the store has the members A, B, C, A, which is not the
member sequence of the committee that made the call. -/
theorem committee_round_trip_counterexample :
    (Sample.committee.perform (.add Sample.nulString)).1 = true ∧
    (Sample.committee.perform (.add Sample.nulString)).2.members_ =
      ["A", "B", "C", Sample.nulString] ∧
    (Committee.fromStore (Sample.committee.perform (.add Sample.nulString)).2.store_).members_ =
      ["A", "B", "C", "A"] := by
  decide

/-- C25, amended. Committee persistence round trip: after an `add_member` or
`remove_member` call that returns true and leaves a committee none of whose
members holds a NUL, a committee newly constructed over the store, which
loads on construction, has the member sequence of the committee that made the
call, in the same order. -/
theorem committee_round_trip (c : Committee) (call : MemberCall)
    (h : (c.perform call).1 = true)
    (hnul : ∀ m ∈ (c.perform call).2.members_, NulFree m) :
    (Committee.fromStore (c.perform call).2.store_).members_ = (c.perform call).2.members_ := by
  rw [Committee.perform_round_trip c call h, map_c_str_of_nulFree _ hnul]

/-- Witness of C25: "D" joins the committee {A, B, C}; the committee loaded
from the store is A, B, C, D. -/
theorem committee_round_trip_witness :
    (Sample.committee.perform (.add "D")).1 = true ∧
    (Committee.fromStore (Sample.committee.perform (.add "D")).2.store_).members_ =
      ["A", "B", "C", "D"] :=
  ⟨by decide,
    (committee_round_trip Sample.committee (.add "D") (by decide) (by decide)).trans
      (by decide)⟩

/-! ## Failure and absence of the index -/

theorem ResolutionManager.add_resolution_false_cases (store : KeyValueStore) (r : Resolution)
    (h : (ResolutionManager.add_resolution store r).1 = false) :
    (ResolutionManager.add_resolution store r).2 = store ∨
    ∃ (v : JValue) (items : List JValue),
      r.serialize_string = some v ∧
      store.get ResolutionManager.resolution_list_key_ = some (.array items) ∧
      ResolutionManager.scan items r.id_ = true ∧
      store.accepts r.id_ v = true ∧
      store.accepts ResolutionManager.resolution_list_key_
        (.array (items ++ [JValue.c_string r.id_])) = false ∧
      (ResolutionManager.add_resolution store r).2 = (store.set r.id_ v).2 := by
  rcases ResolutionManager.add_resolution_cases store r with hA | ⟨v, items, hv, hget, hscan, hset, hB⟩
  · left
    rw [hA]
  · right
    rw [hB] at h ⊢
    refine ⟨v, items, hv, hget, hscan, (KeyValueStore.set_true_iff _ _ _).mp hset, ?_,
      KeyValueStore.set_false _ _ _ h⟩
    have hacc := KeyValueStore.accepts_set store r.id_ v
    cases hb : store.accepts ResolutionManager.resolution_list_key_
        (.array (items ++ [JValue.c_string r.id_])) with
    | false => rfl
    | true =>
      have : ((store.set r.id_ v).2.set ResolutionManager.resolution_list_key_
          (.array (items ++ [JValue.c_string r.id_]))).1 = true := by
        rw [KeyValueStore.set_true_iff, hacc]
        exact hb
      rw [this] at h
      exact absurd h (by decide)

theorem ResolutionManager.list_resolutions_none (store : KeyValueStore)
    (h : ∀ items, store.get ResolutionManager.resolution_list_key_ ≠ some (.array items)) :
    ResolutionManager.list_resolutions store = none := by
  unfold ResolutionManager.list_resolutions
  cases hget : store.get ResolutionManager.resolution_list_key_ with
  | none => rfl
  | some v =>
    cases v with
    | array items => exact absurd hget (h items)
    | null => rfl
    | boolean b => rfl
    | number q => rfl
    | string t => rfl
    | object l => rfl

theorem ResolutionManager.add_resolution_no_index (store : KeyValueStore) (r : Resolution)
    (h : ∀ items, store.get ResolutionManager.resolution_list_key_ ≠ some (.array items)) :
    ResolutionManager.add_resolution store r = (false, store) := by
  rcases ResolutionManager.add_resolution_cases store r with hA | ⟨v, items, -, hget, -, -, -⟩
  · exact hA
  · exact absurd hget (h items)

theorem ResolutionManager.perform_no_index (store : KeyValueStore) (call : StoreCall)
    (h : ∀ items, store.get ResolutionManager.resolution_list_key_ ≠ some (.array items)) :
    ∀ items, (ResolutionManager.perform store call).2.get
      ResolutionManager.resolution_list_key_ ≠ some (.array items) := by
  cases call with
  | add r =>
    simp only [ResolutionManager.perform]
    rw [ResolutionManager.add_resolution_no_index store r h]
    exact h
  | update r =>
    simp only [ResolutionManager.perform]
    intro items
    by_cases hk : r.id_ = ResolutionManager.resolution_list_key_
    · obtain ⟨v, hv⟩ := Resolution.serialize_string_isSome r
      have hv2 := hv
      simp only [Resolution.serialize_string, Resolution.serialize, Option.some.injEq] at hv2
      unfold ResolutionManager.update_resolution
      rw [hv]
      simp only
      cases hset : (store.set r.id_ v).1 with
      | false =>
        rw [KeyValueStore.set_false _ _ _ hset]
        exact h items
      | true =>
        rw [← hk, KeyValueStore.get_set_same _ _ _ hset, ← hv2]
        intro hc
        injection hc with hc
        cases hc
    · rw [ResolutionManager.update_resolution_get_other store r _ (Ne.symm hk)]
      exact h items

theorem ResolutionManager.run_no_index (calls : List StoreCall) :
    ∀ store : KeyValueStore,
      (∀ items, store.get ResolutionManager.resolution_list_key_ ≠ some (.array items)) →
      ∀ items, (ResolutionManager.run store calls).get
        ResolutionManager.resolution_list_key_ ≠ some (.array items) := by
  induction calls with
  | nil => exact fun store h => h
  | cons call calls ih =>
    intro store h
    simp only [ResolutionManager.run, List.foldl_cons]
    exact ih _ (ResolutionManager.perform_no_index store call h)


/-- C28. `ResolutionManager::initialize` writes an empty index: right after it
succeeds `list_resolutions` succeeds and returns the empty sequence. On a
store without index, as is every store on which it has never run,
`list_resolutions` fails and `add_resolution` returns false and changes
nothing, and this stays so after any sequence of `add_resolution` and
`update_resolution` calls. -/
theorem initialize_writes_empty_index (store : KeyValueStore) :
    (( ResolutionManager.initialize store).1 = true →
      ResolutionManager.list_resolutions ( ResolutionManager.initialize store).2 = some []) ∧
    (store.get ResolutionManager.resolution_list_key_ = none →
      ResolutionManager.list_resolutions store = none ∧
      (∀ r : Resolution, ResolutionManager.add_resolution store r = (false, store)) ∧
      (∀ (calls : List StoreCall) (r : Resolution),
        ResolutionManager.list_resolutions (ResolutionManager.run store calls) = none ∧
        (ResolutionManager.add_resolution (ResolutionManager.run store calls) r).1 = false)) := by
  refine ⟨ResolutionManager.list_resolutions_initialize store, ?_⟩
  intro hnone
  have h0 : ∀ items, store.get ResolutionManager.resolution_list_key_ ≠
      some (.array items) := by
    intro items
    rw [hnone]
    exact fun hc => Option.noConfusion hc
  refine ⟨ResolutionManager.list_resolutions_none store h0,
    fun r => ResolutionManager.add_resolution_no_index store r h0, ?_⟩
  intro calls r
  have h1 := ResolutionManager.run_no_index calls store h0
  refine ⟨ResolutionManager.list_resolutions_none _ h1, ?_⟩
  rw [ResolutionManager.add_resolution_no_index _ r h1]

/-- Witness of C28: on the empty store both calls fail, also after an update
has written "H"; after `initialize` the index is empty. -/
theorem initialize_writes_empty_index_witness :
    ResolutionManager.list_resolutions Sample.emptyStore = none ∧
    ResolutionManager.add_resolution Sample.emptyStore Sample.approved =
      (false, Sample.emptyStore) ∧
    ResolutionManager.list_resolutions
      (ResolutionManager.run Sample.emptyStore [.update Sample.approved]) = none ∧
    ResolutionManager.list_resolutions ( ResolutionManager.initialize Sample.emptyStore).2 =
      some [] :=
  have h := initialize_writes_empty_index Sample.emptyStore
  ⟨(h.2 rfl).1, (h.2 rfl).2.1 Sample.approved,
    ((h.2 rfl).2.2 [.update Sample.approved] Sample.approved).1, h.1 (by decide)⟩

/-! ## Failure of the committee initialization -/

theorem committee.initialize_committee_eq (msg : JValue) (env : Environment)
    (st : ContractState) :
    committee.initialize_committee msg env st =
      if ¬ contract.base.is_owner env st then
        (Response.error "only the owner may invoke this method", st)
      else if ¬ st.initialized then (Response.error "contract has not been initialized", st)
      else if ¬ JValue.validate_schema
          committee.COMMITTEE_INITIALIZE_COMMITTEE_PARAM_SCHEMA msg then
        (Response.error "invalid request, missing required parameters", st)
      else if ¬ st.accepts_ledger_key ((msg.get_string "ledger_verifying_key").getD "") then
        (Response.error "failed to save the ledger verifying key", st)
      else
        match msg.get_value "initial_members" with
        | some (.array member_array) =>
          if ¬ 0 < member_array.length then
            (Response.error "invalid request, committee must have at least one member",
              { st with
                ledger_key := some ((msg.get_string "ledger_verifying_key").getD "") })
          else
            match committee.addMembers (Committee.fromStore st.committee_store)
                member_array with
            | (false, committee1) =>
              (Response.error "unexpected error: failed to add member ",
                { st with
                  ledger_key := some ((msg.get_string "ledger_verifying_key").getD "")
                  committee_store := committee1.store_ })
            | (true, committee1) =>
              if ¬ st.accepts_owner committee.unassigned_owner then
                (Response.error "unexpected error: failed to reassign ownership",
                  { st with
                    ledger_key := some ((msg.get_string "ledger_verifying_key").getD "")
                    committee_store := committee1.store_ })
              else
                (Response.success true,
                  { st with
                    owner := some committee.unassigned_owner
                    ledger_key := some ((msg.get_string "ledger_verifying_key").getD "")
                    committee_store := committee1.store_ })
        | _ =>
          (Response.error "invalid request, unable to retrieve committee member",
            { st with ledger_key := some ((msg.get_string "ledger_verifying_key").getD "") }) := by
  unfold committee.initialize_committee contract.attestation.set_ledger_key
    contract.base.set_owner
  by_cases hk : st.accepts_ledger_key ((msg.get_string "ledger_verifying_key").getD "") = true
  · by_cases ho : st.accepts_owner committee.unassigned_owner = true
    · simp only [hk, ho, if_true, not_true_eq_false, if_false]
    · simp only [hk, ho, if_true, not_true_eq_false, if_false, not_false_eq_true,
        Bool.false_eq_true]
  · simp only [hk, if_false, not_false_eq_true, if_true, Bool.false_eq_true]

theorem committee.initialize_committee_failed (msg : JValue) (env : Environment)
    (st : ContractState)
    (h : (committee.initialize_committee msg env st).1.status = false) :
    ∃ (key : Option String) (store : KeyValueStore),
      (committee.initialize_committee msg env st).2 =
        { st with ledger_key := key, committee_store := store } := by
  revert h
  rw [committee.initialize_committee_eq]
  repeat' split
  all_goals first
    | (intro _; exact ⟨st.ledger_key, st.committee_store, rfl⟩)
    | (intro _; exact ⟨_, _, rfl⟩)
    | (intro h; simp [Response.success] at h)

theorem committee.initialize_committee_early (msg : JValue) (env : Environment)
    (st : ContractState)
    (h : contract.base.is_owner env st = false ∨ st.initialized = false ∨
      JValue.validate_schema committee.COMMITTEE_INITIALIZE_COMMITTEE_PARAM_SCHEMA msg = false ∨
      st.accepts_ledger_key ((msg.get_string "ledger_verifying_key").getD "") = false) :
    (committee.initialize_committee msg env st).1.status = false ∧
    (committee.initialize_committee msg env st).2 = st := by
  rw [committee.initialize_committee_eq]
  by_cases h1 : contract.base.is_owner env st = true
  swap
  · simp [h1, Response.error]
  by_cases h2 : st.initialized = true
  swap
  · simp [h1, h2, Response.error]
  by_cases h3 : JValue.validate_schema
      committee.COMMITTEE_INITIALIZE_COMMITTEE_PARAM_SCHEMA msg = true
  swap
  · simp [h1, h2, h3, Response.error]
  by_cases h4 : st.accepts_ledger_key ((msg.get_string "ledger_verifying_key").getD "") = true
  swap
  · simp [h1, h2, h3, h4, Response.error]
  rcases h with h | h | h | h
  · rw [h1] at h
    exact absurd h (by decide)
  · rw [h2] at h
    exact absurd h (by decide)
  · rw [h3] at h
    exact absurd h (by decide)
  · rw [h4] at h
    exact absurd h (by decide)

theorem committee.initialize_committee_members (msg : JValue) (env : Environment)
    (st : ContractState) (items : List JValue) (initial_members : List String)
    (hmembers : msg.get_value "initial_members" = some (.array items))
    (hitems : JValue.stringItems items = some initial_members)
    (hbad : initial_members = [] ∨ ¬ initial_members.Nodup) :
    (committee.initialize_committee msg env st).1.status = false := by
  cases hs : (committee.initialize_committee msg env st).1.status with
  | false => rfl
  | true =>
    obtain ⟨items2, committee1, -, -, -, -, -, hv, hlen, hadd, -⟩ :=
      committee.initialize_committee_success msg env st hs
    rw [hmembers] at hv
    have hitems2 : items2 = items := by
      injection hv with h1
      injection h1 with h2
      exact h2.symm
    subst hitems2
    rcases hbad with hnil | hrep
    · subst hnil
      cases items2 with
      | nil => exact absurd hlen (by decide)
      | cons y ys => cases y <;> simp [JValue.stringItems] at hitems
    · have := committee.addMembers_false items2 initial_members
        (Committee.fromStore st.committee_store) hitems (fun h => hrep h.1)
      rw [hadd] at this
      simp at this

/-- C27. No partial mutation on failure of `initialize_committee`: whenever the
method fails, the host commits nothing of the invocation, so the registered
ledger key, the persisted committee member sequence and the owner are as they
were before the call. The method does fail when `initial_members`, read from
the request, is empty or repeats an identity. In the state that the failed
method leaves behind for the host to discard, the owner, which is written
last, is as before in every case, and the whole state is as before when the
failure is at the owner check, the initialized check, the schema validation or
the write of the ledger key. -/
theorem initialize_committee_failure (msg : JValue) (env : Environment) (st : ContractState)
    (h : (committee.initialize_committee msg env st).1.status = false) :
    committee.commit st (committee.initialize_committee msg env st) = st ∧
    (committee.commit st (committee.initialize_committee msg env st)).ledger_key =
      st.ledger_key ∧
    (Committee.fromStore
      (committee.commit st (committee.initialize_committee msg env st)).committee_store).members_ =
      (Committee.fromStore st.committee_store).members_ ∧
    (committee.commit st (committee.initialize_committee msg env st)).owner = st.owner ∧
    (committee.initialize_committee msg env st).2.owner = st.owner ∧
    ((contract.base.is_owner env st = false ∨ st.initialized = false ∨
        JValue.validate_schema committee.COMMITTEE_INITIALIZE_COMMITTEE_PARAM_SCHEMA msg =
          false ∨
        st.accepts_ledger_key ((msg.get_string "ledger_verifying_key").getD "") = false) →
      (committee.initialize_committee msg env st).2 = st) ∧
    (∀ (msg2 : JValue) (env2 : Environment) (st2 : ContractState) (items : List JValue)
      (initial_members : List String),
      msg2.get_value "initial_members" = some (.array items) →
      JValue.stringItems items = some initial_members →
      (initial_members = [] ∨ ¬ initial_members.Nodup) →
      (committee.initialize_committee msg2 env2 st2).1.status = false) := by
  have hcommit : committee.commit st (committee.initialize_committee msg env st) = st := by
    unfold committee.commit
    rw [h]
    rfl
  obtain ⟨key, store, hstate⟩ := committee.initialize_committee_failed msg env st h
  refine ⟨hcommit, by rw [hcommit], by rw [hcommit], by rw [hcommit], by rw [hstate],
    fun hearly => (committee.initialize_committee_early msg env st hearly).2, ?_⟩
  intro msg2 env2 st2 items initial_members hmembers hitems hbad
  exact committee.initialize_committee_members msg2 env2 st2 items initial_members hmembers
    hitems hbad

/-- Witness of C27: the owner calls `initialize_committee` with the members
"A", "A" on the contract without committee; the call fails and the persisted
state is as before: no ledger key, no members, the owner "owner". -/
theorem initialize_committee_failure_witness :
    (committee.initialize_committee (Sample.initRequest "K" ["A", "A"]) (Sample.env "owner")
      Sample.ownerState).1.status = false ∧
    committee.commit Sample.ownerState
      (committee.initialize_committee (Sample.initRequest "K" ["A", "A"]) (Sample.env "owner")
        Sample.ownerState) = Sample.ownerState ∧
    (committee.commit Sample.ownerState
      (committee.initialize_committee (Sample.initRequest "K" ["A", "A"]) (Sample.env "owner")
        Sample.ownerState)).ledger_key = none :=
  have h := initialize_committee_failure (Sample.initRequest "K" ["A", "A"])
    (Sample.env "owner") Sample.ownerState (by decide)
  ⟨by decide, h.1, h.2.1⟩

/-! ## Sequences of invocations -/

theorem committee.approve_resolution_frame (vote : committee.VoteFunction) (msg : JValue)
    (env : Environment) (st : ContractState) :
    ∃ store : KeyValueStore,
      (committee.approve_resolution vote msg env st).2 = { st with resolution_store := store } := by
  unfold committee.approve_resolution
  dsimp only
  repeat' split
  all_goals exact ⟨_, rfl⟩

theorem committee.disapprove_resolution_frame (vote : committee.VoteFunction) (msg : JValue)
    (env : Environment) (st : ContractState) :
    ∃ store : KeyValueStore,
      (committee.disapprove_resolution vote msg env st).2 =
        { st with resolution_store := store } := by
  unfold committee.disapprove_resolution
  dsimp only
  repeat' split
  all_goals exact ⟨_, rfl⟩

theorem committee.propose_resolution_frame (crypto : Crypto) (codec : CredentialCodec)
    (msg : JValue) (env : Environment) (st : ContractState) :
    ∃ store : KeyValueStore,
      (committee.propose_resolution crypto codec msg env st).2 =
        { st with resolution_store := store } := by
  unfold committee.propose_resolution
  dsimp only
  repeat' split
  all_goals exact ⟨_, rfl⟩

theorem committee.issue_resolution_credential_frame (crypto : Crypto) (codec : CredentialCodec)
    (issuer : CredentialIssuer) (msg : JValue) (env : Environment) (st : ContractState) :
    (committee.issue_resolution_credential crypto codec issuer msg env st).2 = st := by
  unfold committee.issue_resolution_credential
  dsimp only
  repeat' split
  all_goals rfl

theorem committee.add_member_frame (msg : JValue) (env : Environment) (st : ContractState) :
    (committee.add_member msg env st).2 = st := by
  unfold committee.add_member
  dsimp only
  repeat' split
  all_goals rfl

theorem committee.remove_member_frame (msg : JValue) (env : Environment) (st : ContractState) :
    (committee.remove_member msg env st).2 = st := by
  unfold committee.remove_member
  dsimp only
  repeat' split
  all_goals rfl

theorem committee.list_resolutions_frame (msg : JValue) (env : Environment)
    (st : ContractState) : (committee.list_resolutions msg env st).2 = st := by
  unfold committee.list_resolutions
  repeat' split
  all_goals rfl

theorem committee.resolution_status_frame (codec : CredentialCodec) (msg : JValue)
    (env : Environment) (st : ContractState) :
    (committee.resolution_status codec msg env st).2 = st := by
  unfold committee.resolution_status
  repeat' split
  all_goals rfl


theorem committee.invoke_other (d : committee.Deployment) (call : committee.Invocation)
    (st : ContractState) (hcall : call.method ≠ .initialize_committee) :
    ∃ store : KeyValueStore,
      (committee.invoke d call st).2 = { st with resolution_store := store } := by
  unfold committee.invoke
  cases hm : call.method with
  | initialize_committee => exact absurd hm hcall
  | add_member => exact ⟨st.resolution_store, committee.add_member_frame _ _ _⟩
  | remove_member => exact ⟨st.resolution_store, committee.remove_member_frame _ _ _⟩
  | propose_resolution => exact committee.propose_resolution_frame _ _ _ _ _
  | approve_resolution => exact committee.approve_resolution_frame _ _ _ _
  | disapprove_resolution => exact committee.disapprove_resolution_frame _ _ _ _
  | list_resolutions => exact ⟨st.resolution_store, committee.list_resolutions_frame _ _ _⟩
  | resolution_status => exact ⟨st.resolution_store, committee.resolution_status_frame _ _ _ _⟩
  | issue_resolution_credential =>
    exact ⟨st.resolution_store, committee.issue_resolution_credential_frame _ _ _ _ _ _⟩

theorem committee.commit_of_false (st : ContractState) (outcome : Response × ContractState)
    (h : outcome.1.status = false) : committee.commit st outcome = st := by
  unfold committee.commit
  rw [h]
  rfl

theorem committee.commit_of_true (st : ContractState) (outcome : Response × ContractState)
    (h : outcome.1.status = true) : committee.commit st outcome = outcome.2 := by
  unfold committee.commit
  rw [h]
  rfl

theorem committee.commit_invoke_cases (d : committee.Deployment) (call : committee.Invocation)
    (st : ContractState) :
    (∃ (key : String) (store : KeyValueStore),
      call.method = .initialize_committee ∧
      st.owner = some call.env.originator_id_ ∧
      committee.commit st (committee.invoke d call st) =
        { st with
          owner := some committee.unassigned_owner
          ledger_key := some key
          committee_store := store }) ∨
    (∃ store : KeyValueStore,
      committee.commit st (committee.invoke d call st) =
        { st with resolution_store := store }) := by
  cases hs : (committee.invoke d call st).1.status with
  | false =>
    right
    exact ⟨st.resolution_store, committee.commit_of_false st _ hs⟩
  | true =>
    rw [committee.commit_of_true st _ hs]
    by_cases hm : call.method = .initialize_committee
    · left
      have hinv : committee.invoke d call st =
          committee.initialize_committee call.msg call.env st := by
        unfold committee.invoke
        rw [hm]
      rw [hinv] at hs ⊢
      obtain ⟨items, committee1, hown, -, -, -, -, -, -, -, heq⟩ :=
        committee.initialize_committee_success call.msg call.env st hs
      exact ⟨_, _, hm, contract.base.owner_of_is_owner call.env st hown, by rw [heq]⟩
    · right
      exact committee.invoke_other d call st hm

theorem committee.invokeAll_cons (d : committee.Deployment) (call : committee.Invocation)
    (calls : List committee.Invocation) (st : ContractState) :
    committee.invokeAll d (call :: calls) st =
      committee.invokeAll d calls (committee.commit st (committee.invoke d call st)) :=
  rfl

theorem committee.invokeAll_append (d : committee.Deployment)
    (calls1 calls2 : List committee.Invocation) (st : ContractState) :
    committee.invokeAll d (calls1 ++ calls2) st =
      committee.invokeAll d calls2 (committee.invokeAll d calls1 st) := by
  unfold committee.invokeAll
  rw [List.foldl_append]

theorem committee.invokeAll_fields (d : committee.Deployment)
    (calls : List committee.Invocation) :
    ∀ st : ContractState,
      (committee.invokeAll d calls st).initialized = st.initialized ∧
      (committee.invokeAll d calls st).accepts_owner = st.accepts_owner ∧
      (committee.invokeAll d calls st).accepts_ledger_key = st.accepts_ledger_key := by
  induction calls with
  | nil => exact fun st => ⟨rfl, rfl, rfl⟩
  | cons call calls ih =>
    intro st
    rw [committee.invokeAll_cons]
    rcases committee.commit_invoke_cases d call st with ⟨key, store, -, -, h⟩ | ⟨store, h⟩
    · rw [h]
      exact ih _
    · rw [h]
      exact ih _

theorem committee.invokeAll_marker (d : committee.Deployment)
    (calls : List committee.Invocation) :
    ∀ st : ContractState, st.owner = some committee.unassigned_owner →
      (committee.invokeAll d calls st).owner = some committee.unassigned_owner := by
  induction calls with
  | nil => exact fun st h => h
  | cons call calls ih =>
    intro st howner
    rw [committee.invokeAll_cons]
    apply ih
    rcases committee.commit_invoke_cases d call st with ⟨key, store, -, -, h⟩ | ⟨store, h⟩
    · rw [h]
    · rw [h]
      exact howner

theorem committee.invokeAll_before (d : committee.Deployment)
    (calls : List committee.Invocation) :
    ∀ st : ContractState,
      (committee.invokeAll d calls st).owner = some committee.unassigned_owner ∨
      ((committee.invokeAll d calls st).owner = st.owner ∧
        (committee.invokeAll d calls st).ledger_key = st.ledger_key ∧
        (committee.invokeAll d calls st).committee_store = st.committee_store) := by
  induction calls with
  | nil => exact fun st => Or.inr ⟨rfl, rfl, rfl⟩
  | cons call calls ih =>
    intro st
    rw [committee.invokeAll_cons]
    rcases committee.commit_invoke_cases d call st with ⟨key, store, -, -, h⟩ | ⟨store, h⟩
    · left
      apply committee.invokeAll_marker
      rw [h]
    · rw [h]
      exact ih _

theorem committee.invokeAll_frame (d : committee.Deployment)
    (calls : List committee.Invocation) :
    ∀ st : ContractState, st.owner = some committee.unassigned_owner →
      (∀ call ∈ calls, call.method = .initialize_committee →
        call.env.originator_id_ ≠ committee.unassigned_owner) →
      (committee.invokeAll d calls st).owner = st.owner ∧
      (committee.invokeAll d calls st).ledger_key = st.ledger_key ∧
      (committee.invokeAll d calls st).committee_store = st.committee_store := by
  induction calls with
  | nil => exact fun st _ _ => ⟨rfl, rfl, rfl⟩
  | cons call calls ih =>
    intro st howner hcalls
    rw [committee.invokeAll_cons]
    rcases committee.commit_invoke_cases d call st with ⟨key, store, hm, hown, -⟩ | ⟨store, h⟩
    · rw [howner] at hown
      exact absurd (Option.some.inj hown).symm (hcalls call (List.mem_cons_self _ _) hm)
    · rw [h]
      exact ih _ howner (fun c hc => hcalls c (List.mem_cons_of_mem _ hc))

/-- C21, the code at the failing input. After the owner has initialized the
committee {A, B, C} with the ledger key "K", one `initialize_committee`
invocation by an originator whose identity is the marker "__UNASSIGNED__"
succeeds and changes the registered ledger key to "K2"; the same invocation
by the former owner is refused and the key stays "K". -/
theorem ledger_key_immutable :
    (committee.initialize_committee (Sample.initRequest "K" ["A", "B", "C"])
      (Sample.env "owner") Sample.ownerState).1.status = true ∧
    (committee.initialize_committee (Sample.initRequest "K" ["A", "B", "C"])
      (Sample.env "owner") Sample.ownerState).2.ledger_key = some "K" ∧
    (committee.invokeAll Sample.deployment
      [⟨.initialize_committee, Sample.initRequest "K2" ["D"], Sample.env "__UNASSIGNED__"⟩]
      (committee.initialize_committee (Sample.initRequest "K" ["A", "B", "C"])
        (Sample.env "owner") Sample.ownerState).2).ledger_key = some "K2" ∧
    (committee.invokeAll Sample.deployment
      [⟨.initialize_committee, Sample.initRequest "K2" ["D"], Sample.env "owner"⟩]
      (committee.initialize_committee (Sample.initRequest "K" ["A", "B", "C"])
        (Sample.env "owner") Sample.ownerState).2).ledger_key = some "K" := by
  decide

/-- Counterexample to C20 as stated, in two parts. The owner calls
`initialize_committee` with the single member "A", which is non-empty and
without repetition, on a contract whose committee has not been initialized
and which is not itself initialized: the call fails at `ASSERT_INITIALIZED`.
And on the initialized contract the owner calls it with the two members "A"
and the identity made of "A", a NUL and "B", which do not repeat: the method
reads both as the C string "A" and fails on the second. -/
theorem initialize_committee_counterexample :
    ({ Sample.ownerState with initialized := false } : ContractState).owner = some "owner" ∧
    (committee.initialize_committee (Sample.initRequest "K" ["A"]) (Sample.env "owner")
      { Sample.ownerState with initialized := false }).1 =
        Response.error "contract has not been initialized" ∧
    ["A", Sample.nulString].Nodup ∧
    (committee.initialize_committee (Sample.initRequest "K" ["A", Sample.nulString])
      (Sample.env "owner") Sample.ownerState).1.status = false :=
  ⟨rfl, rfl, by decide, by decide⟩

/-- C20, amended. The contract is followed from a state `st0` whose committee
store holds no member sequence, as at its creation, through any sequence of
invocations. If the contract is then initialized and its committee is not,
the owner on record not being the unassigned marker, `initialize_committee`
called by the owner with a schema-valid request that carries the key
`ledger_verifying_key` and the members `initial_members`, the writes being
carried out, succeeds if and only if `initial_members` is non-empty and
without repetition; on success the member sequence of the committee is
`initial_members` in the given order, the registered ledger key is
`ledger_verifying_key`, and the owner on record is the unassigned marker. -/
theorem initialize_committee_contract (d : committee.Deployment)
    (calls : List committee.Invocation) (st0 : ContractState) (msg : JValue)
    (env : Environment) (ledger_verifying_key : String) (items : List JValue)
    (initial_members : List String)
    (hnew : st0.committee_store.get Committee.members_key = none)
    (howner : (committee.invokeAll d calls st0).owner = some env.originator_id_)
    (hne : env.originator_id_ ≠ committee.unassigned_owner)
    (hinit : (committee.invokeAll d calls st0).initialized = true)
    (hschema : JValue.validate_schema
      committee.COMMITTEE_INITIALIZE_COMMITTEE_PARAM_SCHEMA msg = true)
    (hkey : msg.get_string "ledger_verifying_key" = some ledger_verifying_key)
    (hmembers : msg.get_value "initial_members" = some (.array items))
    (hitems : JValue.stringItems items = some initial_members)
    (hwrites : ∀ v, st0.committee_store.accepts Committee.members_key v = true)
    (hwkey : st0.accepts_ledger_key ledger_verifying_key = true)
    (hwowner : st0.accepts_owner committee.unassigned_owner = true) :
    ((committee.initialize_committee msg env (committee.invokeAll d calls st0)).1.status = true ↔
      (initial_members ≠ [] ∧ initial_members.Nodup)) ∧
    ((committee.initialize_committee msg env (committee.invokeAll d calls st0)).1.status = true →
      (Committee.fromStore
        (committee.initialize_committee msg env
          (committee.invokeAll d calls st0)).2.committee_store).members_ = initial_members ∧
      (committee.initialize_committee msg env (committee.invokeAll d calls st0)).2.ledger_key =
        some ledger_verifying_key ∧
      (committee.initialize_committee msg env (committee.invokeAll d calls st0)).2.owner =
        some committee.unassigned_owner) := by
  obtain ⟨-, hacc1, hacc2⟩ := committee.invokeAll_fields d calls st0
  have hstore : (committee.invokeAll d calls st0).committee_store = st0.committee_store := by
    rcases committee.invokeAll_before d calls st0 with h | ⟨-, -, h⟩
    · rw [howner] at h
      exact absurd (Option.some.inj h) hne
    · exact h
  exact committee.initialize_committee_iff msg env (committee.invokeAll d calls st0)
    ledger_verifying_key items initial_members howner hinit hschema hkey hmembers hitems
    (by rw [hstore]; exact Committee.fromStore_members_none _ hnew)
    (by rw [hstore]; exact hwrites)
    (by rw [hacc2]; exact hwkey)
    (by rw [hacc1]; exact hwowner)

/-- Witness of C20: on the contract without committee, after a proposal by "A"
that the committee gate turns away, the owner initializes the committee
{A, B, C} with the ledger key "K". -/
theorem initialize_committee_contract_witness :
    (committee.initialize_committee (Sample.initRequest "K" ["A", "B", "C"])
      (Sample.env "owner")
      (committee.invokeAll Sample.deployment
        [⟨.propose_resolution, Sample.proposal, Sample.env "A"⟩]
        Sample.ownerState)).1.status = true ∧
    (Committee.fromStore
      (committee.initialize_committee (Sample.initRequest "K" ["A", "B", "C"])
        (Sample.env "owner")
        (committee.invokeAll Sample.deployment
          [⟨.propose_resolution, Sample.proposal, Sample.env "A"⟩]
          Sample.ownerState)).2.committee_store).members_ = ["A", "B", "C"] ∧
    (committee.initialize_committee (Sample.initRequest "K" ["A", "B", "C"])
      (Sample.env "owner")
      (committee.invokeAll Sample.deployment
        [⟨.propose_resolution, Sample.proposal, Sample.env "A"⟩]
        Sample.ownerState)).2.ledger_key = some "K" ∧
    (committee.initialize_committee (Sample.initRequest "K" ["A", "B", "C"])
      (Sample.env "owner")
      (committee.invokeAll Sample.deployment
        [⟨.propose_resolution, Sample.proposal, Sample.env "A"⟩]
        Sample.ownerState)).2.owner = some "__UNASSIGNED__" :=
  have h := initialize_committee_contract Sample.deployment
    [⟨.propose_resolution, Sample.proposal, Sample.env "A"⟩] Sample.ownerState
    (Sample.initRequest "K" ["A", "B", "C"]) (Sample.env "owner") "K"
    [.string "A", .string "B", .string "C"] ["A", "B", "C"]
    rfl rfl (by decide) rfl (by decide) rfl rfl (by decide) (fun _ => rfl) rfl rfl
  have hok := h.1.mpr ⟨by decide, by decide⟩
  ⟨hok, h.2 hok⟩

theorem committee.assertCommitteeInitialized_owner (st : ContractState) (owner : String)
    (howner : st.owner = some owner) (hne : owner ≠ committee.unassigned_owner) :
    committee.assertCommitteeInitialized st =
      some (Response.error
        (if st.initialized then "committee has not been initialized"
          else "contract has not been initialized")) := by
  unfold committee.assertCommitteeInitialized
  cases hi : st.initialized with
  | false => simp
  | true => simp [howner, hne]

/-- C30. Member gate: `approve_resolution`, `disapprove_resolution` and
`issue_resolution_credential` fail whenever the originator is not in the
member sequence of the committee, for every request and every vote function,
and leave the whole state, the committee store and the resolution store
included, unchanged; when the checks before the gate pass, the failure
reported is "sender is not a member of the committee". -/
theorem member_gate (vote : committee.VoteFunction) (crypto : Crypto) (codec : CredentialCodec)
    (issuer : CredentialIssuer) (msg : JValue) (env : Environment) (st : ContractState)
    (h : (Committee.fromStore st.committee_store).is_member env.originator_id_ = false) :
    ((committee.approve_resolution vote msg env st).1.status = false ∧
      (committee.approve_resolution vote msg env st).2 = st) ∧
    ((committee.disapprove_resolution vote msg env st).1.status = false ∧
      (committee.disapprove_resolution vote msg env st).2 = st) ∧
    ((committee.issue_resolution_credential crypto codec issuer msg env st).1.status = false ∧
      (committee.issue_resolution_credential crypto codec issuer msg env st).2 = st) ∧
    (committee.assertCommitteeInitialized st = none →
      (committee.approve_resolution vote msg env st).1 =
          Response.error "sender is not a member of the committee" ∧
        (committee.disapprove_resolution vote msg env st).1 =
          Response.error "sender is not a member of the committee" ∧
        (committee.issue_resolution_credential crypto codec issuer msg env st).1 =
          Response.error "sender is not a member of the committee") := by
  cases hgate : committee.assertCommitteeInitialized st with
  | some rsp =>
    have hs := committee.assertCommitteeInitialized_status st rsp hgate
    refine ⟨?_, ?_, ?_, fun hc => Option.noConfusion hc⟩
    · unfold committee.approve_resolution
      rw [hgate]
      exact ⟨hs, rfl⟩
    · unfold committee.disapprove_resolution
      rw [hgate]
      exact ⟨hs, rfl⟩
    · unfold committee.issue_resolution_credential
      rw [hgate]
      exact ⟨hs, rfl⟩
  | none =>
    have ha : committee.approve_resolution vote msg env st =
        (Response.error "sender is not a member of the committee", st) := by
      unfold committee.approve_resolution
      simp [hgate, h]
    have hd : committee.disapprove_resolution vote msg env st =
        (Response.error "sender is not a member of the committee", st) := by
      unfold committee.disapprove_resolution
      simp [hgate, h]
    have hi : committee.issue_resolution_credential crypto codec issuer msg env st =
        (Response.error "sender is not a member of the committee", st) := by
      unfold committee.issue_resolution_credential
      simp [hgate, h]
    rw [ha, hd, hi]
    exact ⟨⟨rfl, rfl⟩, ⟨rfl, rfl⟩, ⟨rfl, rfl⟩, fun _ => ⟨rfl, rfl, rfl⟩⟩

/-- Witness of C30: "D" is not in the committee {A, B, C} and tries to approve
the approved resolution "H" and to obtain its credential. -/
theorem member_gate_witness :
    (Committee.fromStore Sample.decidedState.committee_store).is_member
      (Sample.env "D").originator_id_ = false ∧
    (committee.approve_resolution committee.committee_vote_function (Sample.request "H")
      (Sample.env "D") Sample.decidedState).1 =
        Response.error "sender is not a member of the committee" ∧
    (committee.issue_resolution_credential Sample.ledgerCrypto Sample.codec Sample.issuer
      (Sample.issueRequest "sig" "H") (Sample.env "D") Sample.decidedState).2 =
        Sample.decidedState :=
  have h := member_gate committee.committee_vote_function Sample.ledgerCrypto Sample.codec
    Sample.issuer (Sample.request "H") (Sample.env "D") Sample.decidedState (by decide)
  have h2 := member_gate committee.committee_vote_function Sample.ledgerCrypto Sample.codec
    Sample.issuer (Sample.issueRequest "sig" "H") (Sample.env "D") Sample.decidedState
    (by decide)
  ⟨by decide, (h.2.2.2 rfl).1, h2.2.2.1.2⟩

/-! ## Deserialization into a resolution that holds votes -/

theorem Resolution.pushVotes_true (votes votes2 : List String) (l : List JValue)
    (h : Resolution.pushVotes votes l = (true, votes2)) :
    ∃ decoded : List String,
      JValue.stringItems l = some decoded ∧ votes2 = votes ++ decoded := by
  induction l generalizing votes with
  | nil =>
    simp only [Resolution.pushVotes, Prod.mk.injEq, true_and] at h
    exact ⟨[], rfl, by simp [h]⟩
  | cons a l ih =>
    cases a with
    | string voter =>
      simp only [Resolution.pushVotes] at h
      obtain ⟨decoded, hl, hv⟩ := ih (votes ++ [c_str voter]) h
      exact ⟨c_str voter :: decoded, by simp [JValue.stringItems, hl], by simp [hv]⟩
    | null => simp [Resolution.pushVotes] at h
    | boolean b => simp [Resolution.pushVotes] at h
    | number n => simp [Resolution.pushVotes] at h
    | array items => simp [Resolution.pushVotes] at h
    | object fields => simp [Resolution.pushVotes] at h

theorem Resolution.deserialize_serialize_object (r target : Resolution) (v : JValue)
    (hv : r.serialize = some v) : target.deserialize v = target.deserialize_string v := by
  simp only [Resolution.serialize, Option.some.injEq] at hv
  subst hv
  rfl

theorem Resolution.deserialize_true (target : Resolution) (v : JValue)
    (h : (target.deserialize v).1 = true) :
    Resolution.verify_schema v = true ∧
    v.get_string "id" = some (target.deserialize v).2.id_ ∧
    v.get_string "serialized_credential" =
      some (target.deserialize v).2.serialized_credential_ ∧
    (0 ≤ v.get_number "status" ∧ v.get_number "status" ≤ 3) ∧
    (target.deserialize v).2.status_ =
      ResolutionStatus.ofInt (Rat.floor (v.get_number "status")) ∧
    ∃ positive negative : List String,
      JValue.stringItems (v.get_array "positive_votes") = some positive ∧
      JValue.stringItems (v.get_array "negative_votes") = some negative ∧
      (target.deserialize v).2.positive_votes_ = target.positive_votes_ ++ positive ∧
      (target.deserialize v).2.negative_votes_ = target.negative_votes_ ++ negative := by
  by_cases h1 : Resolution.verify_schema v = true
  swap
  · simp [Resolution.deserialize, h1] at h
  cases h2 : v.get_string "id" with
  | none => simp [Resolution.deserialize, h1, h2] at h
  | some id =>
    cases h3 : v.get_string "serialized_credential" with
    | none => simp [Resolution.deserialize, h1, h2, h3] at h
    | some cred =>
      by_cases h4 : v.get_number "status" < 0 ∨ v.get_number "status" > 3
      · simp [Resolution.deserialize, h1, h2, h3, h4] at h
      cases h5 : Resolution.pushVotes target.positive_votes_
          (v.get_array "positive_votes") with
      | mk ok5 votes5 =>
        cases ok5 with
        | false => simp [Resolution.deserialize, h1, h2, h3, h4, h5] at h
        | true =>
          cases h6 : Resolution.pushVotes target.negative_votes_
              (v.get_array "negative_votes") with
          | mk ok6 votes6 =>
            cases ok6 with
            | false => simp [Resolution.deserialize, h1, h2, h3, h4, h5, h6] at h
            | true =>
              have heq : target.deserialize v =
                  (true, { id_ := id
                           serialized_credential_ := cred
                           status_ := ResolutionStatus.ofInt (Rat.floor (v.get_number "status"))
                           positive_votes_ := votes5
                           negative_votes_ := votes6 }) := by
                unfold Resolution.deserialize
                simp only [h1, h2, h3, h5, h6, not_true_eq_false, if_false, if_neg h4]
              obtain ⟨positive, hp1, hp2⟩ := Resolution.pushVotes_true _ _ _ h5
              obtain ⟨negative, hn1, hn2⟩ := Resolution.pushVotes_true _ _ _ h6
              rw [heq]
              push_neg at h4
              exact ⟨h1, rfl, rfl, h4, rfl, positive, negative, hp1, hn1, hp2, hn2⟩

theorem ResolutionManager.get_resolution_true (store : KeyValueStore) (k : String)
    (target r : Resolution)
    (h : ResolutionManager.get_resolution store k target = (true, r)) :
    ∃ v : JValue, store.get k = some v ∧ target.deserialize v = (true, r) := by
  unfold ResolutionManager.get_resolution at h
  cases hget : store.get k with
  | none =>
    rw [hget] at h
    simp at h
  | some v =>
    rw [hget] at h
    cases v with
    | object fields => exact ⟨_, rfl, h⟩
    | null => simp [Resolution.deserialize_string] at h
    | boolean b => simp [Resolution.deserialize_string] at h
    | number q => simp [Resolution.deserialize_string] at h
    | string t => simp [Resolution.deserialize_string] at h
    | array l => simp [Resolution.deserialize_string] at h

theorem ResolutionManager.get_resolution_nulFree (store : KeyValueStore) (k : String)
    (r : Resolution)
    (h : ResolutionManager.get_resolution store k Resolution.default = (true, r)) :
    r.NulFree := by
  obtain ⟨v, -, hdes⟩ := ResolutionManager.get_resolution_true store k _ r h
  obtain ⟨-, h2, h3, -, -, positive, negative, hp, hn, hp2, hn2⟩ :=
    Resolution.deserialize_true Resolution.default v (by rw [hdes])
  rw [hdes] at h2 h3 hp2 hn2
  simp only [Resolution.default, List.nil_append] at hp2 hn2
  refine ⟨JValue.get_string_nulFree v "id" _ h2,
    JValue.get_string_nulFree v "serialized_credential" _ h3, ?_, ?_⟩
  · rw [hp2]
    exact JValue.stringItems_nulFree _ _ hp
  · rw [hn2]
    exact JValue.stringItems_nulFree _ _ hn

/-- C39. `Resolution::deserialize` overwrites id, credential and status but
does not clear the vote sequences. Deserializing the serialization of a
resolution `r` into a target succeeds and yields the id, the credential and the
status that the serialization holds, which are those of `r` with every string
as a C string, and as vote sequences those of the target followed by those of
the serialization. The result is `r` only when the target holds no votes, and
it is `r` when the target holds no votes and no string of `r` holds a NUL.
Whenever `deserialize` of any object succeeds, the votes it decoded are
appended to the votes of the target and the status number of the object lies
in 0..3; an object whose status number lies outside 0..3 is rejected. -/
theorem deserialize_keeps_votes (target : Resolution) :
    (∀ (r : Resolution) (v : JValue), r.serialize = some v →
      target.deserialize v =
        (true, { id_ := c_str r.id_
                 serialized_credential_ := c_str r.serialized_credential_
                 status_ := r.status_
                 positive_votes_ := target.positive_votes_ ++ r.positive_votes_.map c_str
                 negative_votes_ := target.negative_votes_ ++ r.negative_votes_.map c_str }) ∧
      ((target.deserialize v).2 = r →
        target.positive_votes_ = [] ∧ target.negative_votes_ = []) ∧
      (r.NulFree → target.positive_votes_ = [] → target.negative_votes_ = [] →
        (target.deserialize v).2 = r)) ∧
    (∀ v : JValue, (target.deserialize v).1 = true →
      v.get_string "id" = some (target.deserialize v).2.id_ ∧
      v.get_string "serialized_credential" =
        some (target.deserialize v).2.serialized_credential_ ∧
      (target.deserialize v).2.status_ =
        ResolutionStatus.ofInt (Rat.floor (v.get_number "status")) ∧
      ∃ positive negative : List String,
        JValue.stringItems (v.get_array "positive_votes") = some positive ∧
        JValue.stringItems (v.get_array "negative_votes") = some negative ∧
        (target.deserialize v).2.positive_votes_ = target.positive_votes_ ++ positive ∧
        (target.deserialize v).2.negative_votes_ = target.negative_votes_ ++ negative) ∧
    (∀ v : JValue, v.get_number "status" < 0 ∨ v.get_number "status" > 3 →
      (target.deserialize v).1 = false) := by
  refine ⟨?_, ?_, ?_⟩
  · intro r v hv
    have h : target.deserialize v =
        (true, { id_ := c_str r.id_
                 serialized_credential_ := c_str r.serialized_credential_
                 status_ := r.status_
                 positive_votes_ := target.positive_votes_ ++ r.positive_votes_.map c_str
                 negative_votes_ := target.negative_votes_ ++ r.negative_votes_.map c_str }) := by
      rw [Resolution.deserialize_serialize_object r target v hv]
      exact Resolution.deserialize_serialize_into r target v hv
    refine ⟨h, ?_, ?_⟩
    · rw [h]
      intro heq
      have hp := congrArg (fun x => x.positive_votes_.length) heq
      have hn := congrArg (fun x => x.negative_votes_.length) heq
      simp only [List.length_append, List.length_map] at hp hn
      exact ⟨List.length_eq_zero.mp (by omega), List.length_eq_zero.mp (by omega)⟩
    · intro hnul hp hn
      rw [h, hp, hn]
      exact Resolution.c_strings_of_nulFree r hnul
  · intro v h
    obtain ⟨-, h2, h3, -, h5, h6⟩ := Resolution.deserialize_true target v h
    exact ⟨h2, h3, h5, h6⟩
  · intro v hv
    cases hb : (target.deserialize v).1 with
    | false => rfl
    | true =>
      obtain ⟨-, -, -, ⟨hlo, hhi⟩, -⟩ := Resolution.deserialize_true target v hb
      rcases hv with hv | hv
      · exact absurd hlo (not_le.mpr hv)
      · exact absurd hhi (not_le.mpr hv)

/-- Witness of C39: the serialization of the approved resolution "H", votes
[A, B], is deserialized into the target "H2", which holds the negative votes
[A, B]; and an object with the status number 4 is rejected. -/
theorem deserialize_keeps_votes_witness :
    ((Sample.rejected.deserialize
        (.object
          [ ("id", .string "H"),
            ("status", .number 1),
            ("positive_votes", .array [.string "A", .string "B"]),
            ("negative_votes", .array []),
            ("serialized_credential", .string "X") ])).2 =
      { id_ := "H"
        serialized_credential_ := "X"
        status_ := .APPROVED
        positive_votes_ := ["A", "B"]
        negative_votes_ := ["A", "B"] }) ∧
    (Sample.rejected.deserialize
        (.object
          [ ("id", .string "H"),
            ("status", .number 4),
            ("positive_votes", .array []),
            ("negative_votes", .array []),
            ("serialized_credential", .string "X") ])).1 = false :=
  ⟨(congrArg Prod.snd
      ((deserialize_keeps_votes Sample.rejected).1 Sample.approved _ rfl).1).trans
      (by decide),
    (deserialize_keeps_votes Sample.rejected).2.2 _ (Or.inr (by decide))⟩

/-! ## A recorded vote -/

theorem ResolutionManager.get_resolution_congr (store1 store2 : KeyValueStore) (k : String)
    (target : Resolution) (h : store1.get k = store2.get k) :
    ResolutionManager.get_resolution store1 k target =
      ResolutionManager.get_resolution store2 k target := by
  unfold ResolutionManager.get_resolution
  rw [h]

theorem ResolutionManager.get_resolution_of_get (store : KeyValueStore) (k : String)
    (r target : Resolution) (hp : target.positive_votes_ = [])
    (hn : target.negative_votes_ = []) (h : store.get k = r.serialize_string) :
    ResolutionManager.get_resolution store k target = (true, r.c_strings) := by
  obtain ⟨v, hv⟩ := Resolution.serialize_string_isSome r
  unfold ResolutionManager.get_resolution
  rw [h, hv]
  exact Resolution.deserialize_serialize r target v hv hp hn

theorem ResolutionManager.update_resolution_false (store : KeyValueStore) (r : Resolution)
    (h : (ResolutionManager.update_resolution store r).1 = false) :
    (ResolutionManager.update_resolution store r).2 = store := by
  obtain ⟨v, hv⟩ := Resolution.serialize_string_isSome r
  unfold ResolutionManager.update_resolution at h ⊢
  rw [hv] at h ⊢
  exact KeyValueStore.set_false store r.id_ v h

theorem ResolutionManager.get_object_of_readable (store : KeyValueStore) (k : String)
    (target r : Resolution)
    (h : ResolutionManager.get_resolution store k target = (true, r)) :
    ∃ fields, store.get k = some (.object fields) := by
  unfold ResolutionManager.get_resolution at h
  cases hget : store.get k with
  | none =>
    rw [hget] at h
    simp at h
  | some v =>
    rw [hget] at h
    cases v with
    | object fields => exact ⟨fields, rfl⟩
    | null => simp [Resolution.deserialize_string] at h
    | boolean b => simp [Resolution.deserialize_string] at h
    | number q => simp [Resolution.deserialize_string] at h
    | string t => simp [Resolution.deserialize_string] at h
    | array l => simp [Resolution.deserialize_string] at h

theorem ResolutionManager.not_readable_of_array (store : KeyValueStore) (k : String)
    (items : List JValue) (target r : Resolution) (h : store.get k = some (.array items)) :
    ResolutionManager.get_resolution store k target ≠ (true, r) := by
  intro hc
  obtain ⟨fields, hf⟩ := ResolutionManager.get_object_of_readable store k target r hc
  rw [h] at hf
  injection hf with hf
  cases hf

theorem ResolutionManager.keyIdAgreement_update (store : KeyValueStore) (r : Resolution)
    (h : ResolutionManager.KeyIdAgreement store) :
    ResolutionManager.KeyIdAgreement (ResolutionManager.update_resolution store r).2 := by
  intro k res hget
  cases hupd : (ResolutionManager.update_resolution store r).1 with
  | false =>
    rw [ResolutionManager.update_resolution_false store r hupd] at hget
    exact h k res hget
  | true =>
    by_cases hk : k = r.id_
    · subst hk
      rw [ResolutionManager.get_resolution_after_update store r Resolution.default rfl rfl
        hupd] at hget
      injection hget with _ h2
      rw [← h2]
      rfl
    · rw [ResolutionManager.get_resolution_congr _ store k _
        (ResolutionManager.update_resolution_get_other store r k hk)] at hget
      exact h k res hget

theorem ResolutionManager.keyIdAgreement_add (store : KeyValueStore) (r : Resolution)
    (h : ResolutionManager.KeyIdAgreement store) :
    ResolutionManager.KeyIdAgreement (ResolutionManager.add_resolution store r).2 := by
  rcases ResolutionManager.add_resolution_cases store r with hA | ⟨v, items, hv, hlist, -, hset, hB⟩
  · rw [hA]
    exact h
  · intro k res hget
    rw [hB] at hget
    have hpayload : (store.set r.id_ v).2.get r.id_ = r.serialize_string := by
      rw [hv]
      exact KeyValueStore.get_set_same store r.id_ v hset
    cases hset2 : ((store.set r.id_ v).2.set ResolutionManager.resolution_list_key_
        (.array (items ++ [JValue.c_string r.id_]))).1 with
    | false =>
      rw [KeyValueStore.set_false _ _ _ hset2] at hget
      by_cases hk : k = r.id_
      · subst hk
        rw [ResolutionManager.get_resolution_of_get _ _ r _ rfl rfl hpayload] at hget
        injection hget with _ h2
        rw [← h2]
        rfl
      · rw [ResolutionManager.get_resolution_congr _ store k _
          (KeyValueStore.get_set_other store r.id_ k v hk)] at hget
        exact h k res hget
    | true =>
      by_cases hkey : k = ResolutionManager.resolution_list_key_
      · subst hkey
        exact absurd hget (ResolutionManager.not_readable_of_array _ _ _ _ _
          (KeyValueStore.get_set_same _ _ _ hset2))
      · have h1 := KeyValueStore.get_set_other (store.set r.id_ v).2
          ResolutionManager.resolution_list_key_ k
          (.array (items ++ [JValue.c_string r.id_])) hkey
        by_cases hk : k = r.id_
        · subst hk
          rw [ResolutionManager.get_resolution_of_get _ _ r _ rfl rfl
            (h1.trans hpayload)] at hget
          injection hget with _ h2
          rw [← h2]
          rfl
        · rw [ResolutionManager.get_resolution_congr _ store k _
            (h1.trans (KeyValueStore.get_set_other store r.id_ k v hk))] at hget
          exact h k res hget

theorem committee.approve_resolution_cases (vote : committee.VoteFunction) (msg : JValue)
    (env : Environment) (st : ContractState) :
    ((committee.approve_resolution vote msg env st).1.status = false ∧
      (committee.approve_resolution vote msg env st).2 = st) ∨
    ∃ (resolution_id : String) (r r2 : Resolution),
      msg.get_string "resolution_identifier" = some resolution_id ∧
      ResolutionManager.get_resolution st.resolution_store resolution_id Resolution.default =
        (true, r) ∧
      (r.approve env.originator_id_).1 = true ∧
      vote (Committee.fromStore st.committee_store) (r.approve env.originator_id_).2 =
        (true, r2) ∧
      (ResolutionManager.update_resolution st.resolution_store r2).1 = true ∧
      (committee.approve_resolution vote msg env st).1.status = true ∧
      (committee.approve_resolution vote msg env st).2 =
        { st with resolution_store :=
            (ResolutionManager.update_resolution st.resolution_store r2).2 } := by
  cases hgate : committee.assertCommitteeInitialized st with
  | some rsp =>
    left
    unfold committee.approve_resolution
    rw [hgate]
    exact ⟨committee.assertCommitteeInitialized_status st rsp hgate, rfl⟩
  | none =>
    by_cases h1 : (Committee.fromStore st.committee_store).is_member env.originator_id_ = true
    swap
    · left
      simp [committee.approve_resolution, hgate, h1, Response.error]
    by_cases h2 : JValue.validate_schema
        committee.COMMITTEE_APPROVE_RESOLUTION_PARAM_SCHEMA msg = true
    swap
    · left
      simp [committee.approve_resolution, hgate, h1, h2, Response.error]
    cases hid : msg.get_string "resolution_identifier" with
    | none =>
      left
      simp [committee.approve_resolution, hgate, h1, h2, hid, Response.error]
    | some resolution_id =>
      cases hget : ResolutionManager.get_resolution st.resolution_store resolution_id
          Resolution.default with
      | mk ok r =>
        cases ok with
        | false =>
          left
          simp [committee.approve_resolution, hgate, h1, h2, hid, hget, Response.error]
        | true =>
          cases hvote1 : r.approve env.originator_id_ with
          | mk ok1 r1 =>
            cases ok1 with
            | false =>
              left
              simp [committee.approve_resolution, hgate, h1, h2, hid, hget, hvote1,
                Response.error]
            | true =>
              cases hvote2 : vote (Committee.fromStore st.committee_store) r1 with
              | mk ok2 r2 =>
                cases ok2 with
                | false =>
                  left
                  simp [committee.approve_resolution, hgate, h1, h2, hid, hget, hvote1, hvote2,
                    Response.error]
                | true =>
                  cases hupd : ResolutionManager.update_resolution st.resolution_store r2 with
                  | mk ok3 store1 =>
                    cases ok3 with
                    | false =>
                      left
                      have hsame := ResolutionManager.update_resolution_false
                        st.resolution_store r2 (by rw [hupd])
                      rw [hupd] at hsame
                      simp only at hsame
                      subst hsame
                      simp [committee.approve_resolution, hgate, h1, h2, hid, hget, hvote1,
                        hvote2, hupd, Response.error]
                    | true =>
                      right
                      refine ⟨resolution_id, r, r2, rfl, hget, by rw [hvote1],
                        by rw [hvote1]; exact hvote2, by rw [hupd], ?_, ?_⟩
                      · simp [committee.approve_resolution, hgate, h1, h2, hid, hget, hvote1,
                          hvote2, hupd, Response.success]
                      · unfold committee.approve_resolution
                        simp only [hgate, h1, h2, hid, hget, hvote1, hvote2, hupd,
                          not_true_eq_false, if_false]

theorem committee.disapprove_resolution_cases (vote : committee.VoteFunction) (msg : JValue)
    (env : Environment) (st : ContractState) :
    ((committee.disapprove_resolution vote msg env st).1.status = false ∧
      (committee.disapprove_resolution vote msg env st).2 = st) ∨
    ∃ (resolution_id : String) (r r2 : Resolution),
      msg.get_string "resolution_identifier" = some resolution_id ∧
      ResolutionManager.get_resolution st.resolution_store resolution_id Resolution.default =
        (true, r) ∧
      (r.disapprove env.originator_id_).1 = true ∧
      vote (Committee.fromStore st.committee_store) (r.disapprove env.originator_id_).2 =
        (true, r2) ∧
      (ResolutionManager.update_resolution st.resolution_store r2).1 = true ∧
      (committee.disapprove_resolution vote msg env st).1.status = true ∧
      (committee.disapprove_resolution vote msg env st).2 =
        { st with resolution_store :=
            (ResolutionManager.update_resolution st.resolution_store r2).2 } := by
  cases hgate : committee.assertCommitteeInitialized st with
  | some rsp =>
    left
    unfold committee.disapprove_resolution
    rw [hgate]
    exact ⟨committee.assertCommitteeInitialized_status st rsp hgate, rfl⟩
  | none =>
    by_cases h1 : (Committee.fromStore st.committee_store).is_member env.originator_id_ = true
    swap
    · left
      simp [committee.disapprove_resolution, hgate, h1, Response.error]
    by_cases h2 : JValue.validate_schema
        committee.COMMITTEE_DISAPPROVE_RESOLUTION_PARAM_SCHEMA msg = true
    swap
    · left
      simp [committee.disapprove_resolution, hgate, h1, h2, Response.error]
    cases hid : msg.get_string "resolution_identifier" with
    | none =>
      left
      simp [committee.disapprove_resolution, hgate, h1, h2, hid, Response.error]
    | some resolution_id =>
      cases hget : ResolutionManager.get_resolution st.resolution_store resolution_id
          Resolution.default with
      | mk ok r =>
        cases ok with
        | false =>
          left
          simp [committee.disapprove_resolution, hgate, h1, h2, hid, hget, Response.error]
        | true =>
          cases hvote1 : r.disapprove env.originator_id_ with
          | mk ok1 r1 =>
            cases ok1 with
            | false =>
              left
              simp [committee.disapprove_resolution, hgate, h1, h2, hid, hget, hvote1,
                Response.error]
            | true =>
              cases hvote2 : vote (Committee.fromStore st.committee_store) r1 with
              | mk ok2 r2 =>
                cases ok2 with
                | false =>
                  left
                  simp [committee.disapprove_resolution, hgate, h1, h2, hid, hget, hvote1, hvote2,
                    Response.error]
                | true =>
                  cases hupd : ResolutionManager.update_resolution st.resolution_store r2 with
                  | mk ok3 store1 =>
                    cases ok3 with
                    | false =>
                      left
                      have hsame := ResolutionManager.update_resolution_false
                        st.resolution_store r2 (by rw [hupd])
                      rw [hupd] at hsame
                      simp only at hsame
                      subst hsame
                      simp [committee.disapprove_resolution, hgate, h1, h2, hid, hget, hvote1,
                        hvote2, hupd, Response.error]
                    | true =>
                      right
                      refine ⟨resolution_id, r, r2, rfl, hget, by rw [hvote1],
                        by rw [hvote1]; exact hvote2, by rw [hupd], ?_, ?_⟩
                      · simp [committee.disapprove_resolution, hgate, h1, h2, hid, hget, hvote1,
                          hvote2, hupd, Response.success]
                      · unfold committee.disapprove_resolution
                        simp only [hgate, h1, h2, hid, hget, hvote1, hvote2, hupd,
                          not_true_eq_false, if_false]

theorem committee.approve_resolution_not_member (vote : committee.VoteFunction)
    (msg : JValue) (env : Environment) (st : ContractState)
    (h : (Committee.fromStore st.committee_store).is_member env.originator_id_ = false) :
    (committee.approve_resolution vote msg env st).1.status = false ∧
    (committee.disapprove_resolution vote msg env st).1.status = false := by
  cases hgate : committee.assertCommitteeInitialized st with
  | some rsp =>
    have hs := committee.assertCommitteeInitialized_status st rsp hgate
    constructor
    · unfold committee.approve_resolution
      rw [hgate]
      exact hs
    · unfold committee.disapprove_resolution
      rw [hgate]
      exact hs
  | none =>
    constructor
    · unfold committee.approve_resolution
      simp [hgate, h, Response.error]
    · unfold committee.disapprove_resolution
      simp [hgate, h, Response.error]

theorem Resolution.hasVoted_approve (r : Resolution) (m voter : String) (h : r.hasVoted m) :
    (r.approve voter).2.hasVoted m := by
  rw [Resolution.approve_snd]
  unfold Resolution.hasVoted at h ⊢
  split_ifs
  · rcases h with h | h
    · exact Or.inl (List.mem_append_left _ h)
    · exact Or.inr h
  · exact h

theorem Resolution.hasVoted_disapprove (r : Resolution) (m voter : String)
    (h : r.hasVoted m) : (r.disapprove voter).2.hasVoted m := by
  rw [Resolution.disapprove_snd]
  unfold Resolution.hasVoted at h ⊢
  split_ifs
  · rcases h with h | h
    · exact Or.inl h
    · exact Or.inr (List.mem_append_left _ h)
  · exact h

theorem Resolution.approve_id (r : Resolution) (voter : String) :
    (r.approve voter).2.id_ = r.id_ := by
  rw [Resolution.approve_snd]
  split_ifs <;> rfl

theorem Resolution.disapprove_id (r : Resolution) (voter : String) :
    (r.disapprove voter).2.id_ = r.id_ := by
  rw [Resolution.disapprove_snd]
  split_ifs <;> rfl

theorem committee.hasVoted_vote (vote : committee.VoteFunction)
    (hvote : committee.DecidesStatusOnly vote) (c : Committee) (r : Resolution) (m : String)
    (h : r.hasVoted m) : (vote c r).2.hasVoted m := by
  obtain ⟨-, -, hp, hn⟩ := hvote c r
  unfold Resolution.hasVoted at h ⊢
  rw [hp, hn]
  exact h

theorem committee.voteRefused_of_voted (vote : committee.VoteFunction) (st : ContractState)
    (R M : String) (h : ResolutionManager.Voted st.resolution_store R M) :
    committee.VoteRefused vote st R M := by
  obtain ⟨r0, hr0, hv0⟩ := h
  intro msg env hmsg henv
  constructor
  · rcases committee.approve_resolution_cases vote msg env st with hA | ⟨R2, r, r2, hid, hget, hok, -⟩
    · exact hA
    · rw [hmsg] at hid
      injection hid with hid
      subst hid
      rw [hr0] at hget
      injection hget with _ hget
      subst hget
      rw [henv, (Resolution.refused_of_hasVoted r0 M hv0).1] at hok
      exact absurd hok (by decide)
  · rcases committee.disapprove_resolution_cases vote msg env st with
      hA | ⟨R2, r, r2, hid, hget, hok, -⟩
    · exact hA
    · rw [hmsg] at hid
      injection hid with hid
      subst hid
      rw [hr0] at hget
      injection hget with _ hget
      subst hget
      rw [henv, (Resolution.refused_of_hasVoted r0 M hv0).2] at hok
      exact absurd hok (by decide)

theorem committee.committee_vote_function_decidesStatusOnly :
    committee.DecidesStatusOnly committee.committee_vote_function := by
  intro c r
  unfold committee.committee_vote_function
  dsimp only
  repeat' split
  all_goals exact ⟨rfl, rfl, rfl, rfl⟩

theorem ResolutionManager.keyIdAgreement_of_empty (store : KeyValueStore)
    (h : store.entries = []) : ResolutionManager.KeyIdAgreement store := by
  intro k r hget
  obtain ⟨fields, hf⟩ := ResolutionManager.get_object_of_readable store k _ r hget
  unfold KeyValueStore.get at hf
  rw [h] at hf
  simp at hf

theorem ResolutionManager.keyIdAgreement_initialize (store : KeyValueStore)
    (h : ResolutionManager.KeyIdAgreement store) :
    ResolutionManager.KeyIdAgreement ( ResolutionManager.initialize store).2 := by
  intro k r hget
  unfold ResolutionManager.initialize at hget
  cases hset : (store.set ResolutionManager.resolution_list_key_ (.array [])).1 with
  | false =>
    rw [KeyValueStore.set_false _ _ _ hset] at hget
    exact h k r hget
  | true =>
    by_cases hk : k = ResolutionManager.resolution_list_key_
    · subst hk
      exact absurd hget (ResolutionManager.not_readable_of_array _ _ [] _ _
        (KeyValueStore.get_set_same _ _ _ hset))
    · rw [ResolutionManager.get_resolution_congr _ store k _
        (KeyValueStore.get_set_other store _ k _ hk)] at hget
      exact h k r hget

theorem ResolutionManager.storedAll_set_payload (P : Resolution → Prop)
    (store : KeyValueStore) (k : String) (r : Resolution) (v : JValue)
    (hv : r.serialize_string = some v) (hr : P r.c_strings)
    (h : ResolutionManager.StoredAll P store) :
    ResolutionManager.StoredAll P (store.set k v).2 := by
  cases hset : (store.set k v).1 with
  | false =>
    rw [KeyValueStore.set_false store k v hset]
    exact h
  | true =>
    intro key res hget
    by_cases hk : key = k
    · subst hk
      rw [ResolutionManager.get_resolution_of_get _ key r Resolution.default rfl rfl
        ((KeyValueStore.get_set_same store key v hset).trans hv.symm)] at hget
      injection hget with _ hres
      rw [← hres]
      exact hr
    · rw [ResolutionManager.get_resolution_congr _ store key _
        (KeyValueStore.get_set_other store k key v hk)] at hget
      exact h key res hget

theorem ResolutionManager.storedAll_set_array (P : Resolution → Prop)
    (store : KeyValueStore) (k : String) (items : List JValue)
    (h : ResolutionManager.StoredAll P store) :
    ResolutionManager.StoredAll P (store.set k (.array items)).2 := by
  cases hset : (store.set k (.array items)).1 with
  | false =>
    rw [KeyValueStore.set_false store k _ hset]
    exact h
  | true =>
    intro key res hget
    by_cases hk : key = k
    · subst hk
      exact absurd hget (ResolutionManager.not_readable_of_array _ _ items _ _
        (KeyValueStore.get_set_same store key _ hset))
    · rw [ResolutionManager.get_resolution_congr _ store key _
        (KeyValueStore.get_set_other store k key _ hk)] at hget
      exact h key res hget

theorem ResolutionManager.storedAll_update (P : Resolution → Prop) (store : KeyValueStore)
    (r : Resolution) (hr : P r.c_strings) (h : ResolutionManager.StoredAll P store) :
    ResolutionManager.StoredAll P (ResolutionManager.update_resolution store r).2 := by
  obtain ⟨v, hv⟩ := Resolution.serialize_string_isSome r
  have heq : ResolutionManager.update_resolution store r = store.set r.id_ v := by
    unfold ResolutionManager.update_resolution
    rw [hv]
  rw [heq]
  exact ResolutionManager.storedAll_set_payload P store r.id_ r v hv hr h

theorem ResolutionManager.storedAll_add (P : Resolution → Prop) (store : KeyValueStore)
    (r : Resolution) (hr : P r.c_strings) (h : ResolutionManager.StoredAll P store) :
    ResolutionManager.StoredAll P (ResolutionManager.add_resolution store r).2 := by
  rcases ResolutionManager.add_resolution_cases store r with
    hA | ⟨v, items, hv, -, -, -, hB⟩
  · rw [hA]
    exact h
  · rw [hB]
    exact ResolutionManager.storedAll_set_array P _ _ _
      (ResolutionManager.storedAll_set_payload P store r.id_ r v hv hr h)

theorem ResolutionManager.storedAll_of_empty (P : Resolution → Prop) (store : KeyValueStore)
    (h : store.entries = []) : ResolutionManager.StoredAll P store := by
  intro k r hget
  obtain ⟨fields, hf⟩ := ResolutionManager.get_object_of_readable store k _ r hget
  unfold KeyValueStore.get at hf
  rw [h] at hf
  simp at hf

theorem ResolutionManager.storedAll_initialize (P : Resolution → Prop)
    (store : KeyValueStore) (h : ResolutionManager.StoredAll P store) :
    ResolutionManager.StoredAll P ( ResolutionManager.initialize store).2 :=
  ResolutionManager.storedAll_set_array P store _ [] h

theorem ResolutionManager.keyIdAgreement_of_none (store : KeyValueStore)
    (h : ResolutionManager.StoredAll (fun _ => False) store) :
    ResolutionManager.KeyIdAgreement store :=
  fun k r hget => (h k r hget).elim

theorem ResolutionManager.listed_of_none (store : KeyValueStore)
    (h : ResolutionManager.StoredAll (fun _ => False) store) :
    ResolutionManager.Listed store :=
  fun k r _ hget => (h k r hget).elim

theorem ResolutionManager.readable_ne_key (store : KeyValueStore) (R : String)
    (r : Resolution) (ids : List String)
    (hread : ResolutionManager.get_resolution store R Resolution.default = (true, r))
    (hlist : ResolutionManager.list_resolutions store = some ids) :
    R ≠ ResolutionManager.resolution_list_key_ := by
  obtain ⟨items, hget, -⟩ := ResolutionManager.list_resolutions_some store ids hlist
  intro hc
  rw [hc] at hread
  exact ResolutionManager.not_readable_of_array _ _ _ _ _ hget hread

theorem ResolutionManager.listed_add (store : KeyValueStore) (r : Resolution)
    (hl : ResolutionManager.Listed store)
    (hok : (ResolutionManager.add_resolution store r).1 = true) :
    ResolutionManager.Listed (ResolutionManager.add_resolution store r).2 := by
  obtain ⟨items, hget, hscan, hafter⟩ := ResolutionManager.add_resolution_true store r hok
  obtain ⟨ids, hids⟩ := ResolutionManager.scan_true_stringItems items r.id_ hscan
  have hlist : ResolutionManager.list_resolutions store = some ids := by
    rw [ResolutionManager.list_resolutions_of_get store items hget]
    exact hids
  have hlist2 := (ResolutionManager.list_resolutions_add_true store r ids hlist hok).2
  intro k res hk hread
  refine ⟨_, hlist2, ?_⟩
  by_cases hkid : k = r.id_
  · rw [← hkid, c_str_of_nulFree k hk]
    exact List.mem_append_right _ (List.mem_singleton.mpr rfl)
  · have hkey : k ≠ ResolutionManager.resolution_list_key_ := by
      intro hc
      rw [hc] at hread
      exact ResolutionManager.not_readable_of_array _ _ _ _ _ hafter hread
    rw [ResolutionManager.get_resolution_congr _ store k _
      (ResolutionManager.add_resolution_get_other store r k hkid hkey)] at hread
    obtain ⟨ids2, h2, hmem⟩ := hl k res hk hread
    rw [hlist] at h2
    injection h2 with h2
    subst h2
    exact List.mem_append_left _ hmem

theorem ResolutionManager.voted_add (store : KeyValueStore) (R M : String) (r : Resolution)
    (hl : ResolutionManager.Listed store) (hR : NulFree R)
    (h : ResolutionManager.Voted store R M)
    (hok : (ResolutionManager.add_resolution store r).1 = true) :
    ResolutionManager.Voted (ResolutionManager.add_resolution store r).2 R M := by
  obtain ⟨r0, hr0, hv0⟩ := h
  obtain ⟨ids, hlist, hmem⟩ := hl R r0 hR hr0
  have hnew := (ResolutionManager.list_resolutions_add_true store r ids hlist hok).1
  have hRid : R ≠ r.id_ := fun hc => hnew (hc ▸ hmem)
  have hRkey := ResolutionManager.readable_ne_key store R r0 ids hr0 hlist
  refine ⟨r0, ?_, hv0⟩
  rw [ResolutionManager.get_resolution_congr _ store R _
    (ResolutionManager.add_resolution_get_other store r R hRid hRkey)]
  exact hr0

theorem ResolutionManager.listed_update (store : KeyValueStore) (r2 : Resolution)
    (R2 : String) (r : Resolution)
    (hread : ResolutionManager.get_resolution store R2 Resolution.default = (true, r))
    (hnul : NulFree R2) (hid : r2.id_ = R2) (hl : ResolutionManager.Listed store) :
    ResolutionManager.Listed (ResolutionManager.update_resolution store r2).2 ∧
    ResolutionManager.list_resolutions (ResolutionManager.update_resolution store r2).2 =
      ResolutionManager.list_resolutions store := by
  obtain ⟨ids, hlist, hmem⟩ := hl R2 r hnul hread
  have hkey := ResolutionManager.readable_ne_key store R2 r ids hread hlist
  have hlist2 : ResolutionManager.list_resolutions
      (ResolutionManager.update_resolution store r2).2 =
      ResolutionManager.list_resolutions store :=
    ResolutionManager.list_resolutions_congr _ _
      (ResolutionManager.update_resolution_get_other store r2 _
        (by rw [hid]; exact Ne.symm hkey))
  refine ⟨?_, hlist2⟩
  intro k res hk hread2
  by_cases hkR : k = R2
  · rw [hkR]
    exact ⟨ids, by rw [hlist2]; exact hlist, hmem⟩
  · rw [ResolutionManager.get_resolution_congr _ store k _
      (ResolutionManager.update_resolution_get_other store r2 k
        (by rw [hid]; exact hkR))] at hread2
    obtain ⟨ids2, h2, hm2⟩ := hl k res hk hread2
    exact ⟨ids2, by rw [hlist2]; exact h2, hm2⟩

theorem Resolution.nulFree_of_hasVoted (r : Resolution) (m : String) (h : r.NulFree)
    (hv : r.hasVoted m) : ww.NulFree m := by
  rcases hv with hv | hv
  · exact h.2.2.1 m hv
  · exact h.2.2.2 m hv

theorem Resolution.hasVoted_c_strings (r : Resolution) (m : String) (hm : ww.NulFree m)
    (h : r.hasVoted m) : r.c_strings.hasVoted m := by
  rcases h with h | h
  · left
    have := List.mem_map_of_mem c_str h
    rw [c_str_of_nulFree m hm] at this
    exact this
  · right
    have := List.mem_map_of_mem c_str h
    rw [c_str_of_nulFree m hm] at this
    exact this

theorem ResolutionManager.voted_update (store : KeyValueStore) (R M R2 : String)
    (r r2 : Resolution)
    (hr : ResolutionManager.get_resolution store R2 Resolution.default = (true, r))
    (hid : r2.id_ = R2) (hvotes : r.hasVoted M → r2.hasVoted M)
    (h : ResolutionManager.Voted store R M) :
    ResolutionManager.Voted (ResolutionManager.update_resolution store r2).2 R M := by
  cases hupd : (ResolutionManager.update_resolution store r2).1 with
  | false =>
    rw [ResolutionManager.update_resolution_false store r2 hupd]
    exact h
  | true =>
    obtain ⟨r0, hr0, hv0⟩ := h
    by_cases hR : R = R2
    · subst hR
      rw [hr] at hr0
      injection hr0 with _ h2
      subst h2
      refine ⟨r2.c_strings, ?_, ?_⟩
      · have := ResolutionManager.get_resolution_after_update store r2 Resolution.default
          rfl rfl hupd
        rw [hid] at this
        exact this
      · exact Resolution.hasVoted_c_strings r2 M
          (Resolution.nulFree_of_hasVoted r M
            (ResolutionManager.get_resolution_nulFree store R r hr) hv0) (hvotes hv0)
    · refine ⟨r0, ?_, hv0⟩
      rw [ResolutionManager.get_resolution_congr _ store R _
        (ResolutionManager.update_resolution_get_other store r2 R (by rw [hid]; exact hR))]
      exact hr0

theorem committee.initialize_committee_resolution_store (msg : JValue) (env : Environment)
    (st : ContractState) :
    (committee.initialize_committee msg env st).2.resolution_store = st.resolution_store := by
  rw [committee.initialize_committee_eq]
  repeat' split
  all_goals rfl

theorem committee.propose_resolution_success (crypto : Crypto) (codec : CredentialCodec)
    (msg : JValue) (env : Environment) (st : ContractState)
    (h : (committee.propose_resolution crypto codec msg env st).1.status = true) :
    ∃ serialized_credential : String,
      (ResolutionManager.add_resolution st.resolution_store
        (Resolution.fromCredential crypto serialized_credential)).1 = true ∧
      (committee.propose_resolution crypto codec msg env st).2 =
        { st with resolution_store :=
            (ResolutionManager.add_resolution st.resolution_store
              (Resolution.fromCredential crypto serialized_credential)).2 } := by
  unfold committee.propose_resolution at h ⊢
  cases hgate : committee.assertCommitteeInitialized st with
  | some rsp =>
    rw [hgate] at h
    rw [committee.assertCommitteeInitialized_status st rsp hgate] at h
    exact absurd h (by decide)
  | none =>
    by_cases hschema :
        JValue.validate_schema (committee.COMMITTEE_PROPOSE_RESOLUTION_PARAM_SCHEMA codec) msg = true
    · cases hcred : msg.get_value "credential" with
      | none => simp [hgate, hschema, hcred, Response.error] at h
      | some credential =>
        cases hdes : codec.deserialize credential with
        | none => simp [hgate, hschema, hcred, hdes, Response.error] at h
        | some resolution_credential =>
          cases hser : codec.serialize_string resolution_credential with
          | none => simp [hgate, hschema, hcred, hdes, hser, Response.error] at h
          | some serialized_credential =>
            cases hadd : ResolutionManager.add_resolution st.resolution_store
                (Resolution.fromCredential crypto serialized_credential) with
            | mk ok store1 =>
              cases ok with
              | false => simp [hgate, hschema, hcred, hdes, hser, hadd, Response.error] at h
              | true =>
                refine ⟨serialized_credential, by rw [hadd], ?_⟩
                simp [hgate, hschema, hcred, hdes, hser, hadd]
    · simp [hgate, hschema, Response.error] at h

theorem committee.commit_invoke_store (d : committee.Deployment)
    (hvote : committee.DecidesStatusOnly d.vote) (call : committee.Invocation)
    (st : ContractState) :
    (committee.commit st (committee.invoke d call st)).resolution_store =
        st.resolution_store ∨
    (∃ r : Resolution,
      (ResolutionManager.add_resolution st.resolution_store r).1 = true ∧
      (committee.commit st (committee.invoke d call st)).resolution_store =
        (ResolutionManager.add_resolution st.resolution_store r).2) ∨
    (∃ (R2 : String) (r r2 : Resolution),
      NulFree R2 ∧
      ResolutionManager.get_resolution st.resolution_store R2 Resolution.default =
        (true, r) ∧
      r2.id_ = r.id_ ∧
      (∀ M : String, r.hasVoted M → r2.hasVoted M) ∧
      (committee.commit st (committee.invoke d call st)).resolution_store =
        (ResolutionManager.update_resolution st.resolution_store r2).2) := by
  cases hs : (committee.invoke d call st).1.status with
  | false =>
    left
    rw [committee.commit_of_false st _ hs]
  | true =>
    rw [committee.commit_of_true st _ hs]
    unfold committee.invoke at hs ⊢
    cases hm : call.method with
    | initialize_committee =>
      left
      simp only
      exact committee.initialize_committee_resolution_store _ _ _
    | add_member =>
      left
      simp only
      rw [committee.add_member_frame]
    | remove_member =>
      left
      simp only
      rw [committee.remove_member_frame]
    | propose_resolution =>
      right
      left
      rw [hm] at hs
      simp only at hs ⊢
      obtain ⟨s, hadd, hst⟩ :=
        committee.propose_resolution_success d.crypto d.codec call.msg call.env st hs
      exact ⟨_, hadd, by rw [hst]⟩
    | approve_resolution =>
      rw [hm] at hs
      simp only at hs ⊢
      rcases committee.approve_resolution_cases d.vote call.msg call.env st with
        hA | ⟨R2, r, r2, hid, hget, -, hv, -, -, hst⟩
      · rw [hA.1] at hs
        exact absurd hs (by decide)
      · right
        right
        have hr2 : r2 = (d.vote (Committee.fromStore st.committee_store)
            (r.approve call.env.originator_id_).2).2 := by rw [hv]
        refine ⟨R2, r, r2, JValue.get_string_nulFree _ _ _ hid, hget, ?_, ?_, by rw [hst]⟩
        · rw [hr2, (hvote _ _).1, Resolution.approve_id]
        · intro M hM
          rw [hr2]
          exact committee.hasVoted_vote d.vote hvote _ _ M
            (Resolution.hasVoted_approve r M _ hM)
    | disapprove_resolution =>
      rw [hm] at hs
      simp only at hs ⊢
      rcases committee.disapprove_resolution_cases d.vote call.msg call.env st with
        hA | ⟨R2, r, r2, hid, hget, -, hv, -, -, hst⟩
      · rw [hA.1] at hs
        exact absurd hs (by decide)
      · right
        right
        have hr2 : r2 = (d.vote (Committee.fromStore st.committee_store)
            (r.disapprove call.env.originator_id_).2).2 := by rw [hv]
        refine ⟨R2, r, r2, JValue.get_string_nulFree _ _ _ hid, hget, ?_, ?_, by rw [hst]⟩
        · rw [hr2, (hvote _ _).1, Resolution.disapprove_id]
        · intro M hM
          rw [hr2]
          exact committee.hasVoted_vote d.vote hvote _ _ M
            (Resolution.hasVoted_disapprove r M _ hM)
    | list_resolutions =>
      left
      simp only
      rw [committee.list_resolutions_frame]
    | resolution_status =>
      left
      simp only
      rw [committee.resolution_status_frame]
    | issue_resolution_credential =>
      left
      simp only
      rw [committee.issue_resolution_credential_frame]

theorem committee.commit_invoke_keeps (d : committee.Deployment)
    (hvote : committee.DecidesStatusOnly d.vote) (call : committee.Invocation)
    (st : ContractState)
    (hagree : ResolutionManager.KeyIdAgreement st.resolution_store)
    (hlisted : ResolutionManager.Listed st.resolution_store) :
    ResolutionManager.KeyIdAgreement
      (committee.commit st (committee.invoke d call st)).resolution_store ∧
    ResolutionManager.Listed
      (committee.commit st (committee.invoke d call st)).resolution_store ∧
    (∀ R M : String, NulFree R → ResolutionManager.Voted st.resolution_store R M →
      ResolutionManager.Voted
        (committee.commit st (committee.invoke d call st)).resolution_store R M) := by
  rcases committee.commit_invoke_store d hvote call st with
    h | ⟨r, hadd, h⟩ | ⟨R2, r, r2, hnul, hget, hid, hvotes, h⟩
  · rw [h]
    exact ⟨hagree, hlisted, fun _ _ _ hv => hv⟩
  · rw [h]
    exact ⟨ResolutionManager.keyIdAgreement_add _ r hagree,
      ResolutionManager.listed_add _ r hlisted hadd,
      fun R M hR hv => ResolutionManager.voted_add _ R M r hlisted hR hv hadd⟩
  · rw [h]
    have hid2 : r2.id_ = R2 := by
      rw [hid, hagree R2 r hget, c_str_of_nulFree R2 hnul]
    exact ⟨ResolutionManager.keyIdAgreement_update _ r2 hagree,
      (ResolutionManager.listed_update _ r2 R2 r hget hnul hid2 hlisted).1,
      fun R M _ hv => ResolutionManager.voted_update _ R M R2 r r2 hget hid2 (hvotes M) hv⟩

theorem committee.invokeAll_keeps (d : committee.Deployment)
    (hvote : committee.DecidesStatusOnly d.vote) (calls : List committee.Invocation) :
    ∀ st : ContractState,
      ResolutionManager.KeyIdAgreement st.resolution_store →
      ResolutionManager.Listed st.resolution_store →
      ResolutionManager.KeyIdAgreement (committee.invokeAll d calls st).resolution_store ∧
      ResolutionManager.Listed (committee.invokeAll d calls st).resolution_store ∧
      (∀ R M : String, NulFree R → ResolutionManager.Voted st.resolution_store R M →
        ResolutionManager.Voted (committee.invokeAll d calls st).resolution_store R M) := by
  induction calls with
  | nil => exact fun st h1 h2 => ⟨h1, h2, fun _ _ _ hv => hv⟩
  | cons call calls ih =>
    intro st h1 h2
    rw [committee.invokeAll_cons]
    obtain ⟨h3, h4, h5⟩ := committee.commit_invoke_keeps d hvote call st h1 h2
    obtain ⟨h6, h7, h8⟩ := ih _ h3 h4
    exact ⟨h6, h7, fun R M hR hv => h8 R M hR (h5 R M hR hv)⟩

theorem committee.member_of_vote (vote : committee.VoteFunction) (msg : JValue)
    (env : Environment) (st : ContractState)
    (h : (committee.approve_resolution vote msg env st).1.status = true ∨
      (committee.disapprove_resolution vote msg env st).1.status = true) :
    env.originator_id_ ∈ (Committee.fromStore st.committee_store).members_ := by
  cases hb : (Committee.fromStore st.committee_store).is_member env.originator_id_ with
  | false =>
    obtain ⟨h1, h2⟩ := committee.approve_resolution_not_member vote msg env st hb
    rcases h with h | h
    · rw [h1] at h
      exact absurd h (by decide)
    · rw [h2] at h
      exact absurd h (by decide)
  | true =>
    unfold Committee.is_member at hb
    exact of_decide_eq_true hb

theorem committee.approve_resolution_recorded (d : committee.Deployment)
    (hvote : committee.DecidesStatusOnly d.vote) (msg : JValue) (env : Environment)
    (st : ContractState) (R : String)
    (hR : msg.get_string "resolution_identifier" = some R)
    (hagree : ResolutionManager.KeyIdAgreement st.resolution_store)
    (hlisted : ResolutionManager.Listed st.resolution_store)
    (hok : (committee.approve_resolution d.vote msg env st).1.status = true) :
    (∃ r : Resolution,
      ResolutionManager.get_resolution st.resolution_store R Resolution.default = (true, r) ∧
      ResolutionManager.get_resolution
          (committee.approve_resolution d.vote msg env st).2.resolution_store R
          Resolution.default =
        (true, (d.vote (Committee.fromStore st.committee_store)
          (r.approve env.originator_id_).2).2) ∧
      (d.vote (Committee.fromStore st.committee_store)
          (r.approve env.originator_id_).2).2.positive_votes_ =
        r.positive_votes_ ++ [env.originator_id_] ∧
      (d.vote (Committee.fromStore st.committee_store)
          (r.approve env.originator_id_).2).2.negative_votes_ = r.negative_votes_) ∧
    ResolutionManager.list_resolutions
        (committee.approve_resolution d.vote msg env st).2.resolution_store =
      ResolutionManager.list_resolutions st.resolution_store ∧
    ResolutionManager.Voted
      (committee.approve_resolution d.vote msg env st).2.resolution_store R
      env.originator_id_ := by
  rcases committee.approve_resolution_cases d.vote msg env st with
    hA | ⟨R2, r, r2, hid, hget, hok1, hv, hupd, -, hst⟩
  · rw [hA.1] at hok
    exact absurd hok (by decide)
  rw [hR] at hid
  injection hid with hid
  subst hid
  have hRnul : NulFree R := JValue.get_string_nulFree _ _ _ hR
  have hrnul := ResolutionManager.get_resolution_nulFree _ R r hget
  have hMnul : NulFree env.originator_id_ :=
    Committee.fromStore_nulFree _ _ (committee.member_of_vote d.vote msg env st (Or.inl hok))
  have hr2 : r2 = (d.vote (Committee.fromStore st.committee_store)
      (r.approve env.originator_id_).2).2 := by rw [hv]
  have happ : (r.approve env.originator_id_).2 =
      { r with positive_votes_ := r.positive_votes_ ++ [env.originator_id_] } := by
    rw [Resolution.approve_snd, if_pos hok1]
  have hpos : r2.positive_votes_ = r.positive_votes_ ++ [env.originator_id_] := by
    rw [hr2, (hvote _ _).2.2.1, happ]
  have hneg : r2.negative_votes_ = r.negative_votes_ := by
    rw [hr2, (hvote _ _).2.2.2, happ]
  have hcred : r2.serialized_credential_ = r.serialized_credential_ := by
    rw [hr2, (hvote _ _).2.1, happ]
  have hid2 : r2.id_ = R := by
    rw [hr2, (hvote _ _).1, Resolution.approve_id, hagree R r hget, c_str_of_nulFree R hRnul]
  have hr2nul : r2.NulFree := by
    refine ⟨by rw [hid2]; exact hRnul, by rw [hcred]; exact hrnul.2.1, ?_, ?_⟩
    · rw [hpos]
      intro voter hvoter
      rcases List.mem_append.mp hvoter with h1 | h1
      · exact hrnul.2.2.1 voter h1
      · rw [List.mem_singleton.mp h1]
        exact hMnul
    · rw [hneg]
      exact hrnul.2.2.2
  have hread : ResolutionManager.get_resolution
      (committee.approve_resolution d.vote msg env st).2.resolution_store R
      Resolution.default = (true, r2) := by
    rw [hst]
    have := ResolutionManager.get_resolution_after_update st.resolution_store r2
      Resolution.default rfl rfl hupd
    rw [hid2, Resolution.c_strings_of_nulFree r2 hr2nul] at this
    exact this
  refine ⟨⟨r, hget, ?_, ?_, ?_⟩, ?_, ?_⟩
  · rw [← hr2]
    exact hread
  · rw [← hr2]
    exact hpos
  · rw [← hr2]
    exact hneg
  · rw [hst]
    exact (ResolutionManager.listed_update _ r2 R r hget hRnul hid2 hlisted).2
  · exact ⟨r2, hread,
      Or.inl (by rw [hpos]; exact List.mem_append_right _ (List.mem_singleton.mpr rfl))⟩

theorem committee.disapprove_resolution_recorded (d : committee.Deployment)
    (hvote : committee.DecidesStatusOnly d.vote) (msg : JValue) (env : Environment)
    (st : ContractState) (R : String)
    (hR : msg.get_string "resolution_identifier" = some R)
    (hagree : ResolutionManager.KeyIdAgreement st.resolution_store)
    (hlisted : ResolutionManager.Listed st.resolution_store)
    (hok : (committee.disapprove_resolution d.vote msg env st).1.status = true) :
    (∃ r : Resolution,
      ResolutionManager.get_resolution st.resolution_store R Resolution.default = (true, r) ∧
      ResolutionManager.get_resolution
          (committee.disapprove_resolution d.vote msg env st).2.resolution_store R
          Resolution.default =
        (true, (d.vote (Committee.fromStore st.committee_store)
          (r.disapprove env.originator_id_).2).2) ∧
      (d.vote (Committee.fromStore st.committee_store)
          (r.disapprove env.originator_id_).2).2.positive_votes_ = r.positive_votes_ ∧
      (d.vote (Committee.fromStore st.committee_store)
          (r.disapprove env.originator_id_).2).2.negative_votes_ =
        r.negative_votes_ ++ [env.originator_id_]) ∧
    ResolutionManager.list_resolutions
        (committee.disapprove_resolution d.vote msg env st).2.resolution_store =
      ResolutionManager.list_resolutions st.resolution_store ∧
    ResolutionManager.Voted
      (committee.disapprove_resolution d.vote msg env st).2.resolution_store R
      env.originator_id_ := by
  rcases committee.disapprove_resolution_cases d.vote msg env st with
    hA | ⟨R2, r, r2, hid, hget, hok1, hv, hupd, -, hst⟩
  · rw [hA.1] at hok
    exact absurd hok (by decide)
  rw [hR] at hid
  injection hid with hid
  subst hid
  have hRnul : NulFree R := JValue.get_string_nulFree _ _ _ hR
  have hrnul := ResolutionManager.get_resolution_nulFree _ R r hget
  have hMnul : NulFree env.originator_id_ :=
    Committee.fromStore_nulFree _ _ (committee.member_of_vote d.vote msg env st (Or.inr hok))
  have hr2 : r2 = (d.vote (Committee.fromStore st.committee_store)
      (r.disapprove env.originator_id_).2).2 := by rw [hv]
  have happ : (r.disapprove env.originator_id_).2 =
      { r with negative_votes_ := r.negative_votes_ ++ [env.originator_id_] } := by
    rw [Resolution.disapprove_snd, if_pos hok1]
  have hpos : r2.positive_votes_ = r.positive_votes_ := by
    rw [hr2, (hvote _ _).2.2.1, happ]
  have hneg : r2.negative_votes_ = r.negative_votes_ ++ [env.originator_id_] := by
    rw [hr2, (hvote _ _).2.2.2, happ]
  have hcred : r2.serialized_credential_ = r.serialized_credential_ := by
    rw [hr2, (hvote _ _).2.1, happ]
  have hid2 : r2.id_ = R := by
    rw [hr2, (hvote _ _).1, Resolution.disapprove_id, hagree R r hget, c_str_of_nulFree R hRnul]
  have hr2nul : r2.NulFree := by
    refine ⟨by rw [hid2]; exact hRnul, by rw [hcred]; exact hrnul.2.1, ?_, ?_⟩
    · rw [hpos]
      exact hrnul.2.2.1
    · rw [hneg]
      intro voter hvoter
      rcases List.mem_append.mp hvoter with h1 | h1
      · exact hrnul.2.2.2 voter h1
      · rw [List.mem_singleton.mp h1]
        exact hMnul
  have hread : ResolutionManager.get_resolution
      (committee.disapprove_resolution d.vote msg env st).2.resolution_store R
      Resolution.default = (true, r2) := by
    rw [hst]
    have := ResolutionManager.get_resolution_after_update st.resolution_store r2
      Resolution.default rfl rfl hupd
    rw [hid2, Resolution.c_strings_of_nulFree r2 hr2nul] at this
    exact this
  refine ⟨⟨r, hget, ?_, ?_, ?_⟩, ?_, ?_⟩
  · rw [← hr2]
    exact hread
  · rw [← hr2]
    exact hpos
  · rw [← hr2]
    exact hneg
  · rw [hst]
    exact (ResolutionManager.listed_update _ r2 R r hget hRnul hid2 hlisted).2
  · exact ⟨r2, hread,
      Or.inr (by rw [hneg]; exact List.mem_append_right _ (List.mem_singleton.mpr rfl))⟩

/-- C29. A recorded vote survives persistence. The vote function decides the
status only. The contract is followed from a state in which no resolution is
stored, as at its creation, through any sequence of invocations, and then
`approve_resolution` (resp. `disapprove_resolution`) succeeds for the member M
on the id R. Then the resolution stored under R after the call is what the
vote function left of the stored resolution with the vote recorded: M is
appended to the positive (resp. negative) votes and the other vote sequence is
as before; the index reads as before; and after every further sequence of
invocations of the nine methods, every `approve_resolution` and
`disapprove_resolution` by M on R fails and changes nothing. -/
theorem vote_persisted (d : committee.Deployment)
    (hvote : committee.DecidesStatusOnly d.vote) (st0 : ContractState)
    (hstart : ResolutionManager.StoredAll (fun _ => False) st0.resolution_store)
    (calls : List committee.Invocation) (msg : JValue) (env : Environment) (R : String)
    (hR : msg.get_string "resolution_identifier" = some R) :
    ((committee.approve_resolution d.vote msg env
        (committee.invokeAll d calls st0)).1.status = true →
      (∃ r : Resolution,
        ResolutionManager.get_resolution (committee.invokeAll d calls st0).resolution_store R
          Resolution.default = (true, r) ∧
        ResolutionManager.get_resolution
            (committee.approve_resolution d.vote msg env
              (committee.invokeAll d calls st0)).2.resolution_store R Resolution.default =
          (true, (d.vote (Committee.fromStore (committee.invokeAll d calls st0).committee_store)
            (r.approve env.originator_id_).2).2) ∧
        (d.vote (Committee.fromStore (committee.invokeAll d calls st0).committee_store)
            (r.approve env.originator_id_).2).2.positive_votes_ =
          r.positive_votes_ ++ [env.originator_id_] ∧
        (d.vote (Committee.fromStore (committee.invokeAll d calls st0).committee_store)
            (r.approve env.originator_id_).2).2.negative_votes_ = r.negative_votes_) ∧
      ResolutionManager.list_resolutions
          (committee.approve_resolution d.vote msg env
            (committee.invokeAll d calls st0)).2.resolution_store =
        ResolutionManager.list_resolutions (committee.invokeAll d calls st0).resolution_store ∧
      (∀ later : List committee.Invocation,
        committee.VoteRefused d.vote
          (committee.invokeAll d later
            (committee.approve_resolution d.vote msg env (committee.invokeAll d calls st0)).2)
          R env.originator_id_)) ∧
    ((committee.disapprove_resolution d.vote msg env
        (committee.invokeAll d calls st0)).1.status = true →
      (∃ r : Resolution,
        ResolutionManager.get_resolution (committee.invokeAll d calls st0).resolution_store R
          Resolution.default = (true, r) ∧
        ResolutionManager.get_resolution
            (committee.disapprove_resolution d.vote msg env
              (committee.invokeAll d calls st0)).2.resolution_store R Resolution.default =
          (true, (d.vote (Committee.fromStore (committee.invokeAll d calls st0).committee_store)
            (r.disapprove env.originator_id_).2).2) ∧
        (d.vote (Committee.fromStore (committee.invokeAll d calls st0).committee_store)
            (r.disapprove env.originator_id_).2).2.positive_votes_ = r.positive_votes_ ∧
        (d.vote (Committee.fromStore (committee.invokeAll d calls st0).committee_store)
            (r.disapprove env.originator_id_).2).2.negative_votes_ =
          r.negative_votes_ ++ [env.originator_id_]) ∧
      ResolutionManager.list_resolutions
          (committee.disapprove_resolution d.vote msg env
            (committee.invokeAll d calls st0)).2.resolution_store =
        ResolutionManager.list_resolutions (committee.invokeAll d calls st0).resolution_store ∧
      (∀ later : List committee.Invocation,
        committee.VoteRefused d.vote
          (committee.invokeAll d later
            (committee.disapprove_resolution d.vote msg env
              (committee.invokeAll d calls st0)).2)
          R env.originator_id_)) := by
  obtain ⟨hagree, hlisted, -⟩ := committee.invokeAll_keeps d hvote calls st0
    (ResolutionManager.keyIdAgreement_of_none _ hstart)
    (ResolutionManager.listed_of_none _ hstart)
  have hRnul : NulFree R := JValue.get_string_nulFree _ _ _ hR
  constructor
  · intro hok
    obtain ⟨h1, h2, h3⟩ := committee.approve_resolution_recorded d hvote msg env
      (committee.invokeAll d calls st0) R hR hagree hlisted hok
    refine ⟨h1, h2, ?_⟩
    intro later
    have hstep := committee.commit_invoke_keeps d hvote
      ⟨.approve_resolution, msg, env⟩ (committee.invokeAll d calls st0) hagree hlisted
    have hcommit : committee.commit (committee.invokeAll d calls st0)
        (committee.invoke d ⟨.approve_resolution, msg, env⟩ (committee.invokeAll d calls st0)) =
        (committee.approve_resolution d.vote msg env (committee.invokeAll d calls st0)).2 :=
      committee.commit_of_true _ _ hok
    rw [hcommit] at hstep
    exact committee.voteRefused_of_voted d.vote _ R _
      ((committee.invokeAll_keeps d hvote later _ hstep.1 hstep.2.1).2.2 R _ hRnul h3)
  · intro hok
    obtain ⟨h1, h2, h3⟩ := committee.disapprove_resolution_recorded d hvote msg env
      (committee.invokeAll d calls st0) R hR hagree hlisted hok
    refine ⟨h1, h2, ?_⟩
    intro later
    have hstep := committee.commit_invoke_keeps d hvote
      ⟨.disapprove_resolution, msg, env⟩ (committee.invokeAll d calls st0) hagree hlisted
    have hcommit : committee.commit (committee.invokeAll d calls st0)
        (committee.invoke d ⟨.disapprove_resolution, msg, env⟩
          (committee.invokeAll d calls st0)) =
        (committee.disapprove_resolution d.vote msg env (committee.invokeAll d calls st0)).2 :=
      committee.commit_of_true _ _ hok
    rw [hcommit] at hstep
    exact committee.voteRefused_of_voted d.vote _ R _
      ((committee.invokeAll_keeps d hvote later _ hstep.1 hstep.2.1).2.2 R _ hRnul h3)

theorem Sample.freshState_none :
    ResolutionManager.StoredAll (fun _ => False) Sample.freshState.resolution_store :=
  ResolutionManager.storedAll_initialize _ _
    (ResolutionManager.storedAll_of_empty _ Sample.emptyStore rfl)

/-- Witness of C29 (scenario 4): on the contract of the committee {A, B, C} with
an empty index, B proposes the credential, which is stored as "H", and A
approves it. A can neither approve nor disapprove "H" afterwards, also not
after the same credential was proposed again and B has voted against it. -/
theorem vote_persisted_witness :
    (committee.approve_resolution Sample.deployment.vote (Sample.request "H") (Sample.env "A")
      (committee.invokeAll Sample.deployment
        [⟨.propose_resolution, Sample.proposal, Sample.env "B"⟩]
        Sample.freshState)).1.status = true ∧
    (committee.approve_resolution Sample.deployment.vote (Sample.request "H") (Sample.env "A")
      (committee.approve_resolution Sample.deployment.vote (Sample.request "H")
        (Sample.env "A")
        (committee.invokeAll Sample.deployment
          [⟨.propose_resolution, Sample.proposal, Sample.env "B"⟩]
          Sample.freshState)).2).1.status = false ∧
    (committee.disapprove_resolution Sample.deployment.vote (Sample.request "H")
      (Sample.env "A")
      (committee.invokeAll Sample.deployment
        [⟨.propose_resolution, Sample.proposal, Sample.env "B"⟩,
         ⟨.disapprove_resolution, Sample.request "H", Sample.env "B"⟩]
        (committee.approve_resolution Sample.deployment.vote (Sample.request "H")
          (Sample.env "A")
          (committee.invokeAll Sample.deployment
            [⟨.propose_resolution, Sample.proposal, Sample.env "B"⟩]
            Sample.freshState)).2)).1.status = false :=
  have hok : (committee.approve_resolution Sample.deployment.vote (Sample.request "H")
      (Sample.env "A")
      (committee.invokeAll Sample.deployment
        [⟨.propose_resolution, Sample.proposal, Sample.env "B"⟩]
        Sample.freshState)).1.status = true := by decide
  have h := (vote_persisted Sample.deployment
    committee.committee_vote_function_decidesStatusOnly Sample.freshState
    Sample.freshState_none [⟨.propose_resolution, Sample.proposal, Sample.env "B"⟩]
    (Sample.request "H") (Sample.env "A") "H" rfl).1 hok
  ⟨hok, (h.2.2 [] (Sample.request "H") (Sample.env "A") rfl rfl).1.1,
    (h.2.2
      [⟨.propose_resolution, Sample.proposal, Sample.env "B"⟩,
       ⟨.disapprove_resolution, Sample.request "H", Sample.env "B"⟩]
      (Sample.request "H") (Sample.env "A") rfl rfl).2.1⟩

/-! ## Failure of `add_resolution` -/

/-- Counterexample to C26 as stated. The store holds "H" and refuses an index of
two elements. `add_resolution` of "H2" writes the payload, fails on the index
write and returns false: the index is as before, but the payload of "H2" is
now in the store. -/
theorem add_resolution_atomic_counterexample :
    (ResolutionManager.add_resolution Sample.fullStore Sample.rejected).1 = false ∧
    Sample.fullStore.get "H2" = none ∧
    (ResolutionManager.add_resolution Sample.fullStore Sample.rejected).2.get "H2" =
      Sample.rejected.serialize_string ∧
    ResolutionManager.list_resolutions
      (ResolutionManager.add_resolution Sample.fullStore Sample.rejected).2 = some ["H"] :=
  ⟨by decide, rfl, rfl, by decide⟩

/-- C26, amended. Whenever `add_resolution` returns false, either the store is
unchanged (duplicate id, failed index read or parse, failed serialization,
failed payload write) or the payload write was carried out and the index
write refused, and then the store that the call leaves behind differs from the
one before by the payload written under the id of the resolution: every key
other than the id reads as before, and so does the index when the id is not
the reserved key "__RESOLUTION_LIST__". When the store refuses no index write,
a false result leaves the store unchanged. Its caller `propose_resolution`
answers a false result with an error, and of a failed invocation the host
commits nothing: the committed state is the state before, or else the state
before with the store of an `add_resolution` that returned true. -/
theorem add_resolution_failure (store : KeyValueStore) (r : Resolution)
    (h : (ResolutionManager.add_resolution store r).1 = false) :
    ((ResolutionManager.add_resolution store r).2 = store ∨
      ∃ (v : JValue) (items : List JValue),
        r.serialize_string = some v ∧
        store.get ResolutionManager.resolution_list_key_ = some (.array items) ∧
        ResolutionManager.scan items r.id_ = true ∧
        store.accepts r.id_ v = true ∧
        store.accepts ResolutionManager.resolution_list_key_
          (.array (items ++ [JValue.c_string r.id_])) = false ∧
        (ResolutionManager.add_resolution store r).2 = (store.set r.id_ v).2) ∧
    (∀ k : String, k ≠ r.id_ →
      (ResolutionManager.add_resolution store r).2.get k = store.get k) ∧
    (r.id_ ≠ ResolutionManager.resolution_list_key_ →
      ResolutionManager.list_resolutions (ResolutionManager.add_resolution store r).2 =
        ResolutionManager.list_resolutions store) ∧
    ((∀ items : List JValue,
        store.accepts ResolutionManager.resolution_list_key_ (.array items) = true) →
      (ResolutionManager.add_resolution store r).2 = store) ∧
    (∀ (crypto : Crypto) (codec : CredentialCodec) (msg : JValue) (env : Environment)
      (st : ContractState),
      committee.commit st (committee.propose_resolution crypto codec msg env st) = st ∨
      ∃ serialized_credential : String,
        (ResolutionManager.add_resolution st.resolution_store
          (Resolution.fromCredential crypto serialized_credential)).1 = true ∧
        committee.commit st (committee.propose_resolution crypto codec msg env st) =
          { st with resolution_store :=
              (ResolutionManager.add_resolution st.resolution_store
                (Resolution.fromCredential crypto serialized_credential)).2 }) := by
  have hcases := ResolutionManager.add_resolution_false_cases store r h
  have hframe : ∀ k : String, k ≠ r.id_ →
      (ResolutionManager.add_resolution store r).2.get k = store.get k := by
    intro k hk
    rcases hcases with h1 | ⟨v, items, -, -, -, -, -, h1⟩
    · rw [h1]
    · rw [h1]
      exact KeyValueStore.get_set_other store r.id_ k v hk
  refine ⟨hcases, hframe, ?_, ?_, ?_⟩
  · intro hkey
    exact ResolutionManager.list_resolutions_congr _ _ (hframe _ (Ne.symm hkey))
  · intro hall
    rcases hcases with h1 | ⟨v, items, -, -, -, -, hrefused, -⟩
    · exact h1
    · rw [hall] at hrefused
      exact absurd hrefused (by decide)
  · intro crypto codec msg env st
    cases hs : (committee.propose_resolution crypto codec msg env st).1.status with
    | false => exact Or.inl (committee.commit_of_false st _ hs)
    | true =>
      obtain ⟨s, hadd, heq⟩ := committee.propose_resolution_success crypto codec msg env st hs
      exact Or.inr ⟨s, hadd, by rw [committee.commit_of_true st _ hs, heq]⟩

/-- Witness of C26: "H2" is already in the index of the store, so adding it
again returns false and leaves the store unchanged. -/
theorem add_resolution_failure_witness :
    (ResolutionManager.add_resolution Sample.rejectedStore Sample.rejected).1 = false ∧
    (ResolutionManager.add_resolution Sample.rejectedStore Sample.rejected).2 =
      Sample.rejectedStore :=
  ⟨by decide,
    (add_resolution_failure Sample.rejectedStore Sample.rejected (by decide)).2.2.2.1
      (fun _ => rfl)⟩

/-! ## Invariants of the resolution store -/

theorem ResolutionManager.keyIdAgreement_run (calls : List StoreCall) :
    ∀ store : KeyValueStore, ResolutionManager.KeyIdAgreement store →
      ResolutionManager.KeyIdAgreement (ResolutionManager.run store calls) := by
  induction calls with
  | nil => exact fun store h => h
  | cons call calls ih =>
    intro store h
    simp only [ResolutionManager.run, List.foldl_cons]
    apply ih
    cases call with
    | add r => exact ResolutionManager.keyIdAgreement_add store r h
    | update r => exact ResolutionManager.keyIdAgreement_update store r h

/-- C35. `update_resolution` does not check existence. For a resolution whose id
is not in the index, when the store carries out the write, `update_resolution`
returns true; afterwards `get_resolution` of the id into a fresh resolution
succeeds and yields the resolution as its serialization holds it, every string
as a C string, which is the resolution itself when none of its strings holds a
NUL, while no list that `list_resolutions` returns contains the id. For an id
other than the reserved key `list_resolutions` returns what it returned before
the call. -/
theorem update_without_existence (store : KeyValueStore) (r : Resolution) (v : JValue)
    (hser : r.serialize_string = some v) (hwrite : store.accepts r.id_ v = true)
    (hnever : ∀ ids : List String,
      ResolutionManager.list_resolutions store = some ids → r.id_ ∉ ids) :
    (ResolutionManager.update_resolution store r).1 = true ∧
    ResolutionManager.get_resolution (ResolutionManager.update_resolution store r).2 r.id_
      Resolution.default = (true, r.c_strings) ∧
    (r.NulFree →
      ResolutionManager.get_resolution (ResolutionManager.update_resolution store r).2 r.id_
        Resolution.default = (true, r)) ∧
    (∀ ids : List String,
      ResolutionManager.list_resolutions (ResolutionManager.update_resolution store r).2 =
        some ids → r.id_ ∉ ids) ∧
    (r.id_ ≠ ResolutionManager.resolution_list_key_ →
      ResolutionManager.list_resolutions (ResolutionManager.update_resolution store r).2 =
        ResolutionManager.list_resolutions store) := by
  have heq : ResolutionManager.update_resolution store r = store.set r.id_ v := by
    unfold ResolutionManager.update_resolution
    rw [hser]
  have htrue : (ResolutionManager.update_resolution store r).1 = true := by
    rw [heq]
    exact (KeyValueStore.set_true_iff store r.id_ v).mpr hwrite
  have hread := ResolutionManager.get_resolution_after_update store r Resolution.default
    rfl rfl htrue
  have hsame : r.id_ ≠ ResolutionManager.resolution_list_key_ →
      ResolutionManager.list_resolutions (ResolutionManager.update_resolution store r).2 =
        ResolutionManager.list_resolutions store := fun hkey =>
    ResolutionManager.list_resolutions_congr _ _
      (ResolutionManager.update_resolution_get_other store r _ (Ne.symm hkey))
  refine ⟨htrue, hread, ?_, ?_, hsame⟩
  · intro hnul
    rw [hread, Resolution.c_strings_of_nulFree r hnul]
  · intro ids hids
    by_cases hkey : r.id_ = ResolutionManager.resolution_list_key_
    · obtain ⟨items, harr, -⟩ := ResolutionManager.list_resolutions_some _ ids hids
      rw [← hkey] at harr
      exact absurd hread (ResolutionManager.not_readable_of_array _ _ _ _ _ harr)
    · rw [hsame hkey] at hids
      exact hnever ids hids

/-- Witness of C35: the approved resolution "H" is handed to `update_resolution`
on a freshly initialized store, on which nothing was added. -/
theorem update_without_existence_witness :
    ResolutionManager.list_resolutions Sample.initializedStore = some [] ∧
    (ResolutionManager.update_resolution Sample.initializedStore Sample.approved).1 = true ∧
    ResolutionManager.get_resolution
      (ResolutionManager.update_resolution Sample.initializedStore Sample.approved).2 "H"
      Resolution.default = (true, Sample.approved) ∧
    ResolutionManager.list_resolutions
      (ResolutionManager.update_resolution Sample.initializedStore Sample.approved).2 =
        some [] :=
  have h := update_without_existence Sample.initializedStore Sample.approved _ rfl rfl
    (fun ids hids => by
      have h0 : ResolutionManager.list_resolutions Sample.initializedStore = some [] := by
        decide
      rw [h0] at hids
      injection hids with hids
      rw [← hids]
      exact List.not_mem_nil _)
  ⟨by decide, h.1, h.2.2.1 (by decide), (h.2.2.2.2 (by decide)).trans (by decide)⟩

theorem committee.propose_resolution_adds (crypto : Crypto) (codec : CredentialCodec)
    (msg : JValue) (env : Environment) (st : ContractState) :
    (committee.propose_resolution crypto codec msg env st).2.resolution_store =
        st.resolution_store ∨
    ∃ serialized_credential : String,
      (committee.propose_resolution crypto codec msg env st).2.resolution_store =
        (ResolutionManager.add_resolution st.resolution_store
          (Resolution.fromCredential crypto serialized_credential)).2 := by
  unfold committee.propose_resolution
  dsimp only
  repeat' split
  all_goals first
    | exact Or.inl rfl
    | (rename_i h; exact Or.inr ⟨_, by rw [h]⟩)

theorem committee.invoke_keyIdAgreement (d : committee.Deployment)
    (call : committee.Invocation) (st : ContractState)
    (hagree : ResolutionManager.KeyIdAgreement st.resolution_store) :
    ResolutionManager.KeyIdAgreement (committee.invoke d call st).2.resolution_store := by
  unfold committee.invoke
  cases hm : call.method with
  | initialize_committee =>
    simp only
    rw [committee.initialize_committee_resolution_store]
    exact hagree
  | add_member =>
    simp only
    rw [committee.add_member_frame]
    exact hagree
  | remove_member =>
    simp only
    rw [committee.remove_member_frame]
    exact hagree
  | propose_resolution =>
    simp only
    rcases committee.propose_resolution_adds d.crypto d.codec call.msg call.env st with
      h | ⟨r, h⟩
    · rw [h]
      exact hagree
    · rw [h]
      exact ResolutionManager.keyIdAgreement_add _ _ hagree
  | approve_resolution =>
    simp only
    rcases committee.approve_resolution_cases d.vote call.msg call.env st with
      hA | ⟨R2, r, r2, -, -, -, -, -, -, hst⟩
    · rw [hA.2]
      exact hagree
    · rw [hst]
      exact ResolutionManager.keyIdAgreement_update _ r2 hagree
  | disapprove_resolution =>
    simp only
    rcases committee.disapprove_resolution_cases d.vote call.msg call.env st with
      hA | ⟨R2, r, r2, -, -, -, -, -, -, hst⟩
    · rw [hA.2]
      exact hagree
    · rw [hst]
      exact ResolutionManager.keyIdAgreement_update _ r2 hagree
  | list_resolutions =>
    simp only
    rw [committee.list_resolutions_frame]
    exact hagree
  | resolution_status =>
    simp only
    rw [committee.resolution_status_frame]
    exact hagree
  | issue_resolution_credential =>
    simp only
    rw [committee.issue_resolution_credential_frame]
    exact hagree

theorem committee.invokeAll_keyIdAgreement (d : committee.Deployment)
    (calls : List committee.Invocation) :
    ∀ st : ContractState, ResolutionManager.KeyIdAgreement st.resolution_store →
      ResolutionManager.KeyIdAgreement (committee.invokeAll d calls st).resolution_store := by
  induction calls with
  | nil => exact fun st h => h
  | cons call calls ih =>
    intro st h
    rw [committee.invokeAll_cons]
    apply ih
    unfold committee.commit
    split
    · exact committee.invoke_keyIdAgreement d call st h
    · exact h

theorem committee.resolution_status_success (codec : CredentialCodec) (msg : JValue)
    (env : Environment) (st : ContractState)
    (h : (committee.resolution_status codec msg env st).1.status = true) :
    ∃ (resolution_id : String) (resolution : Resolution) (credential_value : JValue),
      msg.get_string "resolution_identifier" = some resolution_id ∧
      ResolutionManager.get_resolution st.resolution_store resolution_id Resolution.default =
        (true, resolution) ∧
      (committee.resolution_status codec msg env st).1 =
        Response.withValue
          (.object
            [ ("resolution_identifier", JValue.c_string resolution.id_),
              ("status", .number (resolution.status_.toNat : ℚ)),
              ("credential", credential_value) ])
          false := by
  cases hgate : committee.assertCommitteeInitialized st with
  | some rsp =>
    have hs := committee.assertCommitteeInitialized_status st rsp hgate
    unfold committee.resolution_status at h
    rw [hgate] at h
    simp only at h
    rw [hs] at h
    exact absurd h (by decide)
  | none =>
    by_cases h2 : JValue.validate_schema
        committee.COMMITTEE_RESOLUTION_STATUS_PARAM_SCHEMA msg = true
    swap
    · simp [committee.resolution_status, hgate, h2, Response.error] at h
    cases hid : msg.get_string "resolution_identifier" with
    | none => simp [committee.resolution_status, hgate, h2, hid, Response.error] at h
    | some resolution_id =>
      cases hget : ResolutionManager.get_resolution st.resolution_store resolution_id
          Resolution.default with
      | mk ok r =>
        cases ok with
        | false =>
          simp [committee.resolution_status, hgate, h2, hid, hget, Response.error] at h
        | true =>
          cases hc : codec.deserialize_string r.serialized_credential_ with
          | none =>
            simp [committee.resolution_status, hgate, h2, hid, hget, hc, Response.error] at h
          | some credential =>
            cases hs : codec.serialize credential with
            | none =>
              simp [committee.resolution_status, hgate, h2, hid, hget, hc, hs,
                Response.error] at h
            | some credential_value =>
              refine ⟨resolution_id, r, credential_value, rfl, hget, ?_⟩
              unfold committee.resolution_status
              simp only [hgate, h2, hid, hget, hc, hs, not_true_eq_false, if_false]

/-- Counterexample to C37 as stated. On a freshly initialized store the
resolution whose id is "A", a NUL, "B" is added with success. `get_resolution`
of that id into a fresh resolution succeeds, and the id of the resolution it
yields is "A", not the key: the payload holds the id as a C string. -/
theorem key_id_agreement_counterexample :
    (ResolutionManager.add_resolution ( ResolutionManager.initialize Sample.emptyStore).2
      Sample.nulResolution).1 = true ∧
    (ResolutionManager.get_resolution
      (ResolutionManager.run ( ResolutionManager.initialize Sample.emptyStore).2
        [.add Sample.nulResolution]) Sample.nulString Resolution.default).1 = true ∧
    (ResolutionManager.get_resolution
      (ResolutionManager.run ( ResolutionManager.initialize Sample.emptyStore).2
        [.add Sample.nulResolution]) Sample.nulString Resolution.default).2.id_ = "A" ∧
    Sample.nulString ≠ "A" := by
  decide

/-- C37, amended. Key/id agreement. A store in which every resolution read
under a key has the C string of the key as its id, as is every store without
entries, is such a store after `ResolutionManager::initialize` and any
sequence of `add_resolution` and `update_resolution` calls: whenever
`get_resolution(k)` succeeds into a fresh resolution, the id of the resolution
is the C string of `k`, which is `k` when `k` holds no NUL. The nine contract
methods keep the resolution store such a store, and then a successful
`resolution_status` reports the `resolution_identifier` of the request, which
is read as a C string. -/
theorem key_id_agreement (store : KeyValueStore) (calls : List StoreCall) :
    (ResolutionManager.KeyIdAgreement store →
      ResolutionManager.KeyIdAgreement
        (ResolutionManager.run ( ResolutionManager.initialize store).2 calls)) ∧
    (store.entries = [] →
      ∀ (k : String) (resolution : Resolution),
        ResolutionManager.get_resolution
            (ResolutionManager.run ( ResolutionManager.initialize store).2 calls) k
            Resolution.default = (true, resolution) →
          resolution.id_ = c_str k ∧ (NulFree k → resolution.id_ = k)) ∧
    (∀ (d : committee.Deployment) (invocations : List committee.Invocation)
        (st : ContractState),
      ResolutionManager.KeyIdAgreement st.resolution_store →
      ResolutionManager.KeyIdAgreement
        (committee.invokeAll d invocations st).resolution_store) ∧
    (∀ (codec : CredentialCodec) (msg : JValue) (env : Environment) (st : ContractState),
      ResolutionManager.KeyIdAgreement st.resolution_store →
      (committee.resolution_status codec msg env st).1.status = true →
      ∃ (resolution_id : String) (result : JValue),
        msg.get_string "resolution_identifier" = some resolution_id ∧
        (committee.resolution_status codec msg env st).1.value = some result ∧
        result.get_string "resolution_identifier" = some resolution_id) := by
  refine ⟨?_, ?_, ?_, ?_⟩
  · intro h
    exact ResolutionManager.keyIdAgreement_run calls _
      (ResolutionManager.keyIdAgreement_initialize store h)
  · intro h k resolution hget
    have hid := ResolutionManager.keyIdAgreement_run calls _
      (ResolutionManager.keyIdAgreement_initialize store
        (ResolutionManager.keyIdAgreement_of_empty store h)) k resolution hget
    exact ⟨hid, fun hk => by rw [hid, c_str_of_nulFree k hk]⟩
  · intro d invocations st h
    exact committee.invokeAll_keyIdAgreement d invocations st h
  · intro codec msg env st hagree hok
    obtain ⟨resolution_id, r, credential_value, hid, hget, hrsp⟩ :=
      committee.resolution_status_success codec msg env st hok
    refine ⟨resolution_id, _, hid, by rw [hrsp]; rfl, ?_⟩
    show some (c_str (c_str r.id_)) = some resolution_id
    rw [hagree resolution_id r hget, c_str_idem, c_str_idem,
      c_str_of_nulFree _ (JValue.get_string_nulFree _ _ _ hid)]

theorem Sample.pendingState_keyIdAgreement :
    ResolutionManager.KeyIdAgreement Sample.pendingState.resolution_store :=
  ResolutionManager.keyIdAgreement_add _ _
    (ResolutionManager.keyIdAgreement_initialize _
      (ResolutionManager.keyIdAgreement_of_empty Sample.emptyStore rfl))

/-- Witness of C37: on the store built from an empty one by adding "H", updating
it with its two votes and adding "H2", "H" is read back under "H"; and
`resolution_status` of "H" on the contract that holds the Pending "H" reports
"H". -/
theorem key_id_agreement_witness :
    (ResolutionManager.get_resolution
      (ResolutionManager.run ( ResolutionManager.initialize Sample.emptyStore).2
        [.add (Sample.pending [] []), .update Sample.approved, .add Sample.rejected]) "H"
      Resolution.default).2.id_ = "H" ∧
    (committee.resolution_status Sample.codec (Sample.request "H") (Sample.env "D")
      Sample.pendingState).1.status = true ∧
    ∃ result : JValue,
      (committee.resolution_status Sample.codec (Sample.request "H") (Sample.env "D")
        Sample.pendingState).1.value = some result ∧
      result.get_string "resolution_identifier" = some "H" :=
  have h := key_id_agreement Sample.emptyStore
    [.add (Sample.pending [] []), .update Sample.approved, .add Sample.rejected]
  ⟨(h.2.1 rfl "H" _ rfl).2 (by decide), by decide, by
    obtain ⟨id, result, hid, hv, hres⟩ := h.2.2.2 Sample.codec (Sample.request "H")
      (Sample.env "D") Sample.pendingState Sample.pendingState_keyIdAgreement (by decide)
    have h0 : (Sample.request "H").get_string "resolution_identifier" = some "H" := rfl
    rw [h0] at hid
    rw [← Option.some.inj hid] at hres
    exact ⟨result, hv, hres⟩⟩

theorem ResolutionManager.readable_of_get (store : KeyValueStore) (k : String)
    (r : Resolution) (v : JValue) (hv : r.serialize_string = some v)
    (h : store.get k = some v) :
    (ResolutionManager.get_resolution store k Resolution.default).1 = true := by
  rw [ResolutionManager.get_resolution_of_get store k r Resolution.default rfl rfl
    (h.trans hv.symm)]

theorem ResolutionManager.retrievable_set_payload (store : KeyValueStore) (k : String)
    (r : Resolution) (v : JValue) (hv : r.serialize_string = some v)
    (h : ResolutionManager.Retrievable store) :
    ResolutionManager.Retrievable (store.set k v).2 := by
  cases hset : (store.set k v).1 with
  | false =>
    rw [KeyValueStore.set_false store k v hset]
    exact h
  | true =>
    intro ids hids id hmem hid
    by_cases hk : k = ResolutionManager.resolution_list_key_
    · obtain ⟨items, hitems, -⟩ := ResolutionManager.list_resolutions_some _ ids hids
      rw [← hk, KeyValueStore.get_set_same store k v hset] at hitems
      simp only [Resolution.serialize_string, Resolution.serialize, Option.some.injEq] at hv
      rw [← hv] at hitems
      injection hitems with hitems
      cases hitems
    · rw [ResolutionManager.list_resolutions_congr _ store
        (KeyValueStore.get_set_other store k _ v (Ne.symm hk))] at hids
      by_cases hidk : id = k
      · subst hidk
        exact ResolutionManager.readable_of_get _ _ r v hv
          (KeyValueStore.get_set_same store id v hset)
      · rw [ResolutionManager.get_resolution_congr _ store id _
          (KeyValueStore.get_set_other store k id v hidk)]
        exact h ids hids id hmem hid

theorem ResolutionManager.retrievable_update (store : KeyValueStore) (r : Resolution)
    (h : ResolutionManager.Retrievable store) :
    ResolutionManager.Retrievable (ResolutionManager.update_resolution store r).2 := by
  obtain ⟨v, hv⟩ := Resolution.serialize_string_isSome r
  have heq : ResolutionManager.update_resolution store r = store.set r.id_ v := by
    unfold ResolutionManager.update_resolution
    rw [hv]
  rw [heq]
  exact ResolutionManager.retrievable_set_payload store r.id_ r v hv h

theorem ResolutionManager.retrievable_add (store : KeyValueStore) (r : Resolution)
    (hnul : NulFree r.id_) (h : ResolutionManager.Retrievable store) :
    ResolutionManager.Retrievable (ResolutionManager.add_resolution store r).2 := by
  rcases ResolutionManager.add_resolution_cases store r with
    hA | ⟨v, items, hv, hlist, hscan, hset, hB⟩
  · rw [hA]
    exact h
  · rw [hB]
    have h1 := ResolutionManager.retrievable_set_payload store r.id_ r v hv h
    cases hset2 : ((store.set r.id_ v).2.set ResolutionManager.resolution_list_key_
        (.array (items ++ [JValue.c_string r.id_]))).1 with
    | false =>
      rw [KeyValueStore.set_false _ _ _ hset2]
      exact h1
    | true =>
      obtain ⟨ids, hids⟩ := ResolutionManager.scan_true_stringItems items r.id_ hscan
      intro ids2 hlist2 id hmem hid
      rw [ResolutionManager.list_resolutions_of_get _ _
        (KeyValueStore.get_set_same _ _ _ hset2),
        JValue.stringItems_append items ids r.id_ hids, c_str_of_nulFree r.id_ hnul] at hlist2
      injection hlist2 with hlist2
      subst hlist2
      rw [ResolutionManager.get_resolution_congr _ (store.set r.id_ v).2 id _
        (KeyValueStore.get_set_other _ _ id _ hid)]
      by_cases hidk : id = r.id_
      · subst hidk
        exact ResolutionManager.readable_of_get _ _ r v hv
          (KeyValueStore.get_set_same store r.id_ v hset)
      · rw [ResolutionManager.get_resolution_congr _ store id _
          (KeyValueStore.get_set_other store r.id_ id v hidk)]
        have hidx : ResolutionManager.list_resolutions store = some ids := by
          rw [ResolutionManager.list_resolutions_of_get store items hlist]
          exact hids
        rcases List.mem_append.mp hmem with hold | hnew
        · exact h ids hidx id hold hid
        · exact absurd (List.mem_singleton.mp hnew) hidk

theorem ResolutionManager.retrievable_run (calls : List StoreCall) :
    ∀ store : KeyValueStore,
      (∀ r : Resolution, StoreCall.add r ∈ calls → NulFree r.id_) →
      ResolutionManager.Retrievable store →
      ResolutionManager.Retrievable (ResolutionManager.run store calls) := by
  induction calls with
  | nil => exact fun store _ h => h
  | cons call calls ih =>
    intro store hnul h
    simp only [ResolutionManager.run, List.foldl_cons]
    apply ih _ (fun r hr => hnul r (List.mem_cons_of_mem _ hr))
    cases call with
    | add r =>
      exact ResolutionManager.retrievable_add store r (hnul r (List.mem_cons_self _ _)) h
    | update r => exact ResolutionManager.retrievable_update store r h

theorem ResolutionManager.retrievable_initialize (store : KeyValueStore)
    (h : ( ResolutionManager.initialize store).1 = true) :
    ResolutionManager.Retrievable ( ResolutionManager.initialize store).2 := by
  intro ids hids id hmem _
  rw [ResolutionManager.list_resolutions_initialize store h] at hids
  injection hids with hids
  subst hids
  exact absurd hmem (List.not_mem_nil _)

/-- Counterexample to C38 as stated, in two parts. On a freshly initialized
store a resolution whose id is the reserved key "__RESOLUTION_LIST__" is
added. The index write lands on the key of the payload, so `list_resolutions`
returns that id, and `get_resolution` of it fails: the value under the key is
the index. And a resolution whose id is "A", a NUL, "B" is added: the index
lists the C string "A" while the payload is stored under the whole id, so
`get_resolution` of the listed id "A" fails. -/
theorem indexed_retrievable_counterexample :
    ResolutionManager.list_resolutions
      (ResolutionManager.run ( ResolutionManager.initialize Sample.emptyStore).2
        [.add Sample.indexKeyResolution]) = some ["__RESOLUTION_LIST__"] ∧
    (ResolutionManager.get_resolution
      (ResolutionManager.run ( ResolutionManager.initialize Sample.emptyStore).2
        [.add Sample.indexKeyResolution]) "__RESOLUTION_LIST__" Resolution.default).1 =
      false ∧
    ResolutionManager.list_resolutions
      (ResolutionManager.run ( ResolutionManager.initialize Sample.emptyStore).2
        [.add Sample.nulResolution]) = some ["A"] ∧
    (ResolutionManager.get_resolution
      (ResolutionManager.run ( ResolutionManager.initialize Sample.emptyStore).2
        [.add Sample.nulResolution]) "A" Resolution.default).1 = false := by
  decide

/-- C38, amended. Every indexed id other than the reserved key is retrievable:
in every resolution store state reached from a successful
`ResolutionManager::initialize` by `update_resolution` calls with arbitrary
resolutions and `add_resolution` calls with resolutions whose id holds no NUL,
`get_resolution` into a fresh resolution succeeds for every id that
`list_resolutions` returns and that is not the reserved key
"__RESOLUTION_LIST__". -/
theorem indexed_retrievable (store : KeyValueStore) (calls : List StoreCall)
    (hinit : ( ResolutionManager.initialize store).1 = true)
    (hnul : ∀ r : Resolution, StoreCall.add r ∈ calls → NulFree r.id_)
    (ids : List String)
    (hlist : ResolutionManager.list_resolutions
      (ResolutionManager.run ( ResolutionManager.initialize store).2 calls) = some ids)
    (id : String) (hid : id ∈ ids) (hkey : id ≠ ResolutionManager.resolution_list_key_) :
    (ResolutionManager.get_resolution
      (ResolutionManager.run ( ResolutionManager.initialize store).2 calls) id
      Resolution.default).1 = true :=
  ResolutionManager.retrievable_run calls _ hnul
    (ResolutionManager.retrievable_initialize store hinit) ids hlist id hid hkey

/-- Witness of C38: after "H" and then the reserved key are added, the index
lists both and "H" is retrievable. -/
theorem indexed_retrievable_witness :
    ResolutionManager.list_resolutions
      (ResolutionManager.run ( ResolutionManager.initialize Sample.emptyStore).2
        [.add (Sample.pending [] []), .add Sample.indexKeyResolution]) =
      some ["H", "__RESOLUTION_LIST__"] ∧
    (ResolutionManager.get_resolution
      (ResolutionManager.run ( ResolutionManager.initialize Sample.emptyStore).2
        [.add (Sample.pending [] []), .add Sample.indexKeyResolution]) "H"
      Resolution.default).1 = true :=
  ⟨by decide,
    indexed_retrievable Sample.emptyStore
      [.add (Sample.pending [] []), .add Sample.indexKeyResolution] (by decide)
      (fun r hr => by
        rcases List.mem_cons.mp hr with h1 | h1
        · injection h1 with h1
          rw [h1]
          decide
        · rcases List.mem_cons.mp h1 with h2 | h2
          · injection h2 with h2
            rw [h2]
            decide
          · exact absurd h2 (List.not_mem_nil _))
      ["H", "__RESOLUTION_LIST__"] (by decide) "H" (by decide) (by decide)⟩

/-! ## The committee-not-initialized gate -/

theorem committee.assertCommitteeInitialized_none_iff (st : ContractState) :
    committee.assertCommitteeInitialized st = none ↔
      st.initialized = true ∧ st.owner = some committee.unassigned_owner := by
  unfold committee.assertCommitteeInitialized
  by_cases h1 : st.initialized = true
  · cases h2 : st.owner with
    | none => simp [h1]
    | some owner =>
      by_cases h3 : owner = committee.unassigned_owner
      · simp [h1, h3]
      · simp [h1, h3]
  · simp [h1]

theorem committee.initialize_committee_opens_gate (msg : JValue) (env : Environment)
    (st : ContractState) (h : (committee.initialize_committee msg env st).1.status = true) :
    committee.assertCommitteeInitialized (committee.initialize_committee msg env st).2 =
      none := by
  obtain ⟨items, committee1, -, hinit, -, -, -, -, -, -, heq⟩ :=
    committee.initialize_committee_success msg env st h
  rw [heq]
  exact (committee.assertCommitteeInitialized_none_iff _).mpr ⟨hinit, rfl⟩

theorem committee.gate_stays_open (d : committee.Deployment)
    (calls : List committee.Invocation) (st : ContractState)
    (h : committee.assertCommitteeInitialized st = none) :
    committee.assertCommitteeInitialized (committee.invokeAll d calls st) = none := by
  obtain ⟨hinit, howner⟩ := (committee.assertCommitteeInitialized_none_iff st).mp h
  refine (committee.assertCommitteeInitialized_none_iff _).mpr ⟨?_, ?_⟩
  · rw [(committee.invokeAll_fields d calls st).1]
    exact hinit
  · exact committee.invokeAll_marker d calls st howner

theorem committee.invoke_past_gate (d : committee.Deployment) (call : committee.Invocation)
    (st : ContractState) (hm : call.method ≠ .initialize_committee)
    (hgate : committee.assertCommitteeInitialized st = none) :
    (committee.invoke d call st).1.message ≠ "committee has not been initialized" := by
  unfold committee.invoke
  cases hmethod : call.method with
  | initialize_committee => exact absurd hmethod hm
  | add_member =>
    simp only [committee.add_member, hgate]
    repeat' split
    all_goals simp [Response.error, Response.success, Response.withValue]
  | remove_member =>
    simp only [committee.remove_member, hgate]
    repeat' split
    all_goals simp [Response.error, Response.success, Response.withValue]
  | propose_resolution =>
    simp only [committee.propose_resolution, hgate]
    repeat' split
    all_goals simp [Response.error, Response.success, Response.withValue]
  | approve_resolution =>
    simp only [committee.approve_resolution, hgate]
    repeat' split
    all_goals simp [Response.error, Response.success, Response.withValue]
  | disapprove_resolution =>
    simp only [committee.disapprove_resolution, hgate]
    repeat' split
    all_goals simp [Response.error, Response.success, Response.withValue]
  | list_resolutions =>
    simp only [committee.list_resolutions, hgate]
    repeat' split
    all_goals simp [Response.error, Response.success, Response.withValue]
  | resolution_status =>
    simp only [committee.resolution_status, hgate]
    repeat' split
    all_goals simp [Response.error, Response.success, Response.withValue]
  | issue_resolution_credential =>
    simp only [committee.issue_resolution_credential, hgate]
    repeat' split
    all_goals simp [Response.error, Response.success, Response.withValue]

/-- C31. Committee-not-initialized gate. On an initialized contract whose owner
on record is not the marker "__UNASSIGNED__", each of `add_member`,
`remove_member`, `propose_resolution`, `approve_resolution`,
`disapprove_resolution`, `list_resolutions`, `resolution_status` and
`issue_resolution_credential` returns the error "committee has not been
initialized" and leaves the state as it is. After a successful
`initialize_committee` both opening checks pass, and they pass after every
further sequence of invocations of the nine methods: none of the eight methods
then answers with that error, whatever the request and the caller. -/
theorem committee_gate (d : committee.Deployment) (msg : JValue) (env : Environment)
    (st : ContractState) :
    (∀ owner : String, st.initialized = true → st.owner = some owner →
      owner ≠ committee.unassigned_owner →
      committee.add_member msg env st =
        (Response.error "committee has not been initialized", st) ∧
      committee.remove_member msg env st =
        (Response.error "committee has not been initialized", st) ∧
      committee.propose_resolution d.crypto d.codec msg env st =
        (Response.error "committee has not been initialized", st) ∧
      committee.approve_resolution d.vote msg env st =
        (Response.error "committee has not been initialized", st) ∧
      committee.disapprove_resolution d.vote msg env st =
        (Response.error "committee has not been initialized", st) ∧
      committee.list_resolutions msg env st =
        (Response.error "committee has not been initialized", st) ∧
      committee.resolution_status d.codec msg env st =
        (Response.error "committee has not been initialized", st) ∧
      committee.issue_resolution_credential d.crypto d.codec d.issuer msg env st =
        (Response.error "committee has not been initialized", st)) ∧
    ((committee.initialize_committee msg env st).1.status = true →
      ∀ calls : List committee.Invocation,
        committee.assertCommitteeInitialized
          (committee.invokeAll d calls (committee.initialize_committee msg env st).2) =
          none ∧
        ∀ call : committee.Invocation, call.method ≠ .initialize_committee →
          (committee.invoke d call
            (committee.invokeAll d calls
              (committee.initialize_committee msg env st).2)).1.message ≠
            "committee has not been initialized") := by
  constructor
  · intro owner hinit howner hne
    have hgate : committee.assertCommitteeInitialized st =
        some (Response.error "committee has not been initialized") := by
      rw [committee.assertCommitteeInitialized_owner st owner howner hne, hinit]
      rfl
    refine ⟨?_, ?_, ?_, ?_, ?_, ?_, ?_, ?_⟩
    · unfold committee.add_member
      rw [hgate]
    · unfold committee.remove_member
      rw [hgate]
    · unfold committee.propose_resolution
      rw [hgate]
    · unfold committee.approve_resolution
      rw [hgate]
    · unfold committee.disapprove_resolution
      rw [hgate]
    · unfold committee.list_resolutions
      rw [hgate]
    · unfold committee.resolution_status
      rw [hgate]
    · unfold committee.issue_resolution_credential
      rw [hgate]
  · intro hok calls
    have hgate := committee.gate_stays_open d calls _
      (committee.initialize_committee_opens_gate msg env st hok)
    exact ⟨hgate, fun call hm => committee.invoke_past_gate d call _ hm hgate⟩

/-- Witness of C31: on the contract owned by "owner", A's vote on "H" is turned
away at the gate; after the owner has initialized the committee {A, B, C} and
B has proposed a credential, A's vote on the unknown "H3" gets past the gate
and fails at the store. -/
theorem committee_gate_witness :
    (committee.approve_resolution Sample.deployment.vote (Sample.request "H") (Sample.env "A")
      Sample.ownerState).1.message = "committee has not been initialized" ∧
    (committee.initialize_committee (Sample.initRequest "K" ["A", "B", "C"])
      (Sample.env "owner") Sample.ownerState).1.status = true ∧
    (committee.invoke Sample.deployment
      ⟨.approve_resolution, Sample.request "H3", Sample.env "A"⟩
      (committee.invokeAll Sample.deployment
        [⟨.propose_resolution, Sample.proposal, Sample.env "B"⟩]
        (committee.initialize_committee (Sample.initRequest "K" ["A", "B", "C"])
          (Sample.env "owner") Sample.ownerState).2)).1.message ≠
      "committee has not been initialized" :=
  ⟨congrArg (fun p => p.1.message)
      ((committee_gate Sample.deployment (Sample.request "H") (Sample.env "A")
        Sample.ownerState).1 "owner" rfl rfl (by decide)).2.2.2.1,
    by decide,
    (((committee_gate Sample.deployment (Sample.initRequest "K" ["A", "B", "C"])
      (Sample.env "owner") Sample.ownerState).2 (by decide))
      [⟨.propose_resolution, Sample.proposal, Sample.env "B"⟩]).2
      ⟨.approve_resolution, Sample.request "H3", Sample.env "A"⟩ (by decide)⟩

/-! ## The two signature failures -/

theorem contract.attestation.get_ledger_key_guard (st : ContractState) :
    ¬ (¬ (contract.attestation.get_ledger_key st).1 = true ∧
      (contract.attestation.get_ledger_key st).2.length > 0) := by
  unfold contract.attestation.get_ledger_key
  cases st.ledger_key with
  | none => simp
  | some k => simp

theorem committee.issue_at_signature (crypto : Crypto) (codec : CredentialCodec)
    (issuer : CredentialIssuer) (msg : JValue) (env : Environment) (st : ContractState)
    (hgate : committee.assertCommitteeInitialized st = none)
    (hmember : (Committee.fromStore st.committee_store).is_member env.originator_id_ = true)
    (hschema : JValue.validate_schema
      committee.COMMITTEE_ISSUE_RESOLUTION_CREDENTIAL_PARAM_SCHEMA msg = true) :
    (crypto.b64_decode ((msg.get_string "ledger_signature").getD "") = none →
      committee.issue_resolution_credential crypto codec issuer msg env st =
        (Response.error "failed to decode ledger signature", st)) ∧
    (∀ signature : ByteArray,
      crypto.b64_decode ((msg.get_string "ledger_signature").getD "") = some signature →
      crypto.verify_signature (committee.ledgerPayload env)
        (contract.attestation.get_ledger_key st).2 signature = false →
      committee.issue_resolution_credential crypto codec issuer msg env st =
        (Response.error "failed to verify ledger signature", st)) ∧
    (∀ signature : ByteArray,
      crypto.b64_decode ((msg.get_string "ledger_signature").getD "") = some signature →
      crypto.verify_signature (committee.ledgerPayload env)
        (contract.attestation.get_ledger_key st).2 signature = true →
      (committee.issue_resolution_credential crypto codec issuer msg env st).1.message ≠
          "failed to decode ledger signature" ∧
        (committee.issue_resolution_credential crypto codec issuer msg env st).1.message ≠
          "failed to verify ledger signature") := by
  have hguard := contract.attestation.get_ledger_key_guard st
  refine ⟨?_, ?_, ?_⟩
  · intro hdec
    unfold committee.issue_resolution_credential
    simp only [hgate, hmember, hschema, not_true_eq_false, if_false, if_neg hguard, hdec]
  · intro signature hdec hver
    unfold committee.issue_resolution_credential
    simp only [hgate, hmember, hschema, not_true_eq_false, if_false, if_neg hguard, hdec, hver,
      Bool.false_eq_true, not_false_eq_true, if_true]
  · intro signature hdec hver
    unfold committee.issue_resolution_credential
    simp only [hgate, hmember, hschema, not_true_eq_false, if_false, if_neg hguard, hdec, hver]
    constructor
    · repeat' split
      all_goals simp [Response.error, Response.withValue]
    · repeat' split
      all_goals simp [Response.error, Response.withValue]

/-- C32. In `issue_resolution_credential`, past the opening checks, the member
check and the schema check: a `ledger_signature` that fails base64 decoding is
answered with "failed to decode ledger signature", whatever the signature
verification would say, so without consulting it; a signature that decodes and
does not verify over the payload with the ledger key is answered with "failed
to verify ledger signature". The two answers differ, and each is given in its
own case only: the first exactly when the decoding fails, the second exactly
when the signature decodes and does not verify. The state is unchanged in both
cases. -/
theorem signature_failures (crypto : Crypto) (codec : CredentialCodec)
    (issuer : CredentialIssuer) (msg : JValue) (env : Environment) (st : ContractState)
    (hgate : committee.assertCommitteeInitialized st = none)
    (hmember : (Committee.fromStore st.committee_store).is_member env.originator_id_ = true)
    (hschema : JValue.validate_schema
      committee.COMMITTEE_ISSUE_RESOLUTION_CREDENTIAL_PARAM_SCHEMA msg = true) :
    (crypto.b64_decode ((msg.get_string "ledger_signature").getD "") = none →
      ∀ verify : ByteArray → String → ByteArray → Bool,
        committee.issue_resolution_credential { crypto with verify_signature := verify } codec
          issuer msg env st = (Response.error "failed to decode ledger signature", st)) ∧
    (∀ signature : ByteArray,
      crypto.b64_decode ((msg.get_string "ledger_signature").getD "") = some signature →
      crypto.verify_signature (committee.ledgerPayload env)
        (contract.attestation.get_ledger_key st).2 signature = false →
      committee.issue_resolution_credential crypto codec issuer msg env st =
        (Response.error "failed to verify ledger signature", st)) ∧
    ((committee.issue_resolution_credential crypto codec issuer msg env st).1.message =
        "failed to decode ledger signature" ↔
      crypto.b64_decode ((msg.get_string "ledger_signature").getD "") = none) ∧
    ((committee.issue_resolution_credential crypto codec issuer msg env st).1.message =
        "failed to verify ledger signature" ↔
      ∃ signature : ByteArray,
        crypto.b64_decode ((msg.get_string "ledger_signature").getD "") = some signature ∧
        crypto.verify_signature (committee.ledgerPayload env)
          (contract.attestation.get_ledger_key st).2 signature = false) ∧
    Response.error "failed to decode ledger signature" ≠
      Response.error "failed to verify ledger signature" := by
  obtain ⟨h1, h2, h3⟩ := committee.issue_at_signature crypto codec issuer msg env st hgate
    hmember hschema
  refine ⟨?_, h2, ?_, ?_, ?_⟩
  · intro hdec verify
    exact (committee.issue_at_signature { crypto with verify_signature := verify } codec issuer
      msg env st hgate hmember hschema).1 hdec
  · cases hdec : crypto.b64_decode ((msg.get_string "ledger_signature").getD "") with
    | none =>
      rw [h1 hdec]
      exact ⟨fun _ => rfl, fun _ => rfl⟩
    | some signature =>
      cases hver : crypto.verify_signature (committee.ledgerPayload env)
          (contract.attestation.get_ledger_key st).2 signature with
      | false =>
        rw [h2 signature hdec hver]
        constructor
        · intro hc
          simp [Response.error] at hc
        · intro hc
          exact Option.noConfusion hc
      | true =>
        constructor
        · intro hc
          exact absurd hc (h3 signature hdec hver).1
        · intro hc
          exact Option.noConfusion hc
  · cases hdec : crypto.b64_decode ((msg.get_string "ledger_signature").getD "") with
    | none =>
      rw [h1 hdec]
      constructor
      · intro hc
        simp [Response.error] at hc
      · rintro ⟨signature, hc, -⟩
        exact Option.noConfusion hc
    | some signature =>
      cases hver : crypto.verify_signature (committee.ledgerPayload env)
          (contract.attestation.get_ledger_key st).2 signature with
      | false =>
        rw [h2 signature hdec hver]
        exact ⟨fun _ => ⟨signature, rfl, hver⟩, fun _ => rfl⟩
      | true =>
        constructor
        · intro hc
          exact absurd hc (h3 signature hdec hver).2
        · rintro ⟨signature2, hc, hv2⟩
          rw [← Option.some.inj hc, hver] at hv2
          exact absurd hv2 (by decide)
  · intro hc
    have := congrArg Response.message hc
    exact absurd this (by decide)

/-- Witness of C32: on the contract that holds the approved "H", member A sends
the empty signature, which does not decode, and then a signature that decodes
and does not verify under the key "other-key". -/
theorem signature_failures_witness :
    (committee.issue_resolution_credential Sample.ledgerCrypto Sample.codec Sample.issuer
      (Sample.issueRequest "" "H") (Sample.env "A") Sample.decidedState).1.message =
        "failed to decode ledger signature" ∧
    (committee.issue_resolution_credential Sample.ledgerCrypto Sample.codec Sample.issuer
      (Sample.issueRequest "sig" "H") (Sample.env "A")
      { Sample.decidedState with ledger_key := some "other-key" }).1.message =
        "failed to verify ledger signature" :=
  ⟨(signature_failures Sample.ledgerCrypto Sample.codec Sample.issuer
      (Sample.issueRequest "" "H") (Sample.env "A") Sample.decidedState rfl (by decide)
      rfl).2.2.1.mpr rfl,
    congrArg (fun p => p.1.message)
      ((signature_failures Sample.ledgerCrypto Sample.codec Sample.issuer
        (Sample.issueRequest "sig" "H") (Sample.env "A")
        { Sample.decidedState with ledger_key := some "other-key" } rfl (by decide)
        rfl).2.1 [] rfl (by decide))⟩

/-! ## Read-only methods -/

theorem committee.list_resolutions_flag (msg : JValue) (env : Environment)
    (st : ContractState) (h : (committee.list_resolutions msg env st).1.status = true) :
    ∃ result : JValue,
      (committee.list_resolutions msg env st).1 = Response.withValue result false := by
  cases hgate : committee.assertCommitteeInitialized st with
  | some rsp =>
    have hs := committee.assertCommitteeInitialized_status st rsp hgate
    unfold committee.list_resolutions at h
    rw [hgate] at h
    simp only at h
    rw [hs] at h
    exact absurd h (by decide)
  | none =>
    revert h
    unfold committee.list_resolutions
    simp only [hgate]
    repeat' split
    all_goals first
      | (intro _; exact ⟨_, rfl⟩)
      | (intro h; simp [Response.error] at h)

theorem committee.resolution_status_flag (codec : CredentialCodec) (msg : JValue)
    (env : Environment) (st : ContractState)
    (h : (committee.resolution_status codec msg env st).1.status = true) :
    ∃ result : JValue,
      (committee.resolution_status codec msg env st).1 = Response.withValue result false := by
  obtain ⟨_, _, _, -, -, hrsp⟩ := committee.resolution_status_success codec msg env st h
  exact ⟨_, hrsp⟩

theorem committee.issue_resolution_credential_flag (crypto : Crypto)
    (codec : CredentialCodec) (issuer : CredentialIssuer) (msg : JValue) (env : Environment)
    (st : ContractState)
    (h : (committee.issue_resolution_credential crypto codec issuer msg env st).1.status =
      true) :
    ∃ serialized_vc : JValue,
      (committee.issue_resolution_credential crypto codec issuer msg env st).1 =
        Response.withValue serialized_vc false := by
  cases hgate : committee.assertCommitteeInitialized st with
  | some rsp =>
    have hs := committee.assertCommitteeInitialized_status st rsp hgate
    unfold committee.issue_resolution_credential at h
    rw [hgate] at h
    simp only at h
    rw [hs] at h
    exact absurd h (by decide)
  | none =>
    revert h
    unfold committee.issue_resolution_credential
    simp only [hgate]
    repeat' split
    all_goals first
      | (intro _; exact ⟨_, rfl⟩)
      | (intro h; simp [Response.error] at h)

/-- C33. Read-only methods: `list_resolutions`, `resolution_status` and
`issue_resolution_credential` return the contract state they were given, the
committee store, the resolution store and the ledger key included, in every
outcome; when they succeed the response carries the result with the
state-changed flag false. The verifiable credential that
`issue_resolution_credential` issues is the value of the response, and no
store holds anything it did not hold before. -/
theorem read_only_methods (d : committee.Deployment) (msg : JValue) (env : Environment)
    (st : ContractState) :
    ((committee.list_resolutions msg env st).2 = st ∧
      (committee.resolution_status d.codec msg env st).2 = st ∧
      (committee.issue_resolution_credential d.crypto d.codec d.issuer msg env st).2 = st) ∧
    ((committee.list_resolutions msg env st).1.status = true →
      (committee.list_resolutions msg env st).1.state_changed = false) ∧
    ((committee.resolution_status d.codec msg env st).1.status = true →
      (committee.resolution_status d.codec msg env st).1.state_changed = false) ∧
    ((committee.issue_resolution_credential d.crypto d.codec d.issuer msg env st).1.status =
        true →
      ∃ serialized_vc : JValue,
        (committee.issue_resolution_credential d.crypto d.codec d.issuer msg env st).1.value =
          some serialized_vc ∧
        (committee.issue_resolution_credential d.crypto d.codec d.issuer msg env
          st).1.state_changed = false ∧
        (committee.issue_resolution_credential d.crypto d.codec d.issuer msg env
          st).2.committee_store = st.committee_store ∧
        (committee.issue_resolution_credential d.crypto d.codec d.issuer msg env
          st).2.resolution_store = st.resolution_store) := by
  refine ⟨⟨committee.list_resolutions_frame msg env st,
    committee.resolution_status_frame d.codec msg env st,
    committee.issue_resolution_credential_frame d.crypto d.codec d.issuer msg env st⟩,
    ?_, ?_, ?_⟩
  · intro h
    obtain ⟨result, hrsp⟩ := committee.list_resolutions_flag msg env st h
    rw [hrsp]
    rfl
  · intro h
    obtain ⟨result, hrsp⟩ := committee.resolution_status_flag d.codec msg env st h
    rw [hrsp]
    rfl
  · intro h
    obtain ⟨serialized_vc, hrsp⟩ :=
      committee.issue_resolution_credential_flag d.crypto d.codec d.issuer msg env st h
    refine ⟨serialized_vc, ?_, ?_, ?_, ?_⟩
    · rw [hrsp]
      rfl
    · rw [hrsp]
      rfl
    · rw [committee.issue_resolution_credential_frame]
    · rw [committee.issue_resolution_credential_frame]

/-- Witness of C33: on the contract that holds the approved "H" and the
rejected "H2", member A obtains the credential of "H" with a signature that
verifies, and the list of resolutions is read. -/
theorem read_only_methods_witness :
    (committee.issue_resolution_credential Sample.ledgerCrypto Sample.codec Sample.issuer
      (Sample.issueRequest "sig" "H") (Sample.env "A") Sample.decidedState).1.status = true ∧
    (committee.issue_resolution_credential Sample.ledgerCrypto Sample.codec Sample.issuer
      (Sample.issueRequest "sig" "H") (Sample.env "A") Sample.decidedState).1.state_changed =
        false ∧
    (committee.list_resolutions (.object []) (Sample.env "D") Sample.decidedState).1.status =
      true ∧
    (committee.list_resolutions (.object []) (Sample.env "D")
      Sample.decidedState).1.state_changed = false :=
  have h := read_only_methods Sample.deployment (Sample.issueRequest "sig" "H")
    (Sample.env "A") Sample.decidedState
  have h2 := read_only_methods Sample.deployment (.object []) (Sample.env "D")
    Sample.decidedState
  ⟨by decide,
    by
      obtain ⟨_, -, hflag, -, -⟩ := h.2.2.2 (by decide)
      exact hflag,
    by decide, h2.2.1 (by decide)⟩

/-! ## The membership methods of the contract -/

theorem committee.add_member_iff (msg : JValue) (env : Environment) (st : ContractState)
    (hgate : committee.assertCommitteeInitialized st = none)
    (hschema : JValue.validate_schema committee.COMMITTEE_ADD_MEMBER_PARAM_SCHEMA msg = true) :
    (committee.add_member msg env st).1.status = true ↔
      (Committee.fromStore st.committee_store).is_member env.originator_id_ = true := by
  unfold committee.add_member
  by_cases h : (Committee.fromStore st.committee_store).is_member env.originator_id_ = true
  · simp [hgate, hschema, h, Response.success]
  · simp [hgate, hschema, h, Response.error]

theorem committee.remove_member_iff (msg : JValue) (env : Environment) (st : ContractState)
    (hgate : committee.assertCommitteeInitialized st = none)
    (hschema : JValue.validate_schema committee.COMMITTEE_REMOVE_MEMBER_PARAM_SCHEMA msg =
      true) :
    (committee.remove_member msg env st).1.status = true ↔
      (Committee.fromStore st.committee_store).is_member env.originator_id_ = true := by
  unfold committee.remove_member
  by_cases h : (Committee.fromStore st.committee_store).is_member env.originator_id_ = true
  · simp [hgate, hschema, h, Response.success]
  · simp [hgate, hschema, h, Response.error]

theorem committee.add_member_store_free (msg : JValue) (env : Environment)
    (st : ContractState) (store : KeyValueStore) :
    (committee.add_member msg env { st with resolution_store := store }).1 =
      (committee.add_member msg env st).1 := by
  have hg : committee.assertCommitteeInitialized { st with resolution_store := store } =
      committee.assertCommitteeInitialized st := rfl
  unfold committee.add_member
  rw [hg]
  cases committee.assertCommitteeInitialized st with
  | some rsp => rfl
  | none =>
    dsimp only
    split_ifs <;> rfl

theorem committee.remove_member_store_free (msg : JValue) (env : Environment)
    (st : ContractState) (store : KeyValueStore) :
    (committee.remove_member msg env { st with resolution_store := store }).1 =
      (committee.remove_member msg env st).1 := by
  have hg : committee.assertCommitteeInitialized { st with resolution_store := store } =
      committee.assertCommitteeInitialized st := rfl
  unfold committee.remove_member
  rw [hg]
  cases committee.assertCommitteeInitialized st with
  | some rsp => rfl
  | none =>
    dsimp only
    split_ifs <;> rfl

theorem committee.membership_methods (d : committee.Deployment) (msg : JValue)
    (env : Environment) (st : ContractState) :
    (committee.assertCommitteeInitialized st = none →
      (JValue.validate_schema committee.COMMITTEE_ADD_MEMBER_PARAM_SCHEMA msg = true →
        ((committee.add_member msg env st).1.status = true ↔
          (Committee.fromStore st.committee_store).is_member env.originator_id_ = true)) ∧
      (JValue.validate_schema committee.COMMITTEE_REMOVE_MEMBER_PARAM_SCHEMA msg = true →
        ((committee.remove_member msg env st).1.status = true ↔
          (Committee.fromStore st.committee_store).is_member env.originator_id_ = true))) ∧
    (∀ store : KeyValueStore,
      (committee.add_member msg env { st with resolution_store := store }).1 =
        (committee.add_member msg env st).1 ∧
      (committee.remove_member msg env { st with resolution_store := store }).1 =
        (committee.remove_member msg env st).1) ∧
    ((committee.add_member msg env st).2 = st ∧ (committee.remove_member msg env st).2 = st) ∧
    ((committee.initialize_committee msg env st).1.status = true →
      ∀ calls : List committee.Invocation,
        (∀ call ∈ calls, call.method = .initialize_committee →
          call.env.originator_id_ ≠ committee.unassigned_owner) →
        (committee.invokeAll d calls
            (committee.initialize_committee msg env st).2).committee_store =
          (committee.initialize_committee msg env st).2.committee_store) := by
  refine ⟨?_, ?_, ⟨committee.add_member_frame msg env st,
    committee.remove_member_frame msg env st⟩, ?_⟩
  · intro hgate
    exact ⟨committee.add_member_iff msg env st hgate,
      committee.remove_member_iff msg env st hgate⟩
  · intro store
    exact ⟨committee.add_member_store_free msg env st store,
      committee.remove_member_store_free msg env st store⟩
  · intro hok calls hcalls
    obtain ⟨items, committee1, -, -, -, -, -, -, -, -, heq⟩ :=
      committee.initialize_committee_success msg env st hok
    have howner : (committee.initialize_committee msg env st).2.owner =
        some committee.unassigned_owner := by rw [heq]
    exact (committee.invokeAll_frame d calls _ howner hcalls).2.2

/-- C34, the code at the failing input. On the contract of the committee
{A, B, C}, `add_member` succeeds for the member A, also when the request names
a resolution that does not exist, and fails for D, who is no member. After the
owner has initialized the committee {A, B, C}, the committee is A, B, C; one
`initialize_committee` invocation by an originator whose identity is the
marker "__UNASSIGNED__" then succeeds and adds "D": the committee is A, B, C,
D. The same invocation by the former owner is refused and the committee stays
A, B, C. -/
theorem committee_fixed :
    (committee.add_member (Sample.request "no such resolution") (Sample.env "A")
      Sample.freshState).1.status = true ∧
    (committee.add_member (Sample.request "H") (Sample.env "D")
      Sample.freshState).1.status = false ∧
    (Committee.fromStore
      (committee.initialize_committee (Sample.initRequest "K" ["A", "B", "C"])
        (Sample.env "owner") Sample.ownerState).2.committee_store).members_ =
      ["A", "B", "C"] ∧
    (committee.invoke Sample.deployment
      ⟨.initialize_committee, Sample.initRequest "K" ["D"], Sample.env "__UNASSIGNED__"⟩
      (committee.initialize_committee (Sample.initRequest "K" ["A", "B", "C"])
        (Sample.env "owner") Sample.ownerState).2).1.status = true ∧
    (Committee.fromStore
      (committee.invokeAll Sample.deployment
        [⟨.initialize_committee, Sample.initRequest "K" ["D"], Sample.env "__UNASSIGNED__"⟩]
        (committee.initialize_committee (Sample.initRequest "K" ["A", "B", "C"])
          (Sample.env "owner") Sample.ownerState).2).committee_store).members_ =
      ["A", "B", "C", "D"] ∧
    (Committee.fromStore
      (committee.invokeAll Sample.deployment
        [⟨.initialize_committee, Sample.initRequest "K" ["D"], Sample.env "owner"⟩]
        (committee.initialize_committee (Sample.initRequest "K" ["A", "B", "C"])
          (Sample.env "owner") Sample.ownerState).2).committee_store).members_ =
      ["A", "B", "C"] := by
  decide

/-! ## Voters are committee members -/

theorem Resolution.votersIn_approve (members : List String) (r : Resolution) (m : String)
    (hm : m ∈ members) (h : r.votersIn members) : (r.approve m).2.votersIn members := by
  refine ⟨Resolution.votesWellFormed_call r (.approve m) h.1, ?_⟩
  intro x hx
  rw [Resolution.approve_snd] at hx
  unfold Resolution.hasVoted at hx
  split_ifs at hx
  · rcases hx with hx | hx
    · rcases List.mem_append.mp hx with hx | hx
      · exact h.2 x (Or.inl hx)
      · rw [List.mem_singleton.mp hx]
        exact hm
    · exact h.2 x (Or.inr hx)
  · exact h.2 x hx

theorem Resolution.votersIn_disapprove (members : List String) (r : Resolution) (m : String)
    (hm : m ∈ members) (h : r.votersIn members) : (r.disapprove m).2.votersIn members := by
  refine ⟨Resolution.votesWellFormed_call r (.disapprove m) h.1, ?_⟩
  intro x hx
  rw [Resolution.disapprove_snd] at hx
  unfold Resolution.hasVoted at hx
  split_ifs at hx
  · rcases hx with hx | hx
    · exact h.2 x (Or.inl hx)
    · rcases List.mem_append.mp hx with hx | hx
      · exact h.2 x (Or.inr hx)
      · rw [List.mem_singleton.mp hx]
        exact hm
  · exact h.2 x hx

theorem committee.votersIn_vote (vote : committee.VoteFunction)
    (hvote : committee.KeepsVotes vote) (members : List String) (c : Committee)
    (r : Resolution) (h : r.votersIn members) : (vote c r).2.votersIn members := by
  obtain ⟨hp, hn⟩ := hvote c r
  unfold Resolution.votersIn Resolution.votesWellFormed Resolution.hasVoted at h ⊢
  rw [hp, hn]
  exact h

theorem Resolution.votersIn_fromCredential (crypto : Crypto) (members : List String)
    (serialized_credential : String) :
    (Resolution.fromCredential crypto serialized_credential).votersIn members := by
  refine ⟨Resolution.votesWellFormed_of_nil _ rfl rfl, ?_⟩
  intro m hm
  rcases hm with hm | hm
  · exact absurd hm (List.not_mem_nil _)
  · exact absurd hm (List.not_mem_nil _)

theorem Resolution.votersIn_c_strings (members : List String) (r : Resolution)
    (hmembers : ∀ m ∈ members, ww.NulFree m) (h : r.votersIn members) :
    r.c_strings.votersIn members := by
  have hp : r.positive_votes_.map c_str = r.positive_votes_ :=
    map_c_str_of_nulFree _ (fun m hm => hmembers m (h.2 m (Or.inl hm)))
  have hn : r.negative_votes_.map c_str = r.negative_votes_ :=
    map_c_str_of_nulFree _ (fun m hm => hmembers m (h.2 m (Or.inr hm)))
  unfold Resolution.votersIn Resolution.votesWellFormed at h ⊢
  unfold Resolution.c_strings
  simp only [hp, hn]
  exact h

theorem committee.invoke_votersIn (d : committee.Deployment)
    (hvote : committee.KeepsVotes d.vote) (call : committee.Invocation) (st : ContractState)
    (members : List String)
    (hmembers : (Committee.fromStore st.committee_store).members_ = members)
    (hcall : call.method ≠ .initialize_committee)
    (h : ResolutionManager.StoredAll (Resolution.votersIn members) st.resolution_store) :
    ResolutionManager.StoredAll (Resolution.votersIn members)
      (committee.invoke d call st).2.resolution_store := by
  have hnul : ∀ m ∈ members, NulFree m := by
    rw [← hmembers]
    exact Committee.fromStore_nulFree _
  unfold committee.invoke
  cases hm : call.method with
  | initialize_committee => exact absurd hm hcall
  | add_member =>
    simp only
    rw [committee.add_member_frame]
    exact h
  | remove_member =>
    simp only
    rw [committee.remove_member_frame]
    exact h
  | propose_resolution =>
    simp only
    rcases committee.propose_resolution_adds d.crypto d.codec call.msg call.env st with
      hs | ⟨s, hs⟩
    · rw [hs]
      exact h
    · rw [hs]
      exact ResolutionManager.storedAll_add _ _ _
        (Resolution.votersIn_c_strings members _ hnul
          (Resolution.votersIn_fromCredential d.crypto members s)) h
  | approve_resolution =>
    simp only
    rcases committee.approve_resolution_cases d.vote call.msg call.env st with
      hA | ⟨R2, r, r2, -, hget, -, hv, -, hok, hst⟩
    · rw [hA.2]
      exact h
    · rw [hst]
      have hmem : call.env.originator_id_ ∈ members := by
        rw [← hmembers]
        exact committee.member_of_vote d.vote call.msg call.env st (Or.inl hok)
      have hr2 : r2 = (d.vote (Committee.fromStore st.committee_store)
          (r.approve call.env.originator_id_).2).2 := by rw [hv]
      refine ResolutionManager.storedAll_update _ _ r2 ?_ h
      rw [hr2]
      exact Resolution.votersIn_c_strings members _ hnul
        (committee.votersIn_vote d.vote hvote members _ _
          (Resolution.votersIn_approve members r _ hmem (h R2 r hget)))
  | disapprove_resolution =>
    simp only
    rcases committee.disapprove_resolution_cases d.vote call.msg call.env st with
      hA | ⟨R2, r, r2, -, hget, -, hv, -, hok, hst⟩
    · rw [hA.2]
      exact h
    · rw [hst]
      have hmem : call.env.originator_id_ ∈ members := by
        rw [← hmembers]
        exact committee.member_of_vote d.vote call.msg call.env st (Or.inr hok)
      have hr2 : r2 = (d.vote (Committee.fromStore st.committee_store)
          (r.disapprove call.env.originator_id_).2).2 := by rw [hv]
      refine ResolutionManager.storedAll_update _ _ r2 ?_ h
      rw [hr2]
      exact Resolution.votersIn_c_strings members _ hnul
        (committee.votersIn_vote d.vote hvote members _ _
          (Resolution.votersIn_disapprove members r _ hmem (h R2 r hget)))
  | list_resolutions =>
    simp only
    rw [committee.list_resolutions_frame]
    exact h
  | resolution_status =>
    simp only
    rw [committee.resolution_status_frame]
    exact h
  | issue_resolution_credential =>
    simp only
    rw [committee.issue_resolution_credential_frame]
    exact h

theorem committee.invokeAll_votersIn (d : committee.Deployment)
    (hvote : committee.KeepsVotes d.vote) (members : List String)
    (calls : List committee.Invocation) :
    ∀ st : ContractState,
      (Committee.fromStore st.committee_store).members_ = members →
      (∀ call ∈ calls, call.method ≠ .initialize_committee) →
      ResolutionManager.StoredAll (Resolution.votersIn members) st.resolution_store →
      ResolutionManager.StoredAll (Resolution.votersIn members)
          (committee.invokeAll d calls st).resolution_store ∧
        (committee.invokeAll d calls st).committee_store = st.committee_store := by
  induction calls with
  | nil => exact fun st _ _ h => ⟨h, rfl⟩
  | cons call calls ih =>
    intro st hmembers hcalls h
    have hcall := hcalls call (List.mem_cons_self _ _)
    rw [committee.invokeAll_cons]
    obtain ⟨store, hstore⟩ := committee.invoke_other d call st hcall
    have hcs : (committee.commit st (committee.invoke d call st)).committee_store =
        st.committee_store := by
      unfold committee.commit
      split
      · rw [hstore]
      · rfl
    have hstep : ResolutionManager.StoredAll (Resolution.votersIn members)
        (committee.commit st (committee.invoke d call st)).resolution_store := by
      unfold committee.commit
      split
      · exact committee.invoke_votersIn d hvote call st members hmembers hcall h
      · exact h
    obtain ⟨h4, h5⟩ := ih _ (by rw [hcs]; exact hmembers)
      (fun c hc => hcalls c (List.mem_cons_of_mem _ hc)) hstep
    exact ⟨h4, h5.trans hcs⟩

/-- C36. Voters are committee members. The vote function does not alter the
vote sequences, `initialize_committee` has succeeded, and every resolution
stored at that moment has well-formed votes cast by members of the committee
just initialized, as is the case when no resolution is stored. Then after every
sequence of invocations of the other eight methods, `propose_resolution`,
`approve_resolution`, `disapprove_resolution`, `add_member` and `remove_member`
among them, every identity in the positive or negative votes of a stored
resolution is a member of the committee, and the number of positive votes
plus the number of negative votes is at most the committee size. -/
theorem voters_are_members (d : committee.Deployment)
    (hvote : committee.KeepsVotes d.vote) (msg : JValue) (env : Environment)
    (st : ContractState) (hok : (committee.initialize_committee msg env st).1.status = true)
    (hstart : ResolutionManager.StoredAll
      (Resolution.votersIn
        (Committee.fromStore
          (committee.initialize_committee msg env st).2.committee_store).members_)
      st.resolution_store)
    (calls : List committee.Invocation)
    (hcalls : ∀ call ∈ calls, call.method ≠ .initialize_committee)
    (key : String) (resolution : Resolution)
    (hget : ResolutionManager.get_resolution
      (committee.invokeAll d calls
        (committee.initialize_committee msg env st).2).resolution_store key
      Resolution.default = (true, resolution)) :
    (∀ m : String, m ∈ resolution.positive_votes_ ∨ m ∈ resolution.negative_votes_ →
      (Committee.fromStore
        (committee.invokeAll d calls
          (committee.initialize_committee msg env st).2).committee_store).is_member m =
        true) ∧
    resolution.positive_votes_.length + resolution.negative_votes_.length ≤
      (Committee.fromStore
        (committee.invokeAll d calls
          (committee.initialize_committee msg env st).2).committee_store).get_members.length := by
  have _ := hok
  have hstore : (committee.initialize_committee msg env st).2.resolution_store =
      st.resolution_store := committee.initialize_committee_resolution_store msg env st
  obtain ⟨hall, hcs⟩ := committee.invokeAll_votersIn d hvote _ calls
    (committee.initialize_committee msg env st).2 rfl hcalls (by rw [hstore]; exact hstart)
  have hr := hall key resolution hget
  rw [hcs]
  refine ⟨?_, ?_⟩
  · intro m hm
    unfold Committee.is_member
    exact decide_eq_true (hr.2 m hm)
  · exact Resolution.votersIn_count _ resolution hr

theorem Sample.ownerState_initialized :
    (committee.initialize_committee (Sample.initRequest "ledger-key" ["A", "B", "C"])
      (Sample.env "owner") Sample.ownerState).2 = Sample.freshState :=
  rfl

/-- Witness of C36: the owner initializes the committee {A, B, C} on the empty
index; D proposes a credential and A approves it. The resolution "H" then holds
the vote of A, who is a member. -/
theorem voters_are_members_witness :
    ResolutionManager.get_resolution
      (committee.invokeAll Sample.deployment
        [ ⟨.propose_resolution, Sample.proposal, Sample.env "D"⟩,
          ⟨.approve_resolution, Sample.request "H", Sample.env "A"⟩ ]
        (committee.initialize_committee (Sample.initRequest "ledger-key" ["A", "B", "C"])
          (Sample.env "owner") Sample.ownerState).2).resolution_store "H"
      Resolution.default = (true, Sample.pending ["A"] []) ∧
    (Committee.fromStore
      (committee.invokeAll Sample.deployment
        [ ⟨.propose_resolution, Sample.proposal, Sample.env "D"⟩,
          ⟨.approve_resolution, Sample.request "H", Sample.env "A"⟩ ]
        (committee.initialize_committee (Sample.initRequest "ledger-key" ["A", "B", "C"])
          (Sample.env "owner") Sample.ownerState).2).committee_store).is_member "A" = true :=
  have hget : ResolutionManager.get_resolution
      (committee.invokeAll Sample.deployment
        [ ⟨.propose_resolution, Sample.proposal, Sample.env "D"⟩,
          ⟨.approve_resolution, Sample.request "H", Sample.env "A"⟩ ]
        (committee.initialize_committee (Sample.initRequest "ledger-key" ["A", "B", "C"])
          (Sample.env "owner") Sample.ownerState).2).resolution_store "H"
      Resolution.default = (true, Sample.pending ["A"] []) := by
    rw [Sample.ownerState_initialized]
    decide
  have h := voters_are_members Sample.deployment
    (fun c r => ⟨(committee.committee_vote_function_decidesStatusOnly c r).2.2.1,
      (committee.committee_vote_function_decidesStatusOnly c r).2.2.2⟩)
    (Sample.initRequest "ledger-key" ["A", "B", "C"]) (Sample.env "owner") Sample.ownerState
    (by decide)
    (ResolutionManager.storedAll_initialize _ _
      (ResolutionManager.storedAll_of_empty _ Sample.emptyStore rfl))
    [ ⟨.propose_resolution, Sample.proposal, Sample.env "D"⟩,
      ⟨.approve_resolution, Sample.request "H", Sample.env "A"⟩ ]
    (by decide) "H" (Sample.pending ["A"] []) hget
  ⟨hget, h.1 "A" (Or.inl (List.mem_singleton.mpr rfl))⟩

end identity
end ww
